import Mathlib

/-!
# IPL2025 dashboard: team-name resolver and standings simulator

A shallow embedding of `src/components/Dashboard.jsx`:
`normalizeTeamName` (lines 38-80) and `getSimulatedStandings` (lines 108-175).

Modelling conventions.
* A JavaScript string is a `List Char` (`Str`).
* `toLowerCase` maps the ASCII and Latin-1 capitals and the Kelvin sign U+212A
  (see `toLowerChar`); capitals of other scripts are left as they are. The
  canonical team list, the alias table and the regular expression `/^[A-Z]+/`
  only involve ASCII letters.
* White space (`trim`, `\s`) is the full ECMAScript set.
* The counters `P`, `W`, `L`, `PTS`, `NR`, `POS` are integers, `NRR`, the
  probabilities and the draws of `Math.random` are rationals (every finite
  double is a rational). The quotient of line 136 is rounded to the nearest
  double (`toDouble`); the sums of the counters are exact, and of the
  comparator of the sort only the sign is used, which rounding keeps.
* `Math.random()` is a stream `draws : Nat → ℚ`; the fixture at index `k`
  consumes `draws k`.
-/

namespace IPL

/-- A JavaScript string, as its sequence of characters. -/
abbrev Str := List Char

/-! ## String primitives used by the source -/

/-- ECMAScript white space and line terminators: what `trim()` strips and `\s` matches. -/
def isWhiteSpace (c : Char) : Bool :=
  let n := c.toNat
  (9 ≤ n && n ≤ 13) || n == 0x20 || n == 0xA0 || n == 0x1680 ||
  (0x2000 ≤ n && n ≤ 0x200A) || n == 0x2028 || n == 0x2029 || n == 0x202F ||
  n == 0x205F || n == 0x3000 || n == 0xFEFF

/-- The character class `[A-Z]`. -/
def isUpperAZ (c : Char) : Bool := 'A' ≤ c && c ≤ 'Z'

/-- Lowercase form of one character, as `String.prototype.toLowerCase` maps it: the ASCII
capitals `A`..`Z` and the Latin-1 capitals U+00C0..U+00DE (U+00D7, the multiplication sign, apart)
move 32 code points up, and the Kelvin sign U+212A becomes `k`. Capitals of other scripts are left
as they are. The Kelvin sign is the only character outside ASCII whose lowercase form is made of
ASCII characters, and the team names, the table keys and the keys of `Object.prototype` are all
ASCII, so every comparison of the resolver is decided as in the program; for a capital of another
script only the spelling of that character inside a returned fallback key differs. -/
def toLowerChar (c : Char) : Char :=
  if c.toNat = 0x212A then 'k'
  else if 0xC0 ≤ c.toNat ∧ c.toNat ≤ 0xDE ∧ c.toNat ≠ 0xD7 then Char.ofNat (c.toNat + 32)
  else c.toLower

/-- `s.toLowerCase()`, character by character. -/
def toLowerCase (s : Str) : Str := s.map toLowerChar

/-- `s.trim()`. -/
def trim (s : Str) : Str :=
  ((s.dropWhile isWhiteSpace).reverse.dropWhile isWhiteSpace).reverse

/-- `s.replace(/\s+/g, "")`: every run of white space is deleted. -/
def removeWhiteSpace (s : Str) : Str := s.filter (fun c => !isWhiteSpace c)

/-- The separator `" - "` between a team name and a score suffix. -/
def scoreSeparator : Str := [' ', '-', ' ']

/-- `s.split(" - ")[0]`: the part of `s` before the first `" - "`, all of `s` when there is none. -/
def splitHead : Str → Str
  | [] => []
  | c :: cs => if scoreSeparator.isPrefixOf (c :: cs) then [] else c :: splitHead cs

/-- `s.match(/^[A-Z]+/)`: the maximal leading run of upper-case letters, `none` (null) when empty. -/
def matchLeadingUpper (s : Str) : Option Str :=
  match s.takeWhile isUpperAZ with
  | [] => none
  | run => some run

/-- `s.split(c)` for a one-character separator; the empty string splits into `[""]`. -/
def split (sep : Char) : Str → List Str
  | [] => [[]]
  | c :: cs =>
    if c = sep then [] :: split sep cs
    else
      match split sep cs with
      | [] => [[c]]
      | p :: ps => (c :: p) :: ps

/-- `xs.join(c)` for a one-character separator. -/
def join (sep : Char) : List Str → Str
  | [] => []
  | [x] => x
  | x :: y :: rest => x ++ sep :: join sep (y :: rest)

/-- `xs.slice(-5)`: the last five elements (all of them when there are fewer). -/
def sliceLast5 {α : Type} (xs : List α) : List α := xs.drop (xs.length - 5)

/-! ## Values returned by the resolver -/

/-- The values `normalizeTeamName` can return: a string, or the object found under
an inherited key of `Object.prototype` when the alias table (an object literal) is
indexed with that key. -/
inductive JsValue where
  | str (s : Str)
  | inherited (key : Str)
  deriving DecidableEq, Repr

/-- A canonical team and its logo asset (lines 24-35). -/
structure Team where
  name : Str
  logo : Str
  deriving DecidableEq, Repr

/-- The constant `iplTeams` (lines 24-35). -/
def iplTeams : List Team :=
  [ ⟨"Chennai Super Kings".toList, "csk.avif".toList⟩,
    ⟨"Mumbai Indians".toList, "mi.avif".toList⟩,
    ⟨"Royal Challengers Bengaluru".toList, "rcb.avif".toList⟩,
    ⟨"Kolkata Knight Riders".toList, "kkr.avif".toList⟩,
    ⟨"Sunrisers Hyderabad".toList, "srh.avif".toList⟩,
    ⟨"Delhi Capitals".toList, "dc.avif".toList⟩,
    ⟨"Punjab Kings".toList, "pk.avif".toList⟩,
    ⟨"Rajasthan Royals".toList, "rr.avif".toList⟩,
    ⟨"Gujarat Titans".toList, "gt.avif".toList⟩,
    ⟨"Lucknow Super Giants".toList, "lsg.avif".toList⟩ ]

/-- The own properties of the object literal `teamNameMap` (lines 54-76). -/
def teamNameMap : List (Str × Str) :=
  [ ("csk".toList, "chennai super kings".toList),
    ("mi".toList, "mumbai indians".toList),
    ("rcb".toList, "royal challengers bengaluru".toList),
    ("royalchallengersbangalore".toList, "royal challengers bengaluru".toList),
    ("kkr".toList, "kolkata knight riders".toList),
    ("srh".toList, "sunrisers hyderabad".toList),
    ("dc".toList, "delhi capitals".toList),
    ("pbks".toList, "punjab kings".toList),
    ("rr".toList, "rajasthan royals".toList),
    ("gt".toList, "gujarat titans".toList),
    ("lsg".toList, "lucknow super giants".toList),
    ("chennaisuperkings".toList, "chennai super kings".toList),
    ("mumbaiindians".toList, "mumbai indians".toList),
    ("royalchallengersbengaluru".toList, "royal challengers bengaluru".toList),
    ("kolkataknightriders".toList, "kolkata knight riders".toList),
    ("sunrisershyderabad".toList, "sunrisers hyderabad".toList),
    ("delhicapitals".toList, "delhi capitals".toList),
    ("punjabkings".toList, "punjab kings".toList),
    ("rajasthanroyals".toList, "rajasthan royals".toList),
    ("gujarattitans".toList, "gujarat titans".toList),
    ("lucknowsupergiants".toList, "lucknow super giants".toList) ]

/-- The property names of `Object.prototype`, which every object literal inherits. -/
def objectPrototypeKeys : List Str :=
  [ "constructor".toList, "__defineGetter__".toList, "__defineSetter__".toList,
    "hasOwnProperty".toList, "__lookupGetter__".toList, "__lookupSetter__".toList,
    "isPrototypeOf".toList, "propertyIsEnumerable".toList, "toString".toList,
    "valueOf".toList, "__proto__".toList, "toLocaleString".toList ]

/-- The property read `teamNameMap[key]`: an own property, else a property inherited
from `Object.prototype`, else `none` (undefined). -/
def teamNameMapGet (key : Str) : Option JsValue :=
  match teamNameMap.lookup key with
  | some v => some (.str v)
  | none => if key ∈ objectPrototypeKeys then some (.inherited key) else none

/-- The function `normalizeTeamName` (lines 38-80) on a string argument. -/
def normalizeTeamName (teamName : Str) : JsValue :=
  if teamName.isEmpty then .str []
  else
    let raw := trim (splitHead teamName)
    match iplTeams.find? (fun t => toLowerCase t.name == toLowerCase raw) with
    | some exact => .str (toLowerCase exact.name)
    | none =>
      let teamAbbr : Str :=
        match matchLeadingUpper teamName with
        | some run => toLowerCase run
        | none => removeWhiteSpace (toLowerCase (trim teamName))
      let mappedName : JsValue := (teamNameMapGet teamAbbr).getD (.str teamAbbr)
      match iplTeams.find? (fun t => JsValue.str (removeWhiteSpace (toLowerCase t.name)) == mappedName) with
      | some t => .str (toLowerCase t.name)
      | none => mappedName

/-! ## Standings rows and fixtures -/

/-- A standings row as delivered by the data source and as returned by the simulator. -/
structure Row where
  POS : Int
  TEAM : Str
  P : Int
  W : Int
  L : Int
  NR : Int
  NRR : ℚ
  FOR : Str
  AGAINST : Str
  PTS : Int
  RECENT_FORM : Str
  deriving DecidableEq

/-- A row of the working copy `sim`: `RECENT_FORM` is an array of strings (line 116). -/
structure SimRow where
  POS : Int
  TEAM : Str
  P : Int
  W : Int
  L : Int
  NR : Int
  NRR : ℚ
  FOR : Str
  AGAINST : Str
  PTS : Int
  RECENT_FORM : List Str
  deriving DecidableEq

/-- The field `Probability` of a fixture: two percentages, each possibly absent. -/
structure ProbabilityPair where
  Team_1 : Option ℚ
  Team_2 : Option ℚ
  deriving DecidableEq

/-- An upcoming match, with the fields the simulator reads (line 130). -/
structure Fixture where
  Team_1 : Str
  Team_2 : Str
  Probability : Option ProbabilityPair
  deriving DecidableEq

/-! ## The simulator `getSimulatedStandings` (lines 108-175) -/

/-- The clone of one row (lines 110-117): a new object with `RECENT_FORM` split on `' '`. -/
def cloneRow (r : Row) : SimRow :=
  { POS := r.POS, TEAM := r.TEAM, P := r.P, W := r.W, L := r.L, NR := r.NR, NRR := r.NRR,
    FOR := r.FOR, AGAINST := r.AGAINST, PTS := r.PTS, RECENT_FORM := split ' ' r.RECENT_FORM }

/-- Index of the first element satisfying `p`, as `Array.prototype.find` locates it. -/
def findIndex {α : Type} (p : α → Bool) : List α → Option Nat
  | [] => none
  | x :: xs => if p x then some 0 else (findIndex p xs).map (· + 1)

/-- In-place update of the element at index `i`. -/
def modifyAt {α : Type} (f : α → α) : List α → Nat → List α
  | [], _ => []
  | x :: xs, 0 => f x :: xs
  | x :: xs, i + 1 => x :: modifyAt f xs i

/-- The helper `find` (lines 120-127): the first row of `sim` whose normalized team
name is strictly equal to the normalized `name`; `none` is `undefined`. -/
def find (sim : List SimRow) (name : Str) : Option Nat :=
  findIndex (fun r => normalizeTeamName r.TEAM == normalizeTeamName name) sim

/-- Rounding of a rational to the nearest integer, a tie going to the even neighbour. -/
def roundHalfEven (x : ℚ) : Int :=
  if x - ⌊x⌋ < 1 / 2 then ⌊x⌋
  else if 1 / 2 < x - ⌊x⌋ then ⌊x⌋ + 1
  else if ⌊x⌋ % 2 = 0 then ⌊x⌋ else ⌊x⌋ + 1

/-- The Number nearest to the exact value `q`, as every arithmetic operator of the language
rounds its result: Numbers are IEEE 754 binary64 values, a finite one is held here by its
exact rational value. With `e` the binary exponent of `q`, not below the least normal
exponent -1022, the result is the multiple of `2 ^ (e - 52)` nearest to `q`, a tie going to the
even multiple. Overflow to `Infinity` is left out: it needs a magnitude of `2 ^ 1024`, which
a quotient of a Number by 100 never has. -/
def toDouble (q : ℚ) : ℚ :=
  if q = 0 then 0
  else
    let e : Int := max (Int.log 2 |q|) (-1022)
    (roundHalfEven (q / 2 ^ (e - 52)) : ℚ) * 2 ^ (e - 52)

/-- `(Probability?.Team_1 ?? 50) / 100` (line 136): the quotient of two Numbers, rounded to
the nearest Number. -/
def team1Prob (m : Fixture) : ℚ :=
  toDouble (((m.Probability.bind (fun pr => pr.Team_1)).getD 50) / 100)

/-- `random < team1Prob ? Team_1 : Team_2` (line 138). -/
def winner (m : Fixture) (random : ℚ) : Str :=
  if random < team1Prob m then m.Team_1 else m.Team_2

/-- `winner === Team_1 ? Team_2 : Team_1` (line 139). -/
def loser (m : Fixture) (random : ℚ) : Str :=
  if winner m random = m.Team_1 then m.Team_2 else m.Team_1

/-- The mutation of the winner's row (lines 147-150). -/
def winUpdate (w : SimRow) : SimRow :=
  { w with P := w.P + 1, W := w.W + 1, PTS := w.PTS + 2, RECENT_FORM := w.RECENT_FORM ++ [['W']] }

/-- The mutation of the loser's row (lines 158-160). -/
def lossUpdate (l : SimRow) : SimRow :=
  { l with P := l.P + 1, L := l.L + 1, RECENT_FORM := l.RECENT_FORM ++ [['L']] }

/-- Lines 145-153: locate the winner and update its row, if located. -/
def updateWinner (sim : List SimRow) (name : Str) : List SimRow :=
  match find sim name with
  | some i => modifyAt winUpdate sim i
  | none => sim

/-- Lines 156-163: locate the loser and update its row, if located. -/
def updateLoser (sim : List SimRow) (name : Str) : List SimRow :=
  match find sim name with
  | some i => modifyAt lossUpdate sim i
  | none => sim

/-- The body of the `forEach` over `upcomingMatches` (lines 129-164) for one
fixture and the value `random` drawn for it. -/
def simulateMatch (sim : List SimRow) (m : Fixture) (random : ℚ) : List SimRow :=
  updateLoser (updateWinner sim (winner m random)) (loser m random)

/-- The `forEach` over `upcomingMatches`: fixture number `k` consumes `draws k`. -/
def playFixtures (draws : Nat → ℚ) : List SimRow → List Fixture → Nat → List SimRow
  | sim, [], _ => sim
  | sim, m :: ms, k => playFixtures draws (simulateMatch sim m (draws k)) ms (k + 1)

/-- Line 167: `RECENT_FORM` becomes the last five entries joined with `' '`. -/
def finalizeRow (r : SimRow) : Row :=
  { POS := r.POS, TEAM := r.TEAM, P := r.P, W := r.W, L := r.L, NR := r.NR, NRR := r.NRR,
    FOR := r.FOR, AGAINST := r.AGAINST, PTS := r.PTS,
    RECENT_FORM := join ' ' (sliceLast5 r.RECENT_FORM) }

/-- The comparator passed to `sort` (lines 168-171). -/
def compareRows (a b : Row) : ℚ :=
  if b.PTS ≠ a.PTS then ((b.PTS - a.PTS : Int) : ℚ) else b.NRR - a.NRR

/-- The order induced by the comparator: `a` may stand before `b`. -/
def rankLE (a b : Row) : Prop := compareRows a b ≤ 0

instance : DecidableRel rankLE := fun a b => by unfold rankLE; infer_instance

/-- `sim.sort(compareRows)`: `Array.prototype.sort` is stable and the comparator is a
consistent total preorder, so the result is the stable sort, computed here by insertion. -/
def sortRows (rows : List Row) : List Row := rows.insertionSort rankLE

/-- Line 173: `r.POS = i + 1` for the row at index `i`, counting from `i`. -/
def assignPositions : List Row → Nat → List Row
  | [], _ => []
  | r :: rs, i => { r with POS := (i : Int) + 1 } :: assignPositions rs (i + 1)

/-- The function `getSimulatedStandings` (lines 108-175), with the component state
`standings`, `upcomingMatches` and the stream of random draws as arguments. -/
def getSimulatedStandings (standings : List Row) (upcomingMatches : List Fixture)
    (draws : Nat → ℚ) : List Row :=
  let sim := standings.map cloneRow
  let played := playFixtures draws sim upcomingMatches 0
  assignPositions (sortRows (played.map finalizeRow)) 0

/-- Sum of the points of a list of returned rows. -/
def totalPTS (rows : List Row) : Int := (rows.map (fun r => r.PTS)).sum

/-- Sum of the points of the working copy. -/
def simTotalPTS (sim : List SimRow) : Int := (sim.map (fun r => r.PTS)).sum

/-- A participant name is located in `sim` when the helper `find` returns a row. -/
def located (sim : List SimRow) (name : Str) : Bool := (find sim name).isSome

/-- The standings of the end-to-end scenario of the specification (section 8). -/
def scenarioStandings : List Row :=
  [ { POS := 1, TEAM := "Mumbai Indians".toList, P := 0, W := 0, L := 0, NR := 0, NRR := 1 / 2,
      FOR := [], AGAINST := [], PTS := 0, RECENT_FORM := [] },
    { POS := 2, TEAM := "Chennai Super Kings".toList, P := 0, W := 0, L := 0, NR := 0,
      NRR := 1 / 5, FOR := [], AGAINST := [], PTS := 0, RECENT_FORM := [] } ]

/-- The single fixture of the end-to-end scenario: Mumbai Indians at 100 percent. -/
def scenarioFixture : Fixture :=
  { Team_1 := "Mumbai Indians".toList, Team_2 := "Chennai Super Kings".toList,
    Probability := some { Team_1 := some 100, Team_2 := some 0 } }

/-- A fixture with the first team at 70 percent. -/
def seventyFixture : Fixture :=
  { Team_1 := "Mumbai Indians".toList, Team_2 := "Chennai Super Kings".toList,
    Probability := some { Team_1 := some 70, Team_2 := some 30 } }

/-- The Number `0.7`: the value of `70 / 100`, just below seven tenths. -/
def doubleSevenTenths : ℚ := 3152519739159347 / 4503599627370496

/-- The fixture list of the end-to-end scenario. -/
def scenarioFixtures : List Fixture := [scenarioFixture]

/-- The invariant of the working copy: every `RECENT_FORM` array is non-empty and none of
its entries contains a space. -/
def FormOK (r : SimRow) : Prop := r.RECENT_FORM ≠ [] ∧ ∀ e ∈ r.RECENT_FORM, ' ' ∉ e

/-- The ten upper-case short codes, each with the canonical full name of its team in
`iplTeams`. -/
def shortCodes : List (Str × Str) :=
  [ ("CSK".toList, "Chennai Super Kings".toList),
    ("MI".toList, "Mumbai Indians".toList),
    ("RCB".toList, "Royal Challengers Bengaluru".toList),
    ("KKR".toList, "Kolkata Knight Riders".toList),
    ("SRH".toList, "Sunrisers Hyderabad".toList),
    ("DC".toList, "Delhi Capitals".toList),
    ("PBKS".toList, "Punjab Kings".toList),
    ("RR".toList, "Rajasthan Royals".toList),
    ("GT".toList, "Gujarat Titans".toList),
    ("LSG".toList, "Lucknow Super Giants".toList) ]

/-! ## The simulator on an explicit heap

Rows, fixtures and arrays are JavaScript objects, reached through references. To state
that `getSimulatedStandings` leaves its inputs alone, the function is also modelled on a
heap of objects: an address is an index into the heap, allocation appends an object and a
field assignment replaces the object stored at an address. Strings and numbers are
immutable values. The array produced by `RECENT_FORM.split(' ')` is referenced by its row
only and is stored inside that row. Reading a property the object does not have makes the
call throw a `TypeError`, modelled by `none`. -/

/-- An object on the heap. -/
inductive HeapObj where
  | row (r : Row)
  | simRow (r : SimRow)
  | rowArray (refs : List Nat)
  | fixture (m : Fixture)
  | fixtureArray (refs : List Nat)
  deriving DecidableEq

/-- The heap: the object at address `a` is the element at index `a`. -/
abbrev Heap := List HeapObj

/-- The row object with a string `RECENT_FORM` at address `a`. -/
def readRow (h : Heap) (a : Nat) : Option Row :=
  match h[a]? with
  | some (.row r) => some r
  | _ => none

/-- The row object with an array `RECENT_FORM` at address `a`. -/
def readSimRow (h : Heap) (a : Nat) : Option SimRow :=
  match h[a]? with
  | some (.simRow r) => some r
  | _ => none

/-- The array of row references at address `a`. -/
def readRowArray (h : Heap) (a : Nat) : Option (List Nat) :=
  match h[a]? with
  | some (.rowArray refs) => some refs
  | _ => none

/-- The fixture object at address `a`. -/
def readFixture (h : Heap) (a : Nat) : Option Fixture :=
  match h[a]? with
  | some (.fixture m) => some m
  | _ => none

/-- The array of fixture references at address `a`. -/
def readFixtureArray (h : Heap) (a : Nat) : Option (List Nat) :=
  match h[a]? with
  | some (.fixtureArray refs) => some refs
  | _ => none

/-- The rows behind a list of references. -/
def readRows (h : Heap) : List Nat → Option (List Row)
  | [] => some []
  | a :: as =>
    match readRow h a, readRows h as with
    | some r, some rs => some (r :: rs)
    | _, _ => none

/-- The fixtures behind a list of references. -/
def readFixtures (h : Heap) : List Nat → Option (List Fixture)
  | [] => some []
  | a :: as =>
    match readFixture h a, readFixtures h as with
    | some m, some ms => some (m :: ms)
    | _, _ => none

/-- Structural snapshot of the standings array at address `a`: its rows, in array order. -/
def snapshotStandings (h : Heap) (a : Nat) : Option (List Row) :=
  (readRowArray h a).bind (readRows h)

/-- Structural snapshot of the fixture array at address `a`. -/
def snapshotFixtures (h : Heap) (a : Nat) : Option (List Fixture) :=
  (readFixtureArray h a).bind (readFixtures h)

/-- Lines 110-117: `standings.map(r => ({...r, RECENT_FORM: r.RECENT_FORM.split(' ')}))`.
Every clone is a newly allocated object; the result lists the new references. -/
def cloneRowsH (h : Heap) : List Nat → Option (Heap × List Nat)
  | [] => some (h, [])
  | a :: as =>
    match readRow h a with
    | none => none
    | some r =>
      match cloneRowsH (h ++ [.simRow (cloneRow r)]) as with
      | none => none
      | some (h', cs) => some (h', h.length :: cs)

/-- The search of `sim.find(...)` (line 122) through the references of `sim`. -/
def findIn (h : Heap) (name : Str) : List Nat → Option (Option Nat)
  | [] => some none
  | a :: as =>
    match readSimRow h a with
    | none => none
    | some r =>
      if normalizeTeamName r.TEAM == normalizeTeamName name then some (some a)
      else findIn h name as

/-- The helper `find` (lines 120-127) on the heap: the reference of the first matching row
of the array at `sim`, or `none` inside for `undefined`. -/
def findH (h : Heap) (sim : Nat) (name : Str) : Option (Option Nat) :=
  match readRowArray h sim with
  | none => none
  | some refs => findIn h name refs

/-- An update of the row object behind a located reference (lines 146-153, 157-163). -/
def updateH (f : SimRow → SimRow) (h : Heap) (sim : Nat) (name : Str) : Option Heap :=
  match findH h sim name with
  | none => none
  | some none => some h
  | some (some w) =>
    match readSimRow h w with
    | none => none
    | some r => some (h.set w (.simRow (f r)))

/-- The body of the `forEach` over `upcomingMatches` (lines 129-164) on the heap. -/
def simulateMatchH (h : Heap) (sim : Nat) (m : Fixture) (random : ℚ) : Option Heap :=
  match updateH winUpdate h sim (winner m random) with
  | none => none
  | some h1 => updateH lossUpdate h1 sim (loser m random)

/-- The `forEach` over the fixture references of `upcomingMatches`. -/
def playFixturesH (draws : Nat → ℚ) (sim : Nat) : Heap → List Nat → Nat → Option Heap
  | h, [], _ => some h
  | h, a :: as, k =>
    match readFixture h a with
    | none => none
    | some m =>
      match simulateMatchH h sim m (draws k) with
      | none => none
      | some h1 => playFixturesH draws sim h1 as (k + 1)

/-- A `forEach((r, i) => ...)` whose callback assigns fields of the visited object `r`:
`f i` maps the object to its state after the callback, `none` when the callback throws. -/
def forEachH (f : Nat → HeapObj → Option HeapObj) : Heap → List Nat → Nat → Option Heap
  | h, [], _ => some h
  | h, a :: as, i =>
    match h[a]? with
    | none => none
    | some o =>
      match f i o with
      | none => none
      | some o' => forEachH f (h.set a o') as (i + 1)

/-- The callback of line 167: `r.RECENT_FORM = r.RECENT_FORM.slice(-5).join(' ')`. -/
def finalizeObj (_ : Nat) : HeapObj → Option HeapObj
  | .simRow r => some (.row (finalizeRow r))
  | _ => none

/-- The callback of line 173: `r.POS = i + 1`. -/
def assignPosObj (i : Nat) : HeapObj → Option HeapObj
  | .row r => some (.row { r with POS := (i : Int) + 1 })
  | _ => none

/-- The references of `sim` after `sim.sort(...)` (lines 168-171): the stable sort of the
references by the comparator applied to the rows behind them. -/
def sortRefsH (h : Heap) (refs : List Nat) : Option (List Nat) :=
  match readRows h refs with
  | none => none
  | some rows =>
    some (((refs.zip rows).insertionSort (fun p q => rankLE p.2 q.2)).map (fun p => p.1))

/-- The function `getSimulatedStandings` (lines 108-175) on the heap: `standings` and
`upcomingMatches` are the references held by the component state; the result is the final
heap and the reference of the returned array. -/
def getSimulatedStandingsH (h : Heap) (standings upcomingMatches : Nat) (draws : Nat → ℚ) :
    Option (Heap × Nat) :=
  match readRowArray h standings with
  | none => none
  | some refs =>
    match cloneRowsH h refs with
    | none => none
    | some (h1, simRefs) =>
      let sim := h1.length
      let h2 := h1 ++ [.rowArray simRefs]
      match readFixtureArray h2 upcomingMatches with
      | none => none
      | some fixtureRefs =>
        match playFixturesH draws sim h2 fixtureRefs 0 with
        | none => none
        | some h3 =>
          match (readRowArray h3 sim).bind (fun rs => forEachH finalizeObj h3 rs 0) with
          | none => none
          | some h4 =>
            match (readRowArray h4 sim).bind (sortRefsH h4) with
            | none => none
            | some sorted =>
              let h5 := h4.set sim (.rowArray sorted)
              match (readRowArray h5 sim).bind (fun rs => forEachH assignPosObj h5 rs 0) with
              | none => none
              | some h6 => some (h6, sim)

/-- The heap of the end-to-end scenario: the two rows, the standings array at address 2,
the fixture at address 3 and the fixture array at address 4. -/
def scenarioHeap : Heap :=
  (scenarioStandings.map HeapObj.row) ++
    [.rowArray [0, 1], .fixture scenarioFixture, .fixtureArray [3]]

/-- The heap while the fixtures are played: the heap before the call, followed by the
objects of the working rows and by the array `sim`. -/
def simHeap (h0 : Heap) (sim : List SimRow) (refs : List Nat) : Heap :=
  h0 ++ sim.map HeapObj.simRow ++ [HeapObj.rowArray refs]

/-- The heap once the rows carry a string `RECENT_FORM` again: the heap before the call,
followed by the objects of the rows and by the array `sim`. -/
def rowHeap (h0 : Heap) (rows : List Row) (refs : List Nat) : Heap :=
  h0 ++ rows.map HeapObj.row ++ [HeapObj.rowArray refs]

/-! ## The logo lookup `getTeamLogo` (lines 82-94) -/

/-- The asset `defaultLogo` (line 21). -/
def defaultLogo : Str := "defaultLogo.png".toList

/-- The call `normalizeTeamName(teamName)` for an argument that may be `null`
(`none`): line 39 returns `""` for every falsy argument. -/
def normalizeTeamNameArg : Option Str → JsValue
  | none => .str []
  | some s => normalizeTeamName s

/-- The function `getTeamLogo` (lines 83-94); the two console messages are not modelled. -/
def getTeamLogo (teamName : Option Str) : Str :=
  let normalizedTeamName := normalizeTeamNameArg teamName
  match iplTeams.find? (fun t => JsValue.str (toLowerCase t.name) == normalizedTeamName) with
  | none => defaultLogo
  | some team => team.logo

/-- The fields of a row that a simulated fixture never assigns. -/
def untouchedFields (r : Row) : Str × Int × ℚ × Str × Str :=
  (r.TEAM, r.NR, r.NRR, r.FOR, r.AGAINST)

/-- A fixture whose first participant is in no standings table of the league. -/
def unknownTeamFixture : Fixture :=
  { Team_1 := "Deccan Chargers".toList, Team_2 := "Chennai Super Kings".toList,
    Probability := some { Team_1 := some 100, Team_2 := some 0 } }

/-- The heap of the end-to-end scenario with `unknownTeamFixture` played before the
fixture of the scenario: rows at 0 and 1, the standings array at 2, the fixtures at 3 and
4 and the fixture array at 5. -/
def unknownTeamHeap : Heap :=
  (scenarioStandings.map HeapObj.row) ++
    [.rowArray [0, 1], .fixture unknownTeamFixture, .fixture scenarioFixture,
      .fixtureArray [3, 4]]

/-- The per-row accounting quantities: the team, the no-result count, `PTS - 2 * W` and
`P - W - L`. -/
def accounting (r : Row) : Str × Int × Int × Int :=
  (r.TEAM, r.NR, r.PTS - 2 * r.W, r.P - r.W - r.L)

/-- A fixture with its `Probability.Team_2` value forgotten. -/
def eraseTeam2 (m : Fixture) : Fixture :=
  { m with Probability := m.Probability.map (fun p => { p with Team_2 := none }) }

/-- The fixture of the end-to-end scenario with another probability for the second team. -/
def scenarioFixtureOtherTeam2 : Fixture :=
  { Team_1 := "Mumbai Indians".toList, Team_2 := "Chennai Super Kings".toList,
    Probability := some { Team_1 := some 100, Team_2 := some 55 } }

/-- The candidate key `teamAbbr` of lines 51-52: the lowercased leading run of capitals, or
the lowercased, whitespace-free `teamName` when there is no such run. -/
def candidateKey (teamName : Str) : Str :=
  match matchLeadingUpper teamName with
  | some run => toLowerCase run
  | none => removeWhiteSpace (toLowerCase (trim teamName))

/-- The value `mappedName` of line 78: `teamNameMap[teamAbbr] || teamAbbr`. -/
def mappedName (teamAbbr : Str) : JsValue :=
  (teamNameMapGet teamAbbr).getD (.str teamAbbr)

/-- The code of `normalizeTeamName` with the `find` of line 79 dropped: after the exact match
it returns `mappedName` as line 78 computes it, inherited keys of the table object included. -/
def normalizeTeamNameWithoutFind (teamName : Str) : JsValue :=
  if teamName.isEmpty then .str []
  else
    match iplTeams.find?
        (fun t => toLowerCase t.name == toLowerCase (trim (splitHead teamName))) with
    | some exact => .str (toLowerCase exact.name)
    | none => mappedName (candidateKey teamName)

/-- The simpler function in the words of the claim, for the string `part` that is compared
with the canonical names and the candidate key `key`: the lowercase canonical name on an exact
case-insensitive match of `part`, otherwise `table[key]` if `key` is in the alias table and
`key` itself if it is not. The result is always a string. -/
def simpleResolver (part key : Str) : Str :=
  match iplTeams.find? (fun t => toLowerCase t.name == toLowerCase part) with
  | some exact => toLowerCase exact.name
  | none =>
    match teamNameMap.lookup key with
    | some v => v
    | none => key

/-- The simpler function as the claim words it: the exact match is tried on the part before
`" - "` as it stands. -/
def normalizeTeamNameSimple (teamName : Str) : Str :=
  simpleResolver (splitHead teamName) (candidateKey teamName)

/-- The simpler function with the part before `" - "` trimmed, as line 42 trims it. -/
def normalizeTeamNameSimpleTrimmed (teamName : Str) : Str :=
  simpleResolver (trim (splitHead teamName)) (candidateKey teamName)

/-- The call `normalizeTeamName(v)` on a value `v` returned by an earlier call: a string is
resolved; an inherited object is truthy and has no method `split`, so line 42 throws a
`TypeError` (`none`). -/
def normalizeTeamNameOfValue : JsValue → Option JsValue
  | .str s => some (normalizeTeamName s)
  | .inherited _ => none

/-- A key is plain when it contains no white space and is its own lowercase form. -/
def PlainKey (key : Str) : Prop :=
  (∀ c ∈ key, isWhiteSpace c = false) ∧ toLowerCase key = key

/-- A standings table with one row, for the team `"Deccan Chargers"`. -/
def deccanStandings : List Row :=
  [ { POS := 1, TEAM := "Deccan Chargers".toList, P := 0, W := 0, L := 0, NR := 0, NRR := 0,
      FOR := [], AGAINST := [], PTS := 0, RECENT_FORM := [] } ]

/-! ## What a row accumulates over the fixture list -/

/-- The outcomes pushed onto the recent form of the row at index `i` of `sim` while the
fixtures are played, in fixture order: `"W"` when `find` locates the winner at `i`, `"L"`
when it locates the loser at `i`. The fixture at the head consumes `draws k`. -/
def outcomes (draws : Nat → ℚ) (sim : List SimRow) (i : Nat) : List Fixture → Nat → List Str
  | [], _ => []
  | m :: ms, k =>
    (if find sim (winner m (draws k)) = some i then [['W']] else []) ++
      (if find sim (loser m (draws k)) = some i then [['L']] else []) ++
      outcomes draws sim i ms (k + 1)

/-- Number of fixtures won by the row at index `i`. -/
def winCount (draws : Nat → ℚ) (sim : List SimRow) (i : Nat) : List Fixture → Nat → Nat
  | [], _ => 0
  | m :: ms, k =>
    (if find sim (winner m (draws k)) = some i then 1 else 0) + winCount draws sim i ms (k + 1)

/-- Number of fixtures lost by the row at index `i`. -/
def lossCount (draws : Nat → ℚ) (sim : List SimRow) (i : Nat) : List Fixture → Nat → Nat
  | [], _ => 0
  | m :: ms, k =>
    (if find sim (loser m (draws k)) = some i then 1 else 0) + lossCount draws sim i ms (k + 1)

/-- Number of fixtures in which the row at index `i` takes part, as winner or as loser. -/
def participations (draws : Nat → ℚ) (sim : List SimRow) (i : Nat) :
    List Fixture → Nat → Nat
  | [], _ => 0
  | m :: ms, k =>
    (if find sim (winner m (draws k)) = some i ∨ find sim (loser m (draws k)) = some i
      then 1 else 0) + participations draws sim i ms (k + 1)

/-- A working row after the outcomes `os` have been applied to it, one after the other. -/
def rowAfter (r : SimRow) (os : List Str) : SimRow :=
  { r with
    P := r.P + (os.length : Int)
    W := r.W + (os.count ['W'] : Int)
    L := r.L + (os.count ['L'] : Int)
    PTS := r.PTS + 2 * (os.count ['W'] : Int)
    RECENT_FORM := r.RECENT_FORM ++ os }

/-- `xs.map((x, i) => f(i, x))`, counting from `i`. -/
def mapWithIndex {α β : Type} (f : Nat → α → β) : List α → Nat → List β
  | [], _ => []
  | x :: xs, i => f i x :: mapWithIndex f xs (i + 1)

/-- A row with its `POS` field blanked: the row up to the position the simulator assigns. -/
def withoutPOS (r : Row) : Row := { r with POS := 0 }

/-- The rows before `sim.sort(...)` runs: the working rows after all fixtures and after line
167, still in the order of the input standings. -/
def rowsBeforeSort (standings : List Row) (upcomingMatches : List Fixture)
    (draws : Nat → ℚ) : List Row :=
  (playFixtures draws (standings.map cloneRow) upcomingMatches 0).map finalizeRow

/-- The sort key of a row: the two fields the comparator reads. -/
def sortKey (r : Row) : Int × ℚ := (r.PTS, r.NRR)

/-- The order of the comparator on sort keys: the first key may stand before the second. -/
def keyLE (a b : Int × ℚ) : Prop := b.1 < a.1 ∨ (b.1 = a.1 ∧ b.2 ≤ a.2)

/-! # Theorems -/

/-! ## Lemmas on the list helpers -/

theorem length_modifyAt {α : Type} (f : α → α) (xs : List α) (i : Nat) :
    (modifyAt f xs i).length = xs.length := by
  induction xs generalizing i with
  | nil => rfl
  | cons x xs ih => cases i <;> simp [modifyAt, ih]

theorem findIndex_lt {α : Type} (p : α → Bool) (xs : List α) (i : Nat)
    (h : findIndex p xs = some i) : i < xs.length := by
  induction xs generalizing i with
  | nil => simp [findIndex] at h
  | cons x xs ih =>
    simp only [findIndex] at h
    split at h
    · simp at h; subst h; simp
    · cases hx : findIndex p xs with
      | none => simp [hx] at h
      | some j =>
        simp [hx] at h
        subst h
        simpa using ih j hx

theorem getElem?_modifyAt {α : Type} (f : α → α) (xs : List α) (i k : Nat) :
    (modifyAt f xs i)[k]? = if k = i then (xs[k]?).map f else xs[k]? := by
  induction xs generalizing i k with
  | nil => simp [modifyAt]
  | cons x xs ih =>
    cases i with
    | zero => cases k <;> simp [modifyAt]
    | succ i => cases k <;> simp [modifyAt, ih]

theorem length_updateWinner (sim : List SimRow) (name : Str) :
    (updateWinner sim name).length = sim.length := by
  unfold updateWinner; split <;> simp [length_modifyAt]

theorem length_updateLoser (sim : List SimRow) (name : Str) :
    (updateLoser sim name).length = sim.length := by
  unfold updateLoser; split <;> simp [length_modifyAt]

theorem length_simulateMatch (sim : List SimRow) (m : Fixture) (r : ℚ) :
    (simulateMatch sim m r).length = sim.length := by
  simp [simulateMatch, length_updateLoser, length_updateWinner]

theorem length_playFixtures (draws : Nat → ℚ) (sim : List SimRow) (ms : List Fixture) (k : Nat) :
    (playFixtures draws sim ms k).length = sim.length := by
  induction ms generalizing sim k with
  | nil => rfl
  | cons m ms ih => simp [playFixtures, ih, length_simulateMatch]

theorem length_assignPositions (rows : List Row) (i : Nat) :
    (assignPositions rows i).length = rows.length := by
  induction rows generalizing i with
  | nil => rfl
  | cons r rs ih => simp [assignPositions, ih]

theorem length_sortRows (rows : List Row) : (sortRows rows).length = rows.length := by
  simp [sortRows, List.length_insertionSort]

/-- C8. The output of `getSimulatedStandings` has exactly as many rows as the input
standings, for every fixture list and every sequence of draws. -/
theorem getSimulatedStandings_length (standings : List Row) (upcomingMatches : List Fixture)
    (draws : Nat → ℚ) :
    (getSimulatedStandings standings upcomingMatches draws).length = standings.length := by
  simp [getSimulatedStandings, length_assignPositions, length_sortRows, length_playFixtures]

/-! ## Ordering of the output (C2) -/

theorem rankLE_iff (a b : Row) :
    rankLE a b ↔ b.PTS < a.PTS ∨ (b.PTS = a.PTS ∧ b.NRR ≤ a.NRR) := by
  unfold rankLE compareRows
  by_cases h : b.PTS = a.PTS
  · simp [h]
  · have hne : b.PTS ≠ a.PTS := h
    simp only [hne, ne_eq, not_false_eq_true, if_true, false_and, or_false]
    constructor
    · intro hle
      have : b.PTS - a.PTS ≤ 0 := by exact_mod_cast hle
      omega
    · intro hlt
      have : b.PTS - a.PTS ≤ 0 := by omega
      exact_mod_cast this

theorem rankLE_total (a b : Row) : rankLE a b ∨ rankLE b a := by
  rw [rankLE_iff, rankLE_iff]
  rcases lt_trichotomy a.PTS b.PTS with h | h | h
  · right; left; exact h
  · rcases le_total a.NRR b.NRR with h' | h'
    · right; right; exact ⟨h, h'⟩
    · left; right; exact ⟨h.symm, h'⟩
  · left; left; exact h

theorem rankLE_trans (a b c : Row) : rankLE a b → rankLE b c → rankLE a c := by
  rw [rankLE_iff, rankLE_iff, rankLE_iff]
  rintro (h1 | ⟨h1, h1'⟩) (h2 | ⟨h2, h2'⟩)
  · left; omega
  · left; omega
  · left; omega
  · right; exact ⟨by omega, le_trans h2' h1'⟩

theorem sortRows_pairwise (rows : List Row) : (sortRows rows).Pairwise rankLE :=
  @List.sorted_insertionSort Row rankLE _ ⟨rankLE_total⟩ ⟨rankLE_trans⟩ rows

theorem sortRows_perm (rows : List Row) : (sortRows rows).Perm rows :=
  List.perm_insertionSort rankLE rows

theorem mem_assignPositions {rows : List Row} {i : Nat} {r : Row}
    (h : r ∈ assignPositions rows i) : ∃ r0 ∈ rows, ∃ pos : Int, r = { r0 with POS := pos } := by
  induction rows generalizing i with
  | nil => simp [assignPositions] at h
  | cons x xs ih =>
    simp only [assignPositions, List.mem_cons] at h
    rcases h with h | h
    · exact ⟨x, by simp, _, h⟩
    · obtain ⟨r0, hr0, pos, hp⟩ := ih h
      exact ⟨r0, by simp [hr0], pos, hp⟩

theorem assignPositions_pairwise (rows : List Row) (i : Nat) (h : rows.Pairwise rankLE) :
    (assignPositions rows i).Pairwise rankLE := by
  induction rows generalizing i with
  | nil => simp [assignPositions]
  | cons x xs ih =>
    rw [List.pairwise_cons] at h
    simp only [assignPositions, List.pairwise_cons]
    refine ⟨?_, ih _ h.2⟩
    intro b hb
    obtain ⟨b0, hb0, pos, rfl⟩ := mem_assignPositions hb
    have := h.1 b0 hb0
    rw [rankLE_iff] at this ⊢
    exact this

theorem map_POS_assignPositions (rows : List Row) (i : Nat) :
    (assignPositions rows i).map (fun r => r.POS) =
      (List.range rows.length).map (fun k => ((i + k : Nat) : Int) + 1) := by
  induction rows generalizing i with
  | nil => simp [assignPositions]
  | cons x xs ih =>
    simp only [assignPositions, List.map_cons, List.length_cons, List.range_succ_eq_map, ih]
    simp [Function.comp_def, Nat.add_assoc, Nat.add_comm 1]

/-- C2. The list returned by `getSimulatedStandings` is ordered by descending `PTS` and,
among rows with equal `PTS`, by descending `NRR`; the row at index `i` carries
`POS = i + 1`, so the `POS` fields read `1, 2, ..., N` whatever the input rows carried. -/
theorem getSimulatedStandings_sorted_ranked (standings : List Row)
    (upcomingMatches : List Fixture) (draws : Nat → ℚ) :
    (getSimulatedStandings standings upcomingMatches draws).Pairwise
        (fun a b => b.PTS < a.PTS ∨ (b.PTS = a.PTS ∧ b.NRR ≤ a.NRR)) ∧
      (getSimulatedStandings standings upcomingMatches draws).map (fun r => r.POS) =
        (List.range standings.length).map (fun (i : Nat) => (i : Int) + 1) := by
  constructor
  · have h := assignPositions_pairwise _ 0
      (sortRows_pairwise ((playFixtures draws (standings.map cloneRow) upcomingMatches 0).map finalizeRow))
    exact h.imp (fun {a b} hab => (rankLE_iff a b).1 hab)
  · simp [getSimulatedStandings, map_POS_assignPositions, length_sortRows, length_playFixtures]

/-! ## Points conservation (C3) -/

theorem findIndex_map {α β : Type} (g : α → β) (p : β → Bool) (xs : List α) :
    findIndex p (xs.map g) = findIndex (fun x => p (g x)) xs := by
  induction xs with
  | nil => rfl
  | cons x xs ih => simp [findIndex, ih]

theorem find_eq_of_teams (a b : List SimRow) (name : Str)
    (h : a.map (fun r => r.TEAM) = b.map (fun r => r.TEAM)) : find a name = find b name := by
  have ha := findIndex_map (fun r : SimRow => r.TEAM)
    (fun t => normalizeTeamName t == normalizeTeamName name) a
  have hb := findIndex_map (fun r : SimRow => r.TEAM)
    (fun t => normalizeTeamName t == normalizeTeamName name) b
  unfold find
  rw [← ha, ← hb, h]

theorem map_modifyAt {α β : Type} (g : α → β) (f : α → α) (hf : ∀ x, g (f x) = g x)
    (xs : List α) (i : Nat) : (modifyAt f xs i).map g = xs.map g := by
  induction xs generalizing i with
  | nil => rfl
  | cons x xs ih => cases i <;> simp [modifyAt, hf, ih]

theorem teams_updateWinner (sim : List SimRow) (name : Str) :
    (updateWinner sim name).map (fun r => r.TEAM) = sim.map (fun r => r.TEAM) := by
  unfold updateWinner
  split
  · exact map_modifyAt (fun r : SimRow => r.TEAM) winUpdate (fun x => rfl) _ _
  · rfl

theorem teams_updateLoser (sim : List SimRow) (name : Str) :
    (updateLoser sim name).map (fun r => r.TEAM) = sim.map (fun r => r.TEAM) := by
  unfold updateLoser
  split
  · exact map_modifyAt (fun r : SimRow => r.TEAM) lossUpdate (fun x => rfl) _ _
  · rfl

theorem teams_simulateMatch (sim : List SimRow) (m : Fixture) (r : ℚ) :
    (simulateMatch sim m r).map (fun r => r.TEAM) = sim.map (fun r => r.TEAM) := by
  simp [simulateMatch, teams_updateLoser, teams_updateWinner]

theorem sum_map_modifyAt {α : Type} (g : α → Int) (f : α → α) (d : Int)
    (hf : ∀ x, g (f x) = g x + d) (xs : List α) (i : Nat) (hi : i < xs.length) :
    ((modifyAt f xs i).map g).sum = (xs.map g).sum + d := by
  induction xs generalizing i with
  | nil => simp at hi
  | cons x xs ih =>
    cases i with
    | zero => simp [modifyAt, hf]; ring
    | succ i =>
      have hi' : i < xs.length := by simpa using hi
      simp [modifyAt, ih i hi']; ring

theorem simTotalPTS_updateWinner (sim : List SimRow) (name : Str) :
    simTotalPTS (updateWinner sim name) = simTotalPTS sim + (if located sim name then 2 else 0) := by
  unfold updateWinner located simTotalPTS
  cases h : find sim name with
  | none => simp
  | some i =>
    have hi := findIndex_lt _ _ _ h
    simpa using sum_map_modifyAt (fun r : SimRow => r.PTS) winUpdate 2 (fun x => rfl) sim i hi

theorem simTotalPTS_updateLoser (sim : List SimRow) (name : Str) :
    simTotalPTS (updateLoser sim name) = simTotalPTS sim := by
  unfold updateLoser simTotalPTS
  cases h : find sim name with
  | none => simp
  | some i =>
    have hi := findIndex_lt _ _ _ h
    simpa using sum_map_modifyAt (fun r : SimRow => r.PTS) lossUpdate 0 (fun x => by simp [lossUpdate]) sim i hi

theorem winner_eq (m : Fixture) (r : ℚ) : winner m r = m.Team_1 ∨ winner m r = m.Team_2 := by
  unfold winner; split <;> simp

theorem simTotalPTS_simulateMatch (sim : List SimRow) (m : Fixture) (r : ℚ)
    (h1 : located sim m.Team_1 = true) (h2 : located sim m.Team_2 = true) :
    simTotalPTS (simulateMatch sim m r) = simTotalPTS sim + 2 := by
  unfold simulateMatch
  rw [simTotalPTS_updateLoser, simTotalPTS_updateWinner]
  rcases winner_eq m r with h | h <;> simp [h, h1, h2]

theorem located_simulateMatch (sim : List SimRow) (m : Fixture) (r : ℚ) (name : Str) :
    located (simulateMatch sim m r) name = located sim name := by
  unfold located
  rw [find_eq_of_teams _ _ name (teams_simulateMatch sim m r)]

theorem simTotalPTS_playFixtures (draws : Nat → ℚ) (sim : List SimRow) (ms : List Fixture)
    (k : Nat)
    (h : ∀ m ∈ ms, located sim m.Team_1 = true ∧ located sim m.Team_2 = true) :
    simTotalPTS (playFixtures draws sim ms k) = simTotalPTS sim + 2 * (ms.length : Int) := by
  induction ms generalizing sim k with
  | nil => simp [playFixtures]
  | cons m ms ih =>
    have hm := h m (by simp)
    rw [playFixtures, ih, simTotalPTS_simulateMatch sim m _ hm.1 hm.2]
    · simp only [List.length_cons]; push_cast; ring
    · intro m' hm'
      rw [located_simulateMatch, located_simulateMatch]
      exact h m' (by simp [hm'])

theorem totalPTS_assignPositions (rows : List Row) (i : Nat) :
    totalPTS (assignPositions rows i) = totalPTS rows := by
  induction rows generalizing i with
  | nil => rfl
  | cons r rs ih =>
    have := ih (i + 1)
    simp only [totalPTS] at this ⊢
    simp [assignPositions, this]

theorem totalPTS_sortRows (rows : List Row) : totalPTS (sortRows rows) = totalPTS rows := by
  unfold totalPTS
  exact ((sortRows_perm rows).map _).sum_eq

theorem totalPTS_finalize (sim : List SimRow) :
    totalPTS (sim.map finalizeRow) = simTotalPTS sim := by
  simp [totalPTS, simTotalPTS, finalizeRow, Function.comp_def]

theorem simTotalPTS_clone (standings : List Row) :
    simTotalPTS (standings.map cloneRow) = totalPTS standings := by
  simp [totalPTS, simTotalPTS, cloneRow, Function.comp_def]

/-- C3. Points conservation: processing one fixture whose two participants are both
located raises the sum of `PTS` over all rows by exactly 2, and when every fixture of the
list is resolvable the total `PTS` of the output is the total of the input plus twice the
number of fixtures, for every sequence of draws. -/
theorem points_conservation (standings : List Row) (upcomingMatches : List Fixture)
    (draws : Nat → ℚ)
    (h : ∀ m ∈ upcomingMatches, located (standings.map cloneRow) m.Team_1 = true ∧
      located (standings.map cloneRow) m.Team_2 = true) :
    (∀ (sim : List SimRow) (m : Fixture) (random : ℚ),
        located sim m.Team_1 = true → located sim m.Team_2 = true →
        simTotalPTS (simulateMatch sim m random) = simTotalPTS sim + 2) ∧
      totalPTS (getSimulatedStandings standings upcomingMatches draws) =
        totalPTS standings + 2 * (upcomingMatches.length : Int) := by
  refine ⟨simTotalPTS_simulateMatch, ?_⟩
  unfold getSimulatedStandings
  simp only []
  rw [totalPTS_assignPositions, totalPTS_sortRows, totalPTS_finalize,
    simTotalPTS_playFixtures draws _ _ 0 h, simTotalPTS_clone]

theorem points_conservation_witness :
    (∀ m ∈ scenarioFixtures, located (scenarioStandings.map cloneRow) m.Team_1 = true ∧
      located (scenarioStandings.map cloneRow) m.Team_2 = true) ∧
    totalPTS (getSimulatedStandings scenarioStandings scenarioFixtures (fun _ => 0)) =
      totalPTS scenarioStandings + 2 * (scenarioFixtures.length : Int) :=
  ⟨by decide, (points_conservation scenarioStandings scenarioFixtures (fun _ => 0) (by decide)).2⟩

/-! ## Recent form (C4) -/

theorem split_ne_nil (sep : Char) (s : Str) : split sep s ≠ [] := by
  induction s with
  | nil => simp [split]
  | cons c cs ih =>
    simp only [split]
    split
    · simp
    · split <;> simp

theorem not_mem_of_mem_split (sep : Char) (s : Str) : ∀ e ∈ split sep s, sep ∉ e := by
  induction s with
  | nil => simp [split]
  | cons c cs ih =>
    simp only [split]
    split
    · intro e he
      rcases List.mem_cons.1 he with h | h
      · simp [h]
      · exact ih e h
    · rename_i hc
      cases hs : split sep cs with
      | nil => exact absurd hs (split_ne_nil sep cs)
      | cons p ps =>
        rw [hs] at ih
        intro e he
        rcases List.mem_cons.1 he with h | h
        · subst h
          have hp := ih p (by simp)
          simp only [List.mem_cons, not_or]
          exact ⟨fun h => hc h.symm, hp⟩
        · exact ih e (by simp [h])

theorem split_of_not_mem (sep : Char) (x : Str) (h : sep ∉ x) : split sep x = [x] := by
  induction x with
  | nil => rfl
  | cons c cs ih =>
    simp only [List.mem_cons, not_or] at h
    have hc : ¬ c = sep := fun e => h.1 e.symm
    simp [split, hc, ih h.2]

theorem split_append_sep (sep : Char) (x t : Str) (h : sep ∉ x) :
    split sep (x ++ sep :: t) = x :: split sep t := by
  induction x with
  | nil => simp [split]
  | cons c cs ih =>
    simp only [List.mem_cons, not_or] at h
    have hc : ¬ c = sep := fun e => h.1 e.symm
    simp [split, hc, ih h.2]

theorem split_join (sep : Char) (xs : List Str) (hne : xs ≠ [])
    (h : ∀ e ∈ xs, sep ∉ e) : split sep (join sep xs) = xs := by
  induction xs with
  | nil => exact absurd rfl hne
  | cons x rest ih =>
    cases rest with
    | nil => simpa [join] using split_of_not_mem sep x (h x (by simp))
    | cons y rest =>
      have hx := h x (by simp)
      have hrest := ih (by simp) (fun e he => h e (by simp [he]))
      simp only [join] at hrest ⊢
      rw [split_append_sep sep x _ hx, hrest]

theorem formOK_cloneRow (r : Row) : FormOK (cloneRow r) :=
  ⟨split_ne_nil _ _, not_mem_of_mem_split _ _⟩

theorem formOK_winUpdate (r : SimRow) (h : FormOK r) : FormOK (winUpdate r) := by
  refine ⟨by simp [winUpdate], ?_⟩
  intro e he
  simp only [winUpdate, List.mem_append, List.mem_singleton] at he
  rcases he with he | he
  · exact h.2 e he
  · subst he; decide

theorem formOK_lossUpdate (r : SimRow) (h : FormOK r) : FormOK (lossUpdate r) := by
  refine ⟨by simp [lossUpdate], ?_⟩
  intro e he
  simp only [lossUpdate, List.mem_append, List.mem_singleton] at he
  rcases he with he | he
  · exact h.2 e he
  · subst he; decide

theorem forall_mem_modifyAt {α : Type} (P : α → Prop) (f : α → α) (hf : ∀ x, P x → P (f x))
    (xs : List α) (i : Nat) (h : ∀ x ∈ xs, P x) : ∀ x ∈ modifyAt f xs i, P x := by
  induction xs generalizing i with
  | nil => simp [modifyAt]
  | cons y ys ih =>
    have hy := h y (by simp)
    have hys : ∀ x ∈ ys, P x := fun x hx => h x (by simp [hx])
    cases i with
    | zero =>
      intro x hx
      simp only [modifyAt, List.mem_cons] at hx
      rcases hx with hx | hx
      · subst hx; exact hf y hy
      · exact hys x hx
    | succ i =>
      intro x hx
      simp only [modifyAt, List.mem_cons] at hx
      rcases hx with hx | hx
      · subst hx; exact hy
      · exact ih i hys x hx

theorem formOK_simulateMatch (sim : List SimRow) (m : Fixture) (r : ℚ)
    (h : ∀ x ∈ sim, FormOK x) : ∀ x ∈ simulateMatch sim m r, FormOK x := by
  have hw : ∀ x ∈ updateWinner sim (winner m r), FormOK x := by
    unfold updateWinner
    split
    · exact forall_mem_modifyAt FormOK winUpdate formOK_winUpdate _ _ h
    · exact h
  unfold simulateMatch updateLoser
  split
  · exact forall_mem_modifyAt FormOK lossUpdate formOK_lossUpdate _ _ hw
  · exact hw

theorem formOK_playFixtures (draws : Nat → ℚ) (sim : List SimRow) (ms : List Fixture) (k : Nat)
    (h : ∀ x ∈ sim, FormOK x) : ∀ x ∈ playFixtures draws sim ms k, FormOK x := by
  induction ms generalizing sim k with
  | nil => exact h
  | cons m ms ih => exact ih _ _ (formOK_simulateMatch sim m _ h)

theorem length_sliceLast5 {α : Type} (xs : List α) : (sliceLast5 xs).length ≤ 5 := by
  simp only [sliceLast5, List.length_drop]; omega

theorem sliceLast5_ne_nil {α : Type} (xs : List α) (h : xs ≠ []) : sliceLast5 xs ≠ [] := by
  intro hnil
  have hl : (sliceLast5 xs).length = 0 := by rw [hnil]; rfl
  have hpos : 0 < xs.length := List.length_pos.2 h
  simp only [sliceLast5, List.length_drop] at hl
  omega

theorem entries_finalizeRow (r : SimRow) (h : FormOK r) :
    split ' ' (finalizeRow r).RECENT_FORM = sliceLast5 r.RECENT_FORM := by
  apply split_join _ _ (sliceLast5_ne_nil _ h.1)
  intro e he
  exact h.2 e (List.mem_of_mem_drop he)

theorem mem_getSimulatedStandings {standings : List Row} {upcomingMatches : List Fixture}
    {draws : Nat → ℚ} {r : Row}
    (h : r ∈ getSimulatedStandings standings upcomingMatches draws) :
    ∃ s ∈ playFixtures draws (standings.map cloneRow) upcomingMatches 0,
      ∃ pos : Int, r = { finalizeRow s with POS := pos } := by
  obtain ⟨r0, hr0, pos, hp⟩ := mem_assignPositions h
  have hr0' := (sortRows_perm _).mem_iff.1 hr0
  obtain ⟨s, hs, rfl⟩ := List.mem_map.1 hr0'
  exact ⟨s, hs, pos, hp⟩

/-- C4. For every input standings, fixture list and sequence of draws, the recent-form
field of every returned row holds at most 5 entries: split on single spaces, as the
simulator itself reads the field, it has length at most 5. -/
theorem recent_form_at_most_five (standings : List Row) (upcomingMatches : List Fixture)
    (draws : Nat → ℚ) (r : Row)
    (h : r ∈ getSimulatedStandings standings upcomingMatches draws) :
    (split ' ' r.RECENT_FORM).length ≤ 5 := by
  obtain ⟨s, hs, pos, rfl⟩ := mem_getSimulatedStandings h
  have hok : FormOK s := formOK_playFixtures draws _ _ 0
    (fun x hx => by
      obtain ⟨r0, _, rfl⟩ := List.mem_map.1 hx
      exact formOK_cloneRow r0) s hs
  have := entries_finalizeRow s hok
  simp only [] at this ⊢
  rw [this]
  exact length_sliceLast5 _

/-! ## The end-to-end scenario (C1) -/

/-- The rounded integer is at most one half away. -/
theorem roundHalfEven_near (x : ℚ) : |(roundHalfEven x : ℚ) - x| ≤ 1 / 2 := by
  have h1 : (⌊x⌋ : ℚ) ≤ x := Int.floor_le x
  have h2 : x < ⌊x⌋ + 1 := Int.lt_floor_add_one x
  unfold roundHalfEven
  rw [abs_le]
  split_ifs with ha hb hc
  · constructor <;> linarith
  · push_cast; constructor <;> linarith
  · constructor <;> linarith
  · push_cast; constructor <;> linarith

/-- The Number `toDouble q` is a multiple of the unit `2 ^ (e - 52)` at the exponent `e` of `q`
and lies at most half a unit from `q`. -/
theorem toDouble_near (q : ℚ) :
    |toDouble q - q| ≤ 2 ^ (max (Int.log 2 |q|) (-1022) - 52) / 2 ∧
      ∃ n : Int, toDouble q = n * 2 ^ (max (Int.log 2 |q|) (-1022) - 52) := by
  unfold toDouble
  by_cases h0 : q = 0
  · subst h0
    refine ⟨?_, 0, by simp⟩
    simp only [if_true, sub_self, abs_zero]
    positivity
  · simp only [h0, if_false]
    refine ⟨?_, _, rfl⟩
    have hu : (0 : ℚ) < 2 ^ (max (Int.log 2 |q|) (-1022) - 52) := by positivity
    generalize (2 : ℚ) ^ (max (Int.log 2 |q|) (-1022) - 52) = u at hu
    have hn := roundHalfEven_near (q / u)
    have e : (roundHalfEven (q / u) : ℚ) * u - q = ((roundHalfEven (q / u) : ℚ) - q / u) * u := by
      field_simp
    rw [e, abs_mul, abs_of_pos hu]
    calc |(roundHalfEven (q / u) : ℚ) - q / u| * u ≤ 1 / 2 * u :=
          mul_le_mul_of_nonneg_right hn hu.le
      _ = u / 2 := by ring

theorem floor_eq_of_bounds (x : ℚ) (n : Int) (h1 : (n : ℚ) ≤ x) (h2 : x < n + 1) : ⌊x⌋ = n :=
  Int.floor_eq_iff.mpr ⟨h1, h2⟩

/-- The quotient `100 / 100` is the Number 1. -/
theorem toDouble_hundred_percent : toDouble (100 / 100) = 1 := by
  have h : Int.log 2 (1 : ℚ) = 0 := by simp
  have hf : ⌊(4503599627370496 : ℚ)⌋ = 4503599627370496 :=
    floor_eq_of_bounds _ _ (by norm_num) (by norm_num)
  norm_num [toDouble, roundHalfEven, h, hf]

/-- The quotient `50 / 100` is the Number one half. -/
theorem toDouble_fifty_percent : toDouble (50 / 100) = 1 / 2 := by
  have e : (50 : ℚ) / 100 = 1 / 2 := by norm_num
  have hl : Int.log 2 ((1 : ℚ) / 2) = -1 := by
    rw [Int.log_of_right_le_one _ (by norm_num)]
    have : ⌈((1 : ℚ) / 2)⁻¹⌉₊ = 2 := by
      rw [Nat.ceil_eq_iff (by norm_num)]
      norm_num
    rw [this]
    simp [Nat.clog_of_two_le]
  have hf : ⌊((1 : ℚ) / 2) / 2 ^ ((-1 : Int) - 52)⌋ = 4503599627370496 :=
    floor_eq_of_bounds _ _ (by norm_num) (by norm_num)
  rw [e]
  unfold toDouble roundHalfEven
  rw [abs_of_pos (by norm_num : (0 : ℚ) < 1 / 2), hl]
  norm_num [hf]

/-- The quotient `70 / 100` is the Number `0.7`, which lies below seven tenths. -/
theorem toDouble_seventy_percent : toDouble (70 / 100) = doubleSevenTenths := by
  have e : (70 : ℚ) / 100 = 7 / 10 := by norm_num
  have hl : Int.log 2 ((7 : ℚ) / 10) = -1 := by
    rw [Int.log_of_right_le_one _ (by norm_num)]
    have : ⌈((7 : ℚ) / 10)⁻¹⌉₊ = 2 := by
      rw [Nat.ceil_eq_iff (by norm_num)]
      norm_num
    rw [this]
    simp [Nat.clog_of_two_le]
  have hf : ⌊((7 : ℚ) / 10) / 2 ^ ((-1 : Int) - 52)⌋ = 6305039478318694 :=
    floor_eq_of_bounds _ _ (by norm_num) (by norm_num)
  rw [e]
  unfold toDouble roundHalfEven doubleSevenTenths
  rw [abs_of_pos (by norm_num : (0 : ℚ) < 7 / 10), hl]
  norm_num [hf]

theorem scenario_winner (random : ℚ) (h : random < 1) :
    winner scenarioFixture random = "Mumbai Indians".toList := by
  have hp : team1Prob scenarioFixture = 1 := by
    simp only [team1Prob, scenarioFixture, Option.bind_some, Option.getD_some]
    exact toDouble_hundred_percent
  simp only [winner, hp, h, if_true]; rfl

theorem scenario_loser (random : ℚ) (h : random < 1) :
    loser scenarioFixture random = "Chennai Super Kings".toList := by
  simp only [loser, scenario_winner random h]; rfl

theorem scenario_simulateMatch (random : ℚ) (h : random < 1) :
    simulateMatch (scenarioStandings.map cloneRow) scenarioFixture random =
      modifyAt lossUpdate (modifyAt winUpdate (scenarioStandings.map cloneRow) 0) 1 := by
  have f1 : find (scenarioStandings.map cloneRow) "Mumbai Indians".toList = some 0 := by decide
  have f2 : find (modifyAt winUpdate (scenarioStandings.map cloneRow) 0)
      "Chennai Super Kings".toList = some 1 := by decide
  simp only [simulateMatch, scenario_winner random h, scenario_loser random h, updateWinner, f1,
    updateLoser, f2]

/-- The rows the simulator returns in the end-to-end scenario. -/
theorem scenario_rows (draws : Nat → ℚ) (h : draws 0 < 1) :
    getSimulatedStandings scenarioStandings scenarioFixtures draws =
      [ { POS := 1, TEAM := "Mumbai Indians".toList, P := 1, W := 1, L := 0, NR := 0,
          NRR := 1 / 2, FOR := [], AGAINST := [], PTS := 2, RECENT_FORM := " W".toList },
        { POS := 2, TEAM := "Chennai Super Kings".toList, P := 1, W := 0, L := 1, NR := 0,
          NRR := 1 / 5, FOR := [], AGAINST := [], PTS := 0, RECENT_FORM := " L".toList } ] := by
  simp only [getSimulatedStandings, scenarioFixtures, playFixtures, scenario_simulateMatch _ h]
  simp [scenarioStandings, cloneRow, modifyAt, winUpdate, lossUpdate, finalizeRow, split,
    sliceLast5, join, sortRows, List.insertionSort, List.orderedInsert, rankLE_iff,
    assignPositions]

/-- C1. In the end-to-end scenario, for every draw below 1 (so for every draw in [0,1)), the
simulator returns Mumbai Indians at `POS` 1 with `P = 1`, `W = 1`, `PTS = 2` and Chennai
Super Kings with `P = 1`, `L = 1`, `PTS = 0`; the recent forms are `" W"` and `" L"`, with a
leading space, not `"W"` and `"L"`, because the empty input form splits into one empty
entry. -/
theorem scenario_outcome (draws : Nat → ℚ) (h : draws 0 < 1) :
    getSimulatedStandings scenarioStandings scenarioFixtures draws =
      [ { POS := 1, TEAM := "Mumbai Indians".toList, P := 1, W := 1, L := 0, NR := 0,
          NRR := 1 / 2, FOR := [], AGAINST := [], PTS := 2, RECENT_FORM := " W".toList },
        { POS := 2, TEAM := "Chennai Super Kings".toList, P := 1, W := 0, L := 1, NR := 0,
          NRR := 1 / 5, FOR := [], AGAINST := [], PTS := 0, RECENT_FORM := " L".toList } ] ∧
      (getSimulatedStandings scenarioStandings scenarioFixtures draws).map
        (fun r => r.RECENT_FORM) ≠ ["W".toList, "L".toList] := by
  rw [scenario_rows draws h]
  exact ⟨rfl, by decide⟩

theorem scenario_outcome_witness :
    (fun _ : Nat => (0 : ℚ)) 0 < 1 ∧
      (getSimulatedStandings scenarioStandings scenarioFixtures (fun _ => 0)).map
        (fun r => r.RECENT_FORM) ≠ ["W".toList, "L".toList] :=
  ⟨by norm_num, (scenario_outcome (fun _ => 0) (by norm_num)).2⟩

/-! ## The winner rule and the single-fixture update (C5, C6) -/

theorem team1Prob_eq (m : Fixture) :
    team1Prob m = toDouble ((match m.Probability with
      | none => (50 : ℚ)
      | some pr => (match pr.Team_1 with
        | none => (50 : ℚ)
        | some p => p)) / 100) := by
  unfold team1Prob
  cases m.Probability with
  | none => rfl
  | some pr => cases h : pr.Team_1 <;> simp [h]

/-- The fixtures from number `k` on read only the draws from number `k` on, one each. -/
theorem playFixtures_congr_draws (draws draws' : Nat → ℚ) (sim : List SimRow)
    (ms : List Fixture) (k : Nat)
    (h : ∀ i, k ≤ i → i < k + ms.length → draws i = draws' i) :
    playFixtures draws sim ms k = playFixtures draws' sim ms k := by
  induction ms generalizing sim k with
  | nil => rfl
  | cons m ms ih =>
    simp only [playFixtures]
    rw [h k (le_refl k) (by simp)]
    apply ih
    intro i h1 h2
    apply h i (by omega)
    simp only [List.length_cons]
    omega

/-- With the exact quotient as threshold the winner rule fails: at `Probability.Team_1 = 70`
and the draw `0.7` (the Number that `70 / 100` evaluates to, below seven tenths) the draw is
less than the exact `70 / 100`, yet it is not less than `team1Prob`, and `Team_2` wins. -/
theorem winner_rule_exact_quotient_fails :
    seventyFixture.Probability = some { Team_1 := some 70, Team_2 := some 30 } ∧
      0 ≤ doubleSevenTenths ∧ doubleSevenTenths < 1 ∧
      doubleSevenTenths < (70 : ℚ) / 100 ∧
      team1Prob seventyFixture = doubleSevenTenths ∧
      winner seventyFixture doubleSevenTenths = seventyFixture.Team_2 ∧
      winner seventyFixture doubleSevenTenths ≠ seventyFixture.Team_1 ∧
      loser seventyFixture doubleSevenTenths = seventyFixture.Team_1 := by
  have hp : team1Prob seventyFixture = doubleSevenTenths := by
    simp only [team1Prob, seventyFixture, Option.bind_some, Option.getD_some]
    exact toDouble_seventy_percent
  have hw : winner seventyFixture doubleSevenTenths = seventyFixture.Team_2 := by
    unfold winner
    rw [hp]
    simp
  have hne : seventyFixture.Team_2 ≠ seventyFixture.Team_1 := by decide
  refine ⟨rfl, ?_, ?_, ?_, hp, hw, ?_, ?_⟩
  · unfold doubleSevenTenths; norm_num
  · unfold doubleSevenTenths; norm_num
  · unfold doubleSevenTenths; norm_num
  · rw [hw]; exact hne
  · unfold loser
    rw [hw]
    simp only [hne, if_false]

/-- C5. Winner rule: with `p` the value of `Probability.Team_1`, or 50 when `Probability`
or `Probability.Team_1` is absent, the draw `random` makes `Team_1` the winner and `Team_2`
the loser if `random` is less than the Number that `p / 100` evaluates to (the quotient rounded
to the nearest Number), and `Team_2` the winner and `Team_1` the loser otherwise; at 50 and at
100 percent that Number is the exact quotient; and each fixture takes one draw: the fixtures
from number `k` on give the same rows for two streams of draws that agree from `k` up to the
number of fixtures. -/
theorem winner_rule (m : Fixture) (random : ℚ) :
    (winner m random, loser m random) =
        (if random < toDouble ((match m.Probability with
            | none => (50 : ℚ)
            | some pr => (match pr.Team_1 with
              | none => (50 : ℚ)
              | some p => p)) / 100)
          then (m.Team_1, m.Team_2) else (m.Team_2, m.Team_1)) ∧
      toDouble (50 / 100) = 1 / 2 ∧ toDouble (100 / 100) = 1 ∧
      ∀ (draws draws' : Nat → ℚ) (sim : List SimRow) (ms : List Fixture) (k : Nat),
        (∀ i, k ≤ i → i < k + ms.length → draws i = draws' i) →
          playFixtures draws sim ms k = playFixtures draws' sim ms k := by
  refine ⟨?_, toDouble_fifty_percent, toDouble_hundred_percent,
    fun draws draws' sim ms k h => playFixtures_congr_draws draws draws' sim ms k h⟩
  rw [← team1Prob_eq]
  unfold loser winner
  by_cases h : random < team1Prob m
  · simp [h]
  · by_cases e : m.Team_2 = m.Team_1
    · simp [h, e]
    · simp [h, e]

theorem simulateMatch_eq_of_find (sim : List SimRow) (m : Fixture) (random : ℚ) (i j : Nat)
    (hw : find sim (winner m random) = some i) (hl : find sim (loser m random) = some j) :
    simulateMatch sim m random = modifyAt lossUpdate (modifyAt winUpdate sim i) j := by
  have hl' : find (modifyAt winUpdate sim i) (loser m random) = some j := by
    rw [find_eq_of_teams _ sim _
      (map_modifyAt (fun r : SimRow => r.TEAM) winUpdate (fun x => rfl) sim i)]
    exact hl
  simp only [simulateMatch, updateWinner, hw, updateLoser, hl']

/-- C6. Single-fixture update: when the winner is located at row `i` and the loser at a
different row `j`, the winner's row ends with `P + 1`, `W + 1`, `PTS + 2`, `L` unchanged
and `"W"` appended to its recent form, the loser's row ends with `P + 1`, `L + 1`, `PTS`
and `W` unchanged and `"L"` appended, and every other row is left as it was. -/
theorem single_fixture_update (sim : List SimRow) (m : Fixture) (random : ℚ) (i j : Nat)
    (hw : find sim (winner m random) = some i) (hl : find sim (loser m random) = some j)
    (hij : i ≠ j) :
    (∃ w w' : SimRow, sim[i]? = some w ∧ (simulateMatch sim m random)[i]? = some w' ∧
        w'.P = w.P + 1 ∧ w'.W = w.W + 1 ∧ w'.PTS = w.PTS + 2 ∧ w'.L = w.L ∧
        w'.RECENT_FORM = w.RECENT_FORM ++ [['W']]) ∧
      (∃ l l' : SimRow, sim[j]? = some l ∧ (simulateMatch sim m random)[j]? = some l' ∧
        l'.P = l.P + 1 ∧ l'.L = l.L + 1 ∧ l'.PTS = l.PTS ∧ l'.W = l.W ∧
        l'.RECENT_FORM = l.RECENT_FORM ++ [['L']]) ∧
      ∀ k : Nat, k ≠ i → k ≠ j → (simulateMatch sim m random)[k]? = sim[k]? := by
  have hi : i < sim.length := findIndex_lt _ _ _ hw
  have hj : j < sim.length := findIndex_lt _ _ _ hl
  rw [simulateMatch_eq_of_find sim m random i j hw hl]
  refine ⟨⟨sim[i], winUpdate sim[i], by simp, ?_, rfl, rfl, rfl, rfl, rfl⟩,
    ⟨sim[j], lossUpdate sim[j], by simp, ?_, rfl, rfl, rfl, rfl, rfl⟩, ?_⟩
  · rw [getElem?_modifyAt, getElem?_modifyAt]
    simp [hij, hi]
  · rw [getElem?_modifyAt, getElem?_modifyAt]
    simp [Ne.symm hij, hj]
  · intro k hki hkj
    rw [getElem?_modifyAt, getElem?_modifyAt]
    simp [hki, hkj]

theorem single_fixture_update_witness :
    find (scenarioStandings.map cloneRow) (winner scenarioFixture 0) = some 0 ∧
      find (scenarioStandings.map cloneRow) (loser scenarioFixture 0) = some 1 ∧
      (0 : Nat) ≠ 1 ∧
      ∀ k : Nat, k ≠ 0 → k ≠ 1 →
        (simulateMatch (scenarioStandings.map cloneRow) scenarioFixture 0)[k]? =
          (scenarioStandings.map cloneRow)[k]? :=
  have hw : find (scenarioStandings.map cloneRow) (winner scenarioFixture 0) = some 0 := by
    rw [scenario_winner 0 (by norm_num)]; decide
  have hl : find (scenarioStandings.map cloneRow) (loser scenarioFixture 0) = some 1 := by
    rw [scenario_loser 0 (by norm_num)]; decide
  ⟨hw, hl, by decide,
    (single_fixture_update (scenarioStandings.map cloneRow) scenarioFixture 0 0 1 hw hl
      (by decide)).2.2⟩

theorem recent_form_at_most_five_witness :
    (⟨1, "Mumbai Indians".toList, 1, 1, 0, 0, 1 / 2, [], [], 2, " W".toList⟩ : Row) ∈
        getSimulatedStandings scenarioStandings scenarioFixtures (fun _ => 0) ∧
      (split ' ' " W".toList).length ≤ 5 :=
  have hmem : (⟨1, "Mumbai Indians".toList, 1, 1, 0, 0, 1 / 2, [], [], 2, " W".toList⟩ : Row) ∈
      getSimulatedStandings scenarioStandings scenarioFixtures (fun _ => 0) := by
    rw [scenario_rows _ (by norm_num)]
    exact List.mem_cons_self _ _
  ⟨hmem, recent_form_at_most_five _ _ _ _ hmem⟩

/-! ## The resolver on short codes (C9, C10) -/

theorem normalizeTeamName_congr (a b : Str) (he : a.isEmpty = b.isEmpty)
    (hs : splitHead a = splitHead b) (hm : matchLeadingUpper a = matchLeadingUpper b)
    (hsome : matchLeadingUpper a ≠ none) : normalizeTeamName a = normalizeTeamName b := by
  unfold normalizeTeamName
  rw [he, hs, ← hm]
  cases h : matchLeadingUpper a with
  | none => exact absurd h hsome
  | some run => rfl

theorem splitHead_upper_append (code t : Str) (h : ∀ c ∈ code, isUpperAZ c = true) :
    splitHead (code ++ scoreSeparator ++ t) = code := by
  induction code with
  | nil =>
    cases t <;> simp [splitHead, scoreSeparator, List.isPrefixOf]
  | cons c cs ih =>
    have hc : isUpperAZ c = true := h c (by simp)
    have hne : c ≠ ' ' := by
      intro e; subst e; exact absurd hc (by decide)
    have ih' := ih (fun x hx => h x (by simp [hx]))
    have hpre : scoreSeparator.isPrefixOf (c :: (cs ++ scoreSeparator ++ t)) = false := by
      simp [scoreSeparator, List.isPrefixOf, Ne.symm hne]
    rw [List.cons_append, List.cons_append, splitHead, hpre, ih']
    rfl

theorem splitHead_upper (code : Str) (h : ∀ c ∈ code, isUpperAZ c = true) :
    splitHead code = code := by
  induction code with
  | nil => rfl
  | cons c cs ih =>
    have hc : isUpperAZ c = true := h c (by simp)
    have hne : c ≠ ' ' := by
      intro e; subst e; exact absurd hc (by decide)
    simp [splitHead, scoreSeparator, List.isPrefixOf, hne, Ne.symm hne,
      ih (fun x hx => h x (by simp [hx]))]

theorem takeWhile_upper_append (code t : Str) (h : ∀ c ∈ code, isUpperAZ c = true) :
    (code ++ scoreSeparator ++ t).takeWhile isUpperAZ = code := by
  induction code with
  | nil =>
    have hsp : isUpperAZ ' ' = false := by decide
    simp [scoreSeparator, List.takeWhile, hsp]
  | cons c cs ih =>
    have hc : isUpperAZ c = true := h c (by simp)
    have ih' := ih (fun x hx => h x (by simp [hx]))
    rw [List.cons_append, List.cons_append, List.takeWhile, hc, ih']

theorem takeWhile_upper (code : Str) (h : ∀ c ∈ code, isUpperAZ c = true) :
    code.takeWhile isUpperAZ = code := by
  induction code with
  | nil => rfl
  | cons c cs ih =>
    have hc : isUpperAZ c = true := h c (by simp)
    simp [List.takeWhile, hc, ih (fun x hx => h x (by simp [hx]))]

theorem normalizeTeamName_code_suffix (code t : Str) (hne : code ≠ [])
    (h : ∀ c ∈ code, isUpperAZ c = true) :
    normalizeTeamName (code ++ scoreSeparator ++ t) = normalizeTeamName code := by
  have hm : matchLeadingUpper (code ++ scoreSeparator ++ t) = matchLeadingUpper code := by
    unfold matchLeadingUpper
    rw [takeWhile_upper_append code t h, takeWhile_upper code h]
  apply normalizeTeamName_congr
  · cases code with
    | nil => exact absurd rfl hne
    | cons c cs => rfl
  · rw [splitHead_upper_append code t h, splitHead_upper code h]
  · exact hm
  · rw [hm]
    unfold matchLeadingUpper
    rw [takeWhile_upper code h]
    cases code with
    | nil => exact absurd rfl hne
    | cons c cs => simp

theorem shortCodes_upper :
    ∀ p ∈ shortCodes, p.1 ≠ [] ∧ ∀ c ∈ p.1, isUpperAZ c = true := by decide

theorem shortCodes_resolve :
    ∀ p ∈ shortCodes, normalizeTeamName p.1 = .str (toLowerCase p.2) ∧
      p.2 ∈ iplTeams.map (fun t => t.name) := by decide

/-- C10. Abbreviations resolve: for each of the ten upper-case short codes and every suffix
`t`, `normalizeTeamName code` and `normalizeTeamName (code ++ " - " ++ t)` both equal the
lowercase canonical full name of that team, a name of `iplTeams`. -/
theorem abbreviations_resolve (code name t : Str) (h : (code, name) ∈ shortCodes) :
    name ∈ iplTeams.map (fun team => team.name) ∧
      normalizeTeamName code = .str (toLowerCase name) ∧
      normalizeTeamName (code ++ " - ".toList ++ t) = .str (toLowerCase name) := by
  have hu := shortCodes_upper (code, name) h
  have hr := shortCodes_resolve (code, name) h
  refine ⟨hr.2, hr.1, ?_⟩
  have := normalizeTeamName_code_suffix code t hu.1 hu.2
  simp only [scoreSeparator] at this
  rw [show " - ".toList = [' ', '-', ' '] from rfl, this]
  exact hr.1

theorem abbreviations_resolve_witness :
    ("PBKS".toList, "Punjab Kings".toList) ∈ shortCodes ∧
      normalizeTeamName ("PBKS".toList ++ " - ".toList ++ "111 (15.3 ov)".toList) =
        .str "punjab kings".toList :=
  ⟨by decide,
    (abbreviations_resolve "PBKS".toList "Punjab Kings".toList "111 (15.3 ov)".toList
      (by decide)).2.2⟩

/-- C9. On the strings `"constructor"` and `"__proto__"` the resolver returns the object the
alias table inherits from `Object.prototype` under that key, not a string. -/
theorem normalizeTeamName_inherited_keys :
    normalizeTeamName "constructor".toList = .inherited "constructor".toList ∧
      normalizeTeamName "__proto__".toList = .inherited "__proto__".toList ∧
      normalizeTeamName "CONSTRUCTOR - 120 (20 ov)".toList = .inherited "constructor".toList ∧
      ∀ s : Str, normalizeTeamName "constructor".toList ≠ .str s := by
  refine ⟨by decide, by decide, by decide, ?_⟩
  intro s
  rw [show normalizeTeamName "constructor".toList = .inherited "constructor".toList by decide]
  exact fun h => JsValue.noConfusion h

/-! ## The simulator on the heap: inputs are not mutated (C7) -/

theorem readRow_eq_some {h : Heap} {a : Nat} {r : Row} :
    readRow h a = some r ↔ h[a]? = some (.row r) := by
  unfold readRow
  cases h[a]? with
  | none => simp
  | some o => cases o <;> simp

theorem readSimRow_eq_some {h : Heap} {a : Nat} {r : SimRow} :
    readSimRow h a = some r ↔ h[a]? = some (.simRow r) := by
  unfold readSimRow
  cases h[a]? with
  | none => simp
  | some o => cases o <;> simp

theorem readFixture_eq_some {h : Heap} {a : Nat} {m : Fixture} :
    readFixture h a = some m ↔ h[a]? = some (.fixture m) := by
  unfold readFixture
  cases h[a]? with
  | none => simp
  | some o => cases o <;> simp

theorem readRowArray_eq_some {h : Heap} {a : Nat} {refs : List Nat} :
    readRowArray h a = some refs ↔ h[a]? = some (.rowArray refs) := by
  unfold readRowArray
  cases h[a]? with
  | none => simp
  | some o => cases o <;> simp

theorem readFixtureArray_eq_some {h : Heap} {a : Nat} {refs : List Nat} :
    readFixtureArray h a = some refs ↔ h[a]? = some (.fixtureArray refs) := by
  unfold readFixtureArray
  cases h[a]? with
  | none => simp
  | some o => cases o <;> simp

theorem lt_length_of_getElem?_eq_some {h : Heap} {a : Nat} {o : HeapObj}
    (e : h[a]? = some o) : a < h.length := by
  by_contra hlt
  rw [List.getElem?_eq_none (Nat.le_of_not_lt hlt)] at e
  exact Option.noConfusion e

theorem readRows_cons_eq_some {h : Heap} {a : Nat} {as : List Nat} {rows : List Row}
    (e : readRows h (a :: as) = some rows) :
    ∃ r rs, readRow h a = some r ∧ readRows h as = some rs ∧ rows = r :: rs := by
  simp only [readRows] at e
  cases h1 : readRow h a with
  | none => simp [h1] at e
  | some r =>
    cases h2 : readRows h as with
    | none => simp [h1, h2] at e
    | some rs =>
      simp [h1, h2] at e
      exact ⟨r, rs, rfl, rfl, e.symm⟩

theorem readFixtures_cons_eq_some {h : Heap} {a : Nat} {as : List Nat} {ms : List Fixture}
    (e : readFixtures h (a :: as) = some ms) :
    ∃ m rest, readFixture h a = some m ∧ readFixtures h as = some rest ∧ ms = m :: rest := by
  simp only [readFixtures] at e
  cases h1 : readFixture h a with
  | none => simp [h1] at e
  | some m =>
    cases h2 : readFixtures h as with
    | none => simp [h1, h2] at e
    | some rest =>
      simp [h1, h2] at e
      exact ⟨m, rest, rfl, rfl, e.symm⟩

theorem readRows_lt {h : Heap} {as : List Nat} {rows : List Row}
    (e : readRows h as = some rows) : ∀ a ∈ as, a < h.length := by
  induction as generalizing rows with
  | nil => simp
  | cons a as ih =>
    obtain ⟨r, rs, h1, h2, _⟩ := readRows_cons_eq_some e
    intro b hb
    rcases List.mem_cons.1 hb with hb | hb
    · subst hb; exact lt_length_of_getElem?_eq_some (readRow_eq_some.1 h1)
    · exact ih h2 b hb

theorem readFixtures_lt {h : Heap} {as : List Nat} {ms : List Fixture}
    (e : readFixtures h as = some ms) : ∀ a ∈ as, a < h.length := by
  induction as generalizing ms with
  | nil => simp
  | cons a as ih =>
    obtain ⟨m, rest, h1, h2, _⟩ := readFixtures_cons_eq_some e
    intro b hb
    rcases List.mem_cons.1 hb with hb | hb
    · subst hb; exact lt_length_of_getElem?_eq_some (readFixture_eq_some.1 h1)
    · exact ih h2 b hb

theorem readRows_length {h : Heap} {as : List Nat} {rows : List Row}
    (e : readRows h as = some rows) : rows.length = as.length := by
  induction as generalizing rows with
  | nil => simp [readRows] at e; simp [← e]
  | cons a as ih =>
    obtain ⟨r, rs, _, h2, rfl⟩ := readRows_cons_eq_some e
    simp [ih h2]

theorem readRows_congr {h h' : Heap} {as : List Nat} (e : ∀ a ∈ as, h'[a]? = h[a]?) :
    readRows h' as = readRows h as := by
  induction as with
  | nil => rfl
  | cons a as ih =>
    have ha : readRow h' a = readRow h a := by
      unfold readRow; rw [e a (by simp)]
    simp only [readRows, ha, ih (fun b hb => e b (by simp [hb]))]

theorem readFixtures_congr {h h' : Heap} {as : List Nat} (e : ∀ a ∈ as, h'[a]? = h[a]?) :
    readFixtures h' as = readFixtures h as := by
  induction as with
  | nil => rfl
  | cons a as ih =>
    have ha : readFixture h' a = readFixture h a := by
      unfold readFixture; rw [e a (by simp)]
    simp only [readFixtures, ha, ih (fun b hb => e b (by simp [hb]))]

theorem cloneRowsH_spec (refs : List Nat) (h : Heap) (rows : List Row)
    (e : readRows h refs = some rows) :
    cloneRowsH h refs =
      some (h ++ rows.map (fun r => HeapObj.simRow (cloneRow r)),
        List.range' h.length refs.length) := by
  induction refs generalizing h rows with
  | nil =>
    simp [readRows] at e
    simp [cloneRowsH, ← e]
  | cons a as ih =>
    obtain ⟨r, rs, h1, h2, rfl⟩ := readRows_cons_eq_some e
    have h2' : readRows (h ++ [HeapObj.simRow (cloneRow r)]) as = some rs := by
      rw [readRows_congr (h := h)]
      · exact h2
      · intro b hb
        exact List.getElem?_append_left (readRows_lt h2 b hb)
    simp only [cloneRowsH, h1, ih _ _ h2']
    simp [List.range'_succ]

theorem simHeap_getElem?_lt (h0 : Heap) (sim : List SimRow) (refs : List Nat) (a : Nat)
    (ha : a < h0.length) : (simHeap h0 sim refs)[a]? = h0[a]? := by
  unfold simHeap
  rw [List.append_assoc, List.getElem?_append_left ha]

theorem simHeap_getElem?_row (h0 : Heap) (sim : List SimRow) (refs : List Nat) (i : Nat)
    (hi : i < sim.length) :
    (simHeap h0 sim refs)[h0.length + i]? = (sim[i]?).map HeapObj.simRow := by
  unfold simHeap
  rw [List.getElem?_append_left (by simp; omega), List.getElem?_append_right (by omega)]
  simp

theorem simHeap_getElem?_sim (h0 : Heap) (sim : List SimRow) (refs : List Nat) :
    (simHeap h0 sim refs)[h0.length + sim.length]? = some (HeapObj.rowArray refs) := by
  unfold simHeap
  rw [List.getElem?_append_right (by simp)]
  simp

theorem set_map_modifyAt {α β : Type} (g : α → β) (f : α → α) (xs : List α) (i : Nat) (x : α)
    (hx : xs[i]? = some x) : (xs.map g).set i (g (f x)) = (modifyAt f xs i).map g := by
  induction xs generalizing i with
  | nil => simp at hx
  | cons y ys ih =>
    cases i with
    | zero =>
      simp at hx
      simp [modifyAt, hx]
    | succ i =>
      simp at hx
      simp [modifyAt, ih i hx]

theorem simHeap_set (h0 : Heap) (sim : List SimRow) (refs : List Nat) (f : SimRow → SimRow)
    (i : Nat) (s : SimRow) (hs : sim[i]? = some s) :
    (simHeap h0 sim refs).set (h0.length + i) (HeapObj.simRow (f s)) =
      simHeap h0 (modifyAt f sim i) refs := by
  have hi : i < sim.length := by
    by_contra hlt
    rw [List.getElem?_eq_none (Nat.le_of_not_lt hlt)] at hs
    exact Option.noConfusion hs
  unfold simHeap
  rw [List.set_append, if_pos (by simp; omega), List.set_append, if_neg (by omega)]
  rw [show h0.length + i - h0.length = i by omega, set_map_modifyAt HeapObj.simRow f sim i s hs]

theorem findIn_range' (h : Heap) (name : Str) (sims : List SimRow) (b : Nat)
    (hs : ∀ i, i < sims.length → readSimRow h (b + i) = sims[i]?) :
    findIn h name (List.range' b sims.length) =
      some ((findIndex (fun r => normalizeTeamName r.TEAM == normalizeTeamName name) sims).map
        (fun i => b + i)) := by
  induction sims generalizing b with
  | nil => simp [findIn, findIndex]
  | cons s sims ih =>
    have h0 : readSimRow h b = some s := by simpa using hs 0 (by simp)
    have hrest : ∀ i, i < sims.length → readSimRow h (b + 1 + i) = sims[i]? := by
      intro i hi
      have := hs (i + 1) (by simpa using hi)
      rw [show b + 1 + i = b + (i + 1) by omega, this]
      simp
    simp only [List.length_cons, List.range'_succ, findIn, h0, findIndex]
    by_cases hp : (normalizeTeamName s.TEAM == normalizeTeamName name) = true
    · simp [hp]
    · simp only [hp, if_false, Bool.false_eq_true]
      rw [ih (b + 1) hrest]
      cases findIndex (fun r => normalizeTeamName r.TEAM == normalizeTeamName name) sims with
      | none => rfl
      | some i => simp; omega

theorem findH_simHeap (h0 : Heap) (sim : List SimRow) (name : Str) :
    findH (simHeap h0 sim (List.range' h0.length sim.length)) (h0.length + sim.length) name =
      some ((find sim name).map (fun i => h0.length + i)) := by
  unfold findH find
  rw [readRowArray_eq_some.2 (simHeap_getElem?_sim h0 sim _)]
  apply findIn_range'
  intro i hi
  have := simHeap_getElem?_row h0 sim (List.range' h0.length sim.length) i hi
  rw [List.getElem?_eq_getElem hi] at this ⊢
  exact readSimRow_eq_some.2 this

theorem updateH_simHeap (f : SimRow → SimRow) (h0 : Heap) (sim : List SimRow) (n : Nat)
    (hn : sim.length = n) (name : Str) :
    updateH f (simHeap h0 sim (List.range' h0.length n)) (h0.length + n) name =
      some (simHeap h0
        (match find sim name with
          | some i => modifyAt f sim i
          | none => sim) (List.range' h0.length n)) := by
  subst hn
  unfold updateH
  rw [findH_simHeap]
  cases hf : find sim name with
  | none => rfl
  | some i =>
    have hi : i < sim.length := findIndex_lt _ _ _ hf
    have hrow := simHeap_getElem?_row h0 sim (List.range' h0.length sim.length) i hi
    rw [List.getElem?_eq_getElem hi] at hrow
    simp only [Option.map_some']
    rw [readSimRow_eq_some.2 hrow]
    simp only []
    rw [simHeap_set h0 sim _ f i sim[i] (List.getElem?_eq_getElem hi)]

theorem simulateMatchH_simHeap (h0 : Heap) (sim : List SimRow) (n : Nat) (hn : sim.length = n)
    (m : Fixture) (random : ℚ) :
    simulateMatchH (simHeap h0 sim (List.range' h0.length n)) (h0.length + n) m random =
      some (simHeap h0 (simulateMatch sim m random) (List.range' h0.length n)) := by
  unfold simulateMatchH
  rw [updateH_simHeap winUpdate h0 sim n hn]
  simp only []
  have hn' : (updateWinner sim (winner m random)).length = n := by
    rw [length_updateWinner, hn]
  have := updateH_simHeap lossUpdate h0 (updateWinner sim (winner m random)) n hn'
    (loser m random)
  unfold updateWinner at this hn'
  rw [this]
  rfl

theorem playFixturesH_simHeap (draws : Nat → ℚ) (h0 : Heap) (n : Nat) (frefs : List Nat)
    (fixtures : List Fixture) (sim : List SimRow) (k : Nat) (hn : sim.length = n)
    (hf : readFixtures h0 frefs = some fixtures) :
    playFixturesH draws (h0.length + n) (simHeap h0 sim (List.range' h0.length n)) frefs k =
      some (simHeap h0 (playFixtures draws sim fixtures k) (List.range' h0.length n)) := by
  induction frefs generalizing fixtures sim k with
  | nil =>
    simp [readFixtures] at hf
    subst hf
    simp [playFixturesH, playFixtures]
  | cons a as ih =>
    obtain ⟨m, rest, h1, h2, rfl⟩ := readFixtures_cons_eq_some hf
    have ha : a < h0.length := lt_length_of_getElem?_eq_some (readFixture_eq_some.1 h1)
    have hread : readFixture (simHeap h0 sim (List.range' h0.length n)) a = some m := by
      rw [readFixture_eq_some, simHeap_getElem?_lt h0 sim _ a ha]
      exact readFixture_eq_some.1 h1
    simp only [playFixturesH, hread, simulateMatchH_simHeap h0 sim n hn, playFixtures]
    exact ih rest _ (k + 1) (by rw [length_simulateMatch, hn]) h2

theorem forEachH_finalize (rest : List SimRow) (pre tail : Heap) (i : Nat) :
    forEachH finalizeObj (pre ++ rest.map HeapObj.simRow ++ tail)
        (List.range' pre.length rest.length) i =
      some (pre ++ rest.map (fun s => HeapObj.row (finalizeRow s)) ++ tail) := by
  induction rest generalizing pre i with
  | nil => simp [forEachH]
  | cons s rest ih =>
    have hget : (pre ++ (s :: rest).map HeapObj.simRow ++ tail)[pre.length]? =
        some (HeapObj.simRow s) := by
      rw [List.append_assoc, List.getElem?_append_right (Nat.le_refl _)]
      simp
    have hset : (pre ++ (s :: rest).map HeapObj.simRow ++ tail).set pre.length
        (HeapObj.row (finalizeRow s)) =
        (pre ++ [HeapObj.row (finalizeRow s)]) ++ rest.map HeapObj.simRow ++ tail := by
      rw [List.append_assoc, List.set_append, if_neg (Nat.lt_irrefl _)]
      simp
    have := ih (pre ++ [HeapObj.row (finalizeRow s)]) (i + 1)
    simp only [List.length_append, List.length_singleton] at this
    simp only [List.length_cons, List.range'_succ, forEachH, hget, finalizeObj, hset, this]
    simp

theorem readRows_range' (rows : List Row) (pre tail : Heap) :
    readRows (pre ++ rows.map HeapObj.row ++ tail) (List.range' pre.length rows.length) =
      some rows := by
  induction rows generalizing pre with
  | nil => simp [readRows]
  | cons r rows ih =>
    have hget : (pre ++ (r :: rows).map HeapObj.row ++ tail)[pre.length]? =
        some (HeapObj.row r) := by
      rw [List.append_assoc, List.getElem?_append_right (Nat.le_refl _)]
      simp
    have hshape : pre ++ (r :: rows).map HeapObj.row ++ tail =
        (pre ++ [HeapObj.row r]) ++ rows.map HeapObj.row ++ tail := by simp
    have := ih (pre ++ [HeapObj.row r])
    simp only [List.length_append, List.length_singleton] at this
    simp only [List.length_cons, List.range'_succ, readRows, readRow_eq_some.2 hget]
    rw [hshape, this]

theorem forEachH_assignPos (as : List Nat) (h : Heap) (rows : List Row) (i : Nat)
    (hnd : as.Nodup) (hr : readRows h as = some rows) :
    ∃ h', forEachH assignPosObj h as i = some h' ∧ h'.length = h.length ∧
      readRows h' as = some (assignPositions rows i) ∧ ∀ b, b ∉ as → h'[b]? = h[b]? := by
  induction as generalizing h rows i with
  | nil =>
    simp [readRows] at hr
    subst hr
    exact ⟨h, rfl, rfl, rfl, fun _ _ => rfl⟩
  | cons a as ih =>
    obtain ⟨r, rs, h1, h2, rfl⟩ := readRows_cons_eq_some hr
    have hget := readRow_eq_some.1 h1
    have ha : a < h.length := lt_length_of_getElem?_eq_some hget
    rw [List.nodup_cons] at hnd
    have h2' : readRows (h.set a (HeapObj.row { r with POS := (i : Int) + 1 })) as = some rs := by
      rw [readRows_congr (h := h)]
      · exact h2
      · intro b hb
        have hne : a ≠ b := fun e => hnd.1 (by rw [e]; exact hb)
        exact List.getElem?_set_ne hne
    obtain ⟨h', e1, e2, e3, e4⟩ := ih _ rs (i + 1) hnd.2 h2'
    refine ⟨h', ?_, ?_, ?_, ?_⟩
    · simp only [forEachH, hget, assignPosObj, e1]
    · rw [e2, List.length_set]
    · have hread : readRow h' a = some { r with POS := (i : Int) + 1 } := by
        rw [readRow_eq_some, e4 a hnd.1, List.getElem?_set_self ha]
      simp only [readRows, hread, e3, assignPositions]
    · intro b hb
      rw [List.mem_cons, not_or] at hb
      rw [e4 b hb.2, List.getElem?_set_ne (Ne.symm hb.1)]

theorem readRow_of_mem_zip {h : Heap} {as : List Nat} {rows : List Row}
    (hr : readRows h as = some rows) : ∀ p ∈ as.zip rows, readRow h p.1 = some p.2 := by
  induction as generalizing rows with
  | nil => simp
  | cons a as ih =>
    obtain ⟨r, rs, h1, h2, rfl⟩ := readRows_cons_eq_some hr
    intro p hp
    simp only [List.zip_cons_cons, List.mem_cons] at hp
    rcases hp with hp | hp
    · subst hp; exact h1
    · exact ih h2 p hp

theorem readRows_map_fst {h : Heap} (ps : List (Nat × Row))
    (hp : ∀ p ∈ ps, readRow h p.1 = some p.2) :
    readRows h (ps.map (fun p => p.1)) = some (ps.map (fun p => p.2)) := by
  induction ps with
  | nil => rfl
  | cons p ps ih =>
    simp only [List.map_cons, readRows, hp p (by simp),
      ih (fun q hq => hp q (by simp [hq]))]

theorem sortRefsH_spec (h : Heap) (refs : List Nat) (rows : List Row)
    (hr : readRows h refs = some rows) :
    ∃ sorted, sortRefsH h refs = some sorted ∧ sorted.Perm refs ∧
      readRows h sorted = some (sortRows rows) := by
  have hlen := readRows_length hr
  refine ⟨((refs.zip rows).insertionSort (fun p q => rankLE p.2 q.2)).map (fun p => p.1),
    by simp only [sortRefsH, hr], ?_, ?_⟩
  · have hperm := (List.perm_insertionSort (fun p q : Nat × Row => rankLE p.2 q.2)
      (refs.zip rows)).map (fun p => p.1)
    have hfst : (refs.zip rows).map (fun p => p.1) = refs :=
      List.map_fst_zip refs rows (by omega)
    rw [hfst] at hperm
    exact hperm
  · rw [readRows_map_fst]
    · have hsnd : (refs.zip rows).map (fun p => p.2) = rows :=
        List.map_snd_zip refs rows (by omega)
      have := List.map_insertionSort (fun p q : Nat × Row => rankLE p.2 q.2) rankLE
        (fun p => p.2) (refs.zip rows) (fun a _ b _ => Iff.rfl)
      rw [this, hsnd]
      rfl
    · intro p hp
      exact readRow_of_mem_zip hr p
        ((List.perm_insertionSort (fun p q : Nat × Row => rankLE p.2 q.2)
          (refs.zip rows)).mem_iff.1 hp)

theorem rowHeap_getElem?_lt (h0 : Heap) (rows : List Row) (refs : List Nat) (a : Nat)
    (ha : a < h0.length) : (rowHeap h0 rows refs)[a]? = h0[a]? := by
  unfold rowHeap
  rw [List.append_assoc, List.getElem?_append_left ha]

theorem rowHeap_getElem?_sim (h0 : Heap) (rows : List Row) (refs : List Nat) :
    (rowHeap h0 rows refs)[h0.length + rows.length]? = some (HeapObj.rowArray refs) := by
  unfold rowHeap
  rw [List.getElem?_append_right (by simp)]
  simp

theorem snapshotStandings_eq_some {h : Heap} {a : Nat} {rows : List Row}
    (e : snapshotStandings h a = some rows) :
    ∃ refs, readRowArray h a = some refs ∧ readRows h refs = some rows := by
  unfold snapshotStandings at e
  cases hr : readRowArray h a with
  | none => simp [hr] at e
  | some refs => exact ⟨refs, rfl, by simpa [hr] using e⟩

theorem snapshotFixtures_eq_some {h : Heap} {a : Nat} {ms : List Fixture}
    (e : snapshotFixtures h a = some ms) :
    ∃ refs, readFixtureArray h a = some refs ∧ readFixtures h refs = some ms := by
  unfold snapshotFixtures at e
  cases hr : readFixtureArray h a with
  | none => simp [hr] at e
  | some refs => exact ⟨refs, rfl, by simpa [hr] using e⟩

/-- The run of `getSimulatedStandings` on the heap, step by step. -/
theorem getSimulatedStandingsH_run (h : Heap) (standings upcomingMatches : Nat)
    (draws : Nat → ℚ) (refs frefs : List Nat) (rows : List Row) (fixtures : List Fixture)
    (hA : readRowArray h standings = some refs) (hR : readRows h refs = some rows)
    (hF : readFixtureArray h upcomingMatches = some frefs)
    (hM : readFixtures h frefs = some fixtures) :
    ∃ h' sorted, getSimulatedStandingsH h standings upcomingMatches draws =
        some (h', h.length + rows.length) ∧
      (∀ a, a < h.length → h'[a]? = h[a]?) ∧
      h'[h.length + rows.length]? = some (HeapObj.rowArray sorted) ∧
      readRows h' sorted = some (getSimulatedStandings rows fixtures draws) := by
  have hlen : rows.length = refs.length := readRows_length hR
  have hum : upcomingMatches < h.length :=
    lt_length_of_getElem?_eq_some (readFixtureArray_eq_some.1 hF)
  -- the clone and the array `sim`
  have hclone := cloneRowsH_spec refs h rows hR
  rw [← hlen] at hclone
  have hshape : h ++ rows.map (fun r => HeapObj.simRow (cloneRow r)) ++
      [HeapObj.rowArray (List.range' h.length rows.length)] =
      simHeap h (rows.map cloneRow) (List.range' h.length rows.length) := by
    simp [simHeap, Function.comp_def]
  have hl1 : (h ++ rows.map (fun r => HeapObj.simRow (cloneRow r))).length =
      h.length + rows.length := by simp
  have hF2 : readFixtureArray (simHeap h (rows.map cloneRow) (List.range' h.length rows.length))
      upcomingMatches = some frefs := by
    rw [readFixtureArray_eq_some, simHeap_getElem?_lt h _ _ _ hum]
    exact readFixtureArray_eq_some.1 hF
  -- the fixtures
  have hplay := playFixturesH_simHeap draws h rows.length frefs fixtures (rows.map cloneRow) 0
    (by simp) hM
  have hpl : (playFixtures draws (rows.map cloneRow) fixtures 0).length = rows.length := by
    rw [length_playFixtures]; simp
  -- line 167
  have hA3 : readRowArray
      (simHeap h (playFixtures draws (rows.map cloneRow) fixtures 0)
        (List.range' h.length rows.length)) (h.length + rows.length) =
      some (List.range' h.length rows.length) := by
    rw [readRowArray_eq_some]
    have := simHeap_getElem?_sim h (playFixtures draws (rows.map cloneRow) fixtures 0)
      (List.range' h.length rows.length)
    rw [hpl] at this
    exact this
  have hfin : forEachH finalizeObj
      (simHeap h (playFixtures draws (rows.map cloneRow) fixtures 0)
        (List.range' h.length rows.length)) (List.range' h.length rows.length) 0 =
      some (rowHeap h ((playFixtures draws (rows.map cloneRow) fixtures 0).map finalizeRow)
        (List.range' h.length rows.length)) := by
    have := forEachH_finalize (playFixtures draws (rows.map cloneRow) fixtures 0) h
      [HeapObj.rowArray (List.range' h.length rows.length)] 0
    rw [hpl] at this
    simpa [simHeap, rowHeap, Function.comp_def] using this
  -- the sort
  have hl4 : ((playFixtures draws (rows.map cloneRow) fixtures 0).map finalizeRow).length =
      rows.length := by simp [hpl]
  have hA4 : readRowArray
      (rowHeap h ((playFixtures draws (rows.map cloneRow) fixtures 0).map finalizeRow)
        (List.range' h.length rows.length)) (h.length + rows.length) =
      some (List.range' h.length rows.length) := by
    rw [readRowArray_eq_some]
    have := rowHeap_getElem?_sim h
      ((playFixtures draws (rows.map cloneRow) fixtures 0).map finalizeRow)
      (List.range' h.length rows.length)
    rw [hl4] at this
    exact this
  have hR4 : readRows
      (rowHeap h ((playFixtures draws (rows.map cloneRow) fixtures 0).map finalizeRow)
        (List.range' h.length rows.length)) (List.range' h.length rows.length) =
      some ((playFixtures draws (rows.map cloneRow) fixtures 0).map finalizeRow) := by
    have := readRows_range'
      ((playFixtures draws (rows.map cloneRow) fixtures 0).map finalizeRow) h
      [HeapObj.rowArray (List.range' h.length rows.length)]
    rw [hl4] at this
    exact this
  obtain ⟨sorted, hs1, hs2, hs3⟩ := sortRefsH_spec _ _ _ hR4
  have hmem : ∀ a ∈ sorted, h.length ≤ a ∧ a < h.length + rows.length := by
    intro a ha
    have := hs2.mem_iff.1 ha
    rw [List.mem_range'] at this
    obtain ⟨i, hi, rfl⟩ := this
    omega
  have hnd : sorted.Nodup := hs2.nodup_iff.2 (List.nodup_range' _ _)
  have hl4' : (rowHeap h ((playFixtures draws (rows.map cloneRow) fixtures 0).map finalizeRow)
      (List.range' h.length rows.length)).length = h.length + rows.length + 1 := by
    simp [rowHeap, hpl]
    omega
  have hA5 : readRowArray
      ((rowHeap h ((playFixtures draws (rows.map cloneRow) fixtures 0).map finalizeRow)
        (List.range' h.length rows.length)).set (h.length + rows.length)
        (HeapObj.rowArray sorted)) (h.length + rows.length) = some sorted := by
    rw [readRowArray_eq_some, List.getElem?_set_self (by omega)]
  have hR5 : readRows
      ((rowHeap h ((playFixtures draws (rows.map cloneRow) fixtures 0).map finalizeRow)
        (List.range' h.length rows.length)).set (h.length + rows.length)
        (HeapObj.rowArray sorted)) sorted =
      some (sortRows ((playFixtures draws (rows.map cloneRow) fixtures 0).map finalizeRow)) := by
    rw [← hs3]
    apply readRows_congr
    intro a ha
    have := hmem a ha
    exact List.getElem?_set_ne (by omega)
  -- line 173
  obtain ⟨h6, e1, _, e3, e4⟩ := forEachH_assignPos sorted _ _ 0 hnd hR5
  refine ⟨h6, sorted, ?_, ?_, ?_, ?_⟩
  · simp only [getSimulatedStandingsH, hA, hclone, hl1, hshape, hF2, hplay, hA3, Option.bind,
      hfin, hA4, hs1, hA5, e1]
  · intro a ha
    have hns : a ∉ sorted := fun hin => by have := hmem a hin; omega
    rw [e4 a hns, List.getElem?_set_ne (by omega), rowHeap_getElem?_lt h _ _ a ha]
  · have hns : h.length + rows.length ∉ sorted := fun hin => by
      have := hmem _ hin; omega
    rw [e4 _ hns, List.getElem?_set_self (by omega)]
  · exact e3

/-- C7. `getSimulatedStandings` never mutates its inputs: on every heap in which `standings`
is an array of rows and `upcomingMatches` an array of fixtures, the call returns; every
object that existed before the call is the same afterwards, so the standings rows (all
their fields and the order of the array) and the fixture list are structurally equal to
their snapshots before the call; and the returned array holds the rows computed by
`getSimulatedStandings` on those snapshots. -/
theorem getSimulatedStandings_inputs_unchanged (h : Heap) (standings upcomingMatches : Nat)
    (draws : Nat → ℚ) (rows : List Row) (fixtures : List Fixture)
    (hst : snapshotStandings h standings = some rows)
    (hum : snapshotFixtures h upcomingMatches = some fixtures) :
    ∃ h' out, getSimulatedStandingsH h standings upcomingMatches draws = some (h', out) ∧
      (∀ a, a < h.length → h'[a]? = h[a]?) ∧
      snapshotStandings h' standings = some rows ∧
      snapshotFixtures h' upcomingMatches = some fixtures ∧
      snapshotStandings h' out = some (getSimulatedStandings rows fixtures draws) := by
  obtain ⟨refs, hA, hR⟩ := snapshotStandings_eq_some hst
  obtain ⟨frefs, hF, hM⟩ := snapshotFixtures_eq_some hum
  obtain ⟨h', sorted, e1, e2, e3, e4⟩ :=
    getSimulatedStandingsH_run h standings upcomingMatches draws refs frefs rows fixtures
      hA hR hF hM
  have hs : standings < h.length :=
    lt_length_of_getElem?_eq_some (readRowArray_eq_some.1 hA)
  have hu : upcomingMatches < h.length :=
    lt_length_of_getElem?_eq_some (readFixtureArray_eq_some.1 hF)
  refine ⟨h', _, e1, e2, ?_, ?_, ?_⟩
  · have hA' : readRowArray h' standings = some refs := by
      rw [readRowArray_eq_some, e2 _ hs]; exact readRowArray_eq_some.1 hA
    have hR' : readRows h' refs = some rows := by
      rw [← hR]
      exact readRows_congr (fun a ha => e2 a (readRows_lt hR a ha))
    simp [snapshotStandings, hA', hR']
  · have hF' : readFixtureArray h' upcomingMatches = some frefs := by
      rw [readFixtureArray_eq_some, e2 _ hu]; exact readFixtureArray_eq_some.1 hF
    have hM' : readFixtures h' frefs = some fixtures := by
      rw [← hM]
      exact readFixtures_congr (fun a ha => e2 a (readFixtures_lt hM a ha))
    simp [snapshotFixtures, hF', hM']
  · simp [snapshotStandings, readRowArray_eq_some.2 e3, e4]

theorem getSimulatedStandings_inputs_unchanged_witness :
    snapshotStandings scenarioHeap 2 = some scenarioStandings ∧
      snapshotFixtures scenarioHeap 4 = some scenarioFixtures ∧
      ∃ h' out, getSimulatedStandingsH scenarioHeap 2 4 (fun _ => 0) = some (h', out) ∧
        (∀ a, a < scenarioHeap.length → h'[a]? = scenarioHeap[a]?) ∧
        snapshotStandings h' 2 = some scenarioStandings ∧
        snapshotFixtures h' 4 = some scenarioFixtures ∧
        snapshotStandings h' out =
          some (getSimulatedStandings scenarioStandings scenarioFixtures (fun _ => 0)) :=
  ⟨rfl, rfl,
    getSimulatedStandings_inputs_unchanged scenarioHeap 2 4 (fun _ => 0) scenarioStandings
      scenarioFixtures rfl rfl⟩

/-! ## The resolver: exact matches and fixed points (C13, C16) -/

theorem normalizeTeamName_of_exact (s : Str) (t0 : Team) (hne : s ≠ [])
    (h : iplTeams.find? (fun t => toLowerCase t.name == toLowerCase (trim (splitHead s))) =
      some t0) :
    normalizeTeamName s = .str (toLowerCase t0.name) := by
  unfold normalizeTeamName
  cases s with
  | nil => exact absurd rfl hne
  | cons c cs =>
    simp only [List.isEmpty_cons, Bool.false_eq_true, if_false]
    rw [h]

theorem iplTeams_names_ne_nil : ∀ n ∈ iplTeams.map (fun t => t.name), n ≠ [] := by decide

/-- C13. Case-insensitive exact match: for each canonical team name `n` and every string
`s` whose part before the first `" - "`, trimmed, equals `n` up to letter case,
`normalizeTeamName s` is the lowercase form of `n`. -/
theorem exact_match_case_insensitive (n s : Str) (hn : n ∈ iplTeams.map (fun t => t.name))
    (hs : toLowerCase (trim (splitHead s)) = toLowerCase n) :
    normalizeTeamName s = .str (toLowerCase n) := by
  have hne : s ≠ [] := by
    intro e
    subst e
    have hnil : toLowerCase n = [] := by rw [← hs]; rfl
    exact iplTeams_names_ne_nil n hn (List.map_eq_nil_iff.1 hnil)
  obtain ⟨team, hteam, rfl⟩ := List.mem_map.1 hn
  cases hfind : iplTeams.find?
      (fun t => toLowerCase t.name == toLowerCase (trim (splitHead s))) with
  | none =>
    have := List.find?_eq_none.1 hfind team hteam
    rw [hs] at this
    simp at this
  | some t0 =>
    rw [normalizeTeamName_of_exact s t0 hne hfind]
    have := List.find?_some hfind
    rw [hs] at this
    simpa using this

theorem exact_match_case_insensitive_witness :
    "Mumbai Indians".toList ∈ iplTeams.map (fun t => t.name) ∧
      toLowerCase (trim (splitHead "  MUMBAI INDIANS - 180/4 (20 ov)".toList)) =
        toLowerCase "Mumbai Indians".toList ∧
      normalizeTeamName "  MUMBAI INDIANS - 180/4 (20 ov)".toList =
        .str (toLowerCase "Mumbai Indians".toList) :=
  ⟨by decide, by decide,
    exact_match_case_insensitive "Mumbai Indians".toList
      "  MUMBAI INDIANS - 180/4 (20 ov)".toList (by decide) (by decide)⟩

theorem canonical_lowercase_resolve :
    ∀ team ∈ iplTeams, normalizeTeamName (toLowerCase team.name) = .str (toLowerCase team.name) := by
  decide

/-- C16. Canonical lowercase names are fixed points of `normalizeTeamName`: for each of the
ten lowercase canonical names `x`, the result is the string `x`, and resolving that result
again gives the same result. -/
theorem canonical_lowercase_fixed_point (team : Team) (h : team ∈ iplTeams) :
    normalizeTeamName (toLowerCase team.name) = .str (toLowerCase team.name) ∧
      ∃ y : Str, normalizeTeamName (toLowerCase team.name) = .str y ∧
        normalizeTeamName y = normalizeTeamName (toLowerCase team.name) := by
  have hx := canonical_lowercase_resolve team h
  exact ⟨hx, toLowerCase team.name, hx, rfl⟩

theorem canonical_lowercase_fixed_point_witness :
    (⟨"Punjab Kings".toList, "pk.avif".toList⟩ : Team) ∈ iplTeams ∧
      normalizeTeamName "punjab kings".toList = .str "punjab kings".toList :=
  ⟨by decide,
    (canonical_lowercase_fixed_point ⟨"Punjab Kings".toList, "pk.avif".toList⟩ (by decide)).1⟩

/-! ## Names that begin with a capital letter (C12, C14, C15)

The regular expression `/^[A-Z]+/` of line 51 is tried before the alias table is
consulted with the whitespace-free lowercase name, so an input that begins with a capital
letter and is not an exact match is reduced to its leading run of capitals. -/

/-- C12. The full names with their spaces removed do not resolve: `"MumbaiIndians"` gives
`"m"`, and each of the ten concatenated names gives its lowercased first letter instead of
the lowercase canonical name; the all-lowercase concatenation does resolve. -/
theorem concatenated_names_give_first_letter :
    normalizeTeamName "MumbaiIndians".toList = .str "m".toList ∧
      normalizeTeamName "mumbaiindians".toList = .str "mumbai indians".toList ∧
      (∀ team ∈ iplTeams,
        normalizeTeamName (removeWhiteSpace team.name) = .str (toLowerCase (team.name.take 1)) ∧
        normalizeTeamName (removeWhiteSpace team.name) ≠ .str (toLowerCase team.name)) := by
  refine ⟨by decide, by decide, by decide⟩

/-- C14. A participant written `"MUMBAI  INDIANS"` (two spaces) is not located in a table
whose row carries the team `"Mumbai Indians"`: it resolves to `"mumbai"`, the row resolves
to `"mumbai indians"`, `find` returns nothing and the winner update leaves the table as it
is. The lowercase spelling with two spaces is located. -/
theorem doubled_space_capitals_not_located :
    normalizeTeamName "MUMBAI  INDIANS".toList = .str "mumbai".toList ∧
      find (scenarioStandings.map cloneRow) "MUMBAI  INDIANS".toList = none ∧
      updateWinner (scenarioStandings.map cloneRow) "MUMBAI  INDIANS".toList =
        scenarioStandings.map cloneRow ∧
      find (scenarioStandings.map cloneRow) "mumbai  indians".toList = some 0 ∧
      find (scenarioStandings.map cloneRow) "Mumbai Indians".toList = some 0 := by
  have h : find (scenarioStandings.map cloneRow) "MUMBAI  INDIANS".toList = none := by decide
  refine ⟨by decide, h, ?_, by decide, by decide⟩
  simp only [updateWinner, h]

/-- C15. The legacy name `"Royal Challengers Bangalore"` resolves to `"r"`, not to the
renamed franchise; only its all-lowercase spelling reaches the alias of the table. -/
theorem legacy_alias_gives_first_letter :
    normalizeTeamName "Royal Challengers Bangalore".toList = .str "r".toList ∧
      normalizeTeamName "Royal Challengers Bangalore".toList ≠
        .str "royal challengers bengaluru".toList ∧
      normalizeTeamName "royal challengers bangalore".toList =
        .str "royal challengers bengaluru".toList := by
  refine ⟨by decide, by decide, by decide⟩

/-! ## Lowercase results (C17) -/

theorem toLower_toLower (c : Char) : toLowerChar (toLowerChar c) = toLowerChar c := by
  have hc : c = Char.ofNat c.toNat := (Char.ofNat_toNat c).symm
  by_cases hk : c.toNat = 0x212A
  · rw [hc, hk]; decide
  · by_cases hl : 0xC0 ≤ c.toNat ∧ c.toNat ≤ 0xDE
    · obtain ⟨h1, h2⟩ := hl
      generalize c.toNat = n at h1 h2 hc
      subst hc
      interval_cases n <;> decide
    · by_cases ha : 65 ≤ c.toNat ∧ c.toNat ≤ 90
      · obtain ⟨h1, h2⟩ := ha
        generalize c.toNat = n at h1 h2 hc
        subst hc
        interval_cases n <;> decide
      · have hfix : toLowerChar c = c := by
          unfold toLowerChar Char.toLower
          have hl2 : ¬ (0xC0 ≤ c.toNat ∧ c.toNat ≤ 0xDE ∧ c.toNat ≠ 0xD7) :=
            fun h => hl ⟨h.1, h.2.1⟩
          have ha2 : ¬ (c.toNat ≥ 65 ∧ c.toNat ≤ 90) := fun h => ha ⟨h.1, h.2⟩
          simp only [hk, hl2, ha2, if_false]
        rw [hfix, hfix]

theorem toLowerCase_toLowerCase (s : Str) : toLowerCase (toLowerCase s) = toLowerCase s := by
  simp [toLowerCase, Function.comp_def, toLower_toLower]

theorem toLowerCase_eq_self_of_forall (s : Str) (h : ∀ c ∈ s, toLowerChar c = c) :
    toLowerCase s = s := by
  induction s with
  | nil => rfl
  | cons c cs ih =>
    simp only [toLowerCase, List.map_cons] at ih ⊢
    rw [h c (by simp), ih (fun x hx => h x (by simp [hx]))]

theorem toLowerCase_removeWhiteSpace (s : Str) :
    toLowerCase (removeWhiteSpace (toLowerCase s)) = removeWhiteSpace (toLowerCase s) := by
  apply toLowerCase_eq_self_of_forall
  intro c hc
  have hmem : c ∈ toLowerCase s := List.mem_of_mem_filter hc
  obtain ⟨d, _, rfl⟩ := List.mem_map.1 hmem
  exact toLower_toLower d

theorem mem_of_lookup_eq_some {α β : Type} [BEq α] (k : α) (v : β) (l : List (α × β))
    (h : l.lookup k = some v) : ∃ p ∈ l, p.2 = v := by
  induction l with
  | nil => simp [List.lookup] at h
  | cons p ps ih =>
    obtain ⟨a, b⟩ := p
    simp only [List.lookup] at h
    split at h
    · exact ⟨(a, b), by simp, by simpa using h⟩
    · obtain ⟨q, hq, hv⟩ := ih h
      exact ⟨q, by simp [hq], hv⟩

theorem teamNameMap_values_lowercase : ∀ p ∈ teamNameMap, toLowerCase p.2 = p.2 := by decide

theorem lowercase_prototype_keys :
    ∀ k ∈ objectPrototypeKeys, toLowerCase k = k →
      k = "constructor".toList ∨ k = "__proto__".toList := by decide

/-- The value found for a lowercase candidate key: a lowercase string, or one of the two
inherited objects whose key is lowercase. -/
theorem mappedName_cases (teamAbbr : Str) (h : toLowerCase teamAbbr = teamAbbr) :
    (teamNameMapGet teamAbbr).getD (.str teamAbbr) = .inherited "constructor".toList ∨
      (teamNameMapGet teamAbbr).getD (.str teamAbbr) = .inherited "__proto__".toList ∨
      ∃ x, (teamNameMapGet teamAbbr).getD (.str teamAbbr) = .str x ∧ toLowerCase x = x := by
  unfold teamNameMapGet
  cases hl : teamNameMap.lookup teamAbbr with
  | some v =>
    obtain ⟨p, hp, rfl⟩ := mem_of_lookup_eq_some _ _ _ hl
    exact Or.inr (Or.inr ⟨p.2, rfl, teamNameMap_values_lowercase p hp⟩)
  | none =>
    by_cases hk : teamAbbr ∈ objectPrototypeKeys
    · simp only [hk, if_true, Option.getD_some]
      rcases lowercase_prototype_keys teamAbbr hk h with e | e
      · left; rw [e]
      · right; left; rw [e]
    · simp only [hk, if_false, Option.getD_none]
      exact Or.inr (Or.inr ⟨teamAbbr, rfl, h⟩)

/-- C17. `normalizeTeamName` returns a lowercase string, equal to its own lowercase form,
on every input except those whose candidate key is `"constructor"` or `"__proto__"`: there
it returns the inherited object, which is not a string, as for the input `"constructor"`. -/
theorem normalizeTeamName_lowercase_or_inherited :
    (∀ x : Str, normalizeTeamName "constructor".toList ≠ .str x) ∧
      ∀ s : Str,
        normalizeTeamName s = .inherited "constructor".toList ∨
        normalizeTeamName s = .inherited "__proto__".toList ∨
        ∃ x, normalizeTeamName s = .str x ∧ toLowerCase x = x := by
  constructor
  · intro x
    rw [show normalizeTeamName "constructor".toList = .inherited "constructor".toList by decide]
    exact fun h => JsValue.noConfusion h
  · intro s
    unfold normalizeTeamName
    by_cases he : s.isEmpty = true
    · simp only [he, if_true]
      exact Or.inr (Or.inr ⟨[], rfl, rfl⟩)
    · simp only [he, if_false, Bool.false_eq_true]
      cases iplTeams.find? (fun t => toLowerCase t.name == toLowerCase (trim (splitHead s))) with
      | some exact =>
        exact Or.inr (Or.inr ⟨_, rfl, toLowerCase_toLowerCase _⟩)
      | none =>
        simp only []
        have hkey : ∀ teamAbbr : Str, toLowerCase teamAbbr = teamAbbr →
            (match iplTeams.find? (fun t => JsValue.str (removeWhiteSpace (toLowerCase t.name)) ==
                (teamNameMapGet teamAbbr).getD (.str teamAbbr)) with
              | some t => JsValue.str (toLowerCase t.name)
              | none => (teamNameMapGet teamAbbr).getD (.str teamAbbr)) =
              .inherited "constructor".toList ∨
            (match iplTeams.find? (fun t => JsValue.str (removeWhiteSpace (toLowerCase t.name)) ==
                (teamNameMapGet teamAbbr).getD (.str teamAbbr)) with
              | some t => JsValue.str (toLowerCase t.name)
              | none => (teamNameMapGet teamAbbr).getD (.str teamAbbr)) =
              .inherited "__proto__".toList ∨
            ∃ x, (match iplTeams.find? (fun t =>
                JsValue.str (removeWhiteSpace (toLowerCase t.name)) ==
                (teamNameMapGet teamAbbr).getD (.str teamAbbr)) with
              | some t => JsValue.str (toLowerCase t.name)
              | none => (teamNameMapGet teamAbbr).getD (.str teamAbbr)) = .str x ∧
              toLowerCase x = x := by
          intro teamAbbr hlow
          cases iplTeams.find? (fun t => JsValue.str (removeWhiteSpace (toLowerCase t.name)) ==
              (teamNameMapGet teamAbbr).getD (.str teamAbbr)) with
          | some t => exact Or.inr (Or.inr ⟨_, rfl, toLowerCase_toLowerCase _⟩)
          | none => exact mappedName_cases teamAbbr hlow
        cases matchLeadingUpper s with
        | some run => exact hkey _ (toLowerCase_toLowerCase run)
        | none => exact hkey _ (toLowerCase_removeWhiteSpace _)

/-! ## The logo lookup (C18) -/

theorem iplTeams_lowercase_injective :
    ∀ a ∈ iplTeams, ∀ b ∈ iplTeams, toLowerCase a.name = toLowerCase b.name → a = b := by
  decide

theorem getTeamLogo_of_match (arg : Option Str) (team : Team) (hteam : team ∈ iplTeams)
    (h : JsValue.str (toLowerCase team.name) = normalizeTeamNameArg arg) :
    getTeamLogo arg = team.logo := by
  unfold getTeamLogo
  simp only []
  cases hfind : iplTeams.find?
      (fun t => JsValue.str (toLowerCase t.name) == normalizeTeamNameArg arg) with
  | none =>
    have := List.find?_eq_none.1 hfind team hteam
    simp [h] at this
  | some t0 =>
    have hp : JsValue.str (toLowerCase t0.name) = normalizeTeamNameArg arg := by
      simpa using List.find?_some hfind
    have ht0 : t0 ∈ iplTeams := List.mem_of_find?_eq_some hfind
    have hname : toLowerCase t0.name = toLowerCase team.name := by
      have := hp.trans h.symm
      exact JsValue.str.inj this
    rw [iplTeams_lowercase_injective t0 ht0 team hteam hname]

theorem getTeamLogo_of_no_match (arg : Option Str)
    (h : ∀ team ∈ iplTeams, JsValue.str (toLowerCase team.name) ≠ normalizeTeamNameArg arg) :
    getTeamLogo arg = defaultLogo := by
  unfold getTeamLogo
  simp only []
  cases hfind : iplTeams.find?
      (fun t => JsValue.str (toLowerCase t.name) == normalizeTeamNameArg arg) with
  | none => rfl
  | some t0 =>
    have hp : JsValue.str (toLowerCase t0.name) = normalizeTeamNameArg arg := by
      simpa using List.find?_some hfind
    exact absurd hp (h t0 (List.mem_of_find?_eq_some hfind))

/-- C18. `getTeamLogo` returns the logo of the team of `iplTeams` whose lowercased name is
the normalized argument when there is one, and the default logo otherwise; it returns the
default logo for `null`, for the empty string and for names that normalize to something
else than a lowercase canonical name, such as `"Deccan Chargers"` and `"constructor"`. -/
theorem getTeamLogo_spec (arg : Option Str) :
    (∀ team ∈ iplTeams, JsValue.str (toLowerCase team.name) = normalizeTeamNameArg arg →
        getTeamLogo arg = team.logo) ∧
      ((∀ team ∈ iplTeams, JsValue.str (toLowerCase team.name) ≠ normalizeTeamNameArg arg) →
        getTeamLogo arg = defaultLogo) ∧
      getTeamLogo none = defaultLogo ∧
      getTeamLogo (some []) = defaultLogo ∧
      getTeamLogo (some "Deccan Chargers".toList) = defaultLogo ∧
      getTeamLogo (some "constructor".toList) = defaultLogo ∧
      getTeamLogo (some "PBKS - 111 (15.3 ov)".toList) = "pk.avif".toList :=
  ⟨fun team hteam h => getTeamLogo_of_match arg team hteam h,
    getTeamLogo_of_no_match arg, by decide, by decide, by decide, by decide, by decide⟩

/-! ## Missing rows and untouched fields (C19, C20) -/

theorem find_modifyAt_winUpdate (sim : List SimRow) (i : Nat) (name : Str) :
    find (modifyAt winUpdate sim i) name = find sim name :=
  find_eq_of_teams _ sim name
    (map_modifyAt (fun r : SimRow => r.TEAM) winUpdate (fun _ => rfl) sim i)

theorem simulateMatch_cases (sim : List SimRow) (m : Fixture) (random : ℚ) :
    simulateMatch sim m random =
      (match find sim (winner m random), find sim (loser m random) with
        | none, none => sim
        | none, some j => modifyAt lossUpdate sim j
        | some i, none => modifyAt winUpdate sim i
        | some i, some j => modifyAt lossUpdate (modifyAt winUpdate sim i) j) := by
  unfold simulateMatch updateWinner
  cases hw : find sim (winner m random) with
  | none =>
    unfold updateLoser
    cases hl : find sim (loser m random) <;> simp
  | some i =>
    unfold updateLoser
    simp only []
    rw [find_modifyAt_winUpdate]
    cases hl : find sim (loser m random) <;> simp

/-- C19. Missing rows do not abort the simulation: the call returns on every heap that holds
a standings array and a fixture array, whatever teams the fixtures name; within one
fixture a side that is not located gets no update (no points are added when the winner is
missing) while the other side is updated if it is located; and the later fixtures are
played on the table so obtained. -/
theorem missing_rows_do_not_abort (h : Heap) (standings upcomingMatches : Nat)
    (draws : Nat → ℚ) (rows : List Row) (fixtures : List Fixture)
    (hst : snapshotStandings h standings = some rows)
    (hum : snapshotFixtures h upcomingMatches = some fixtures) :
    (∃ h' out, getSimulatedStandingsH h standings upcomingMatches draws = some (h', out) ∧
        snapshotStandings h' out = some (getSimulatedStandings rows fixtures draws)) ∧
      ∀ (sim : List SimRow) (m : Fixture) (ms : List Fixture) (k : Nat),
        simulateMatch sim m (draws k) =
          (match find sim (winner m (draws k)), find sim (loser m (draws k)) with
            | none, none => sim
            | none, some j => modifyAt lossUpdate sim j
            | some i, none => modifyAt winUpdate sim i
            | some i, some j => modifyAt lossUpdate (modifyAt winUpdate sim i) j) ∧
        simTotalPTS (simulateMatch sim m (draws k)) =
          simTotalPTS sim + (if (find sim (winner m (draws k))).isSome then 2 else 0) ∧
        playFixtures draws sim (m :: ms) k =
          playFixtures draws (simulateMatch sim m (draws k)) ms (k + 1) := by
  constructor
  · obtain ⟨refs, hA, hR⟩ := snapshotStandings_eq_some hst
    obtain ⟨frefs, hF, hM⟩ := snapshotFixtures_eq_some hum
    obtain ⟨h', sorted, e1, _, e3, e4⟩ :=
      getSimulatedStandingsH_run h standings upcomingMatches draws refs frefs rows fixtures
        hA hR hF hM
    exact ⟨h', _, e1, by simp [snapshotStandings, readRowArray_eq_some.2 e3, e4]⟩
  · intro sim m ms k
    refine ⟨simulateMatch_cases sim m (draws k), ?_, rfl⟩
    unfold simulateMatch
    rw [simTotalPTS_updateLoser, simTotalPTS_updateWinner]
    rfl

theorem missing_rows_do_not_abort_witness :
    snapshotStandings unknownTeamHeap 2 = some scenarioStandings ∧
      snapshotFixtures unknownTeamHeap 5 = some [unknownTeamFixture, scenarioFixture] ∧
      find (scenarioStandings.map cloneRow) unknownTeamFixture.Team_1 = none ∧
      ∃ h' out, getSimulatedStandingsH unknownTeamHeap 2 5 (fun _ => 0) = some (h', out) ∧
        snapshotStandings h' out =
          some (getSimulatedStandings scenarioStandings [unknownTeamFixture, scenarioFixture]
            (fun _ => 0)) :=
  ⟨rfl, rfl, by decide,
    (missing_rows_do_not_abort unknownTeamHeap 2 5 (fun _ => 0) scenarioStandings
      [unknownTeamFixture, scenarioFixture] rfl rfl).1⟩

theorem map_untouchedFields_assignPositions (rows : List Row) (i : Nat) :
    (assignPositions rows i).map untouchedFields = rows.map untouchedFields := by
  induction rows generalizing i with
  | nil => rfl
  | cons r rs ih => simp [assignPositions, ih, untouchedFields]

theorem map_fields_simulateMatch (sim : List SimRow) (m : Fixture) (random : ℚ) :
    (simulateMatch sim m random).map (fun r => (r.TEAM, r.NR, r.NRR, r.FOR, r.AGAINST)) =
      sim.map (fun r => (r.TEAM, r.NR, r.NRR, r.FOR, r.AGAINST)) := by
  have hw : ∀ (s : List SimRow) (name : Str),
      (updateWinner s name).map (fun r => (r.TEAM, r.NR, r.NRR, r.FOR, r.AGAINST)) =
        s.map (fun r => (r.TEAM, r.NR, r.NRR, r.FOR, r.AGAINST)) := by
    intro s name
    unfold updateWinner
    split
    · exact map_modifyAt (fun r : SimRow => (r.TEAM, r.NR, r.NRR, r.FOR, r.AGAINST)) winUpdate
        (fun _ => rfl) _ _
    · rfl
  have hl : ∀ (s : List SimRow) (name : Str),
      (updateLoser s name).map (fun r => (r.TEAM, r.NR, r.NRR, r.FOR, r.AGAINST)) =
        s.map (fun r => (r.TEAM, r.NR, r.NRR, r.FOR, r.AGAINST)) := by
    intro s name
    unfold updateLoser
    split
    · exact map_modifyAt (fun r : SimRow => (r.TEAM, r.NR, r.NRR, r.FOR, r.AGAINST)) lossUpdate
        (fun _ => rfl) _ _
    · rfl
  unfold simulateMatch
  rw [hl, hw]

theorem map_fields_playFixtures (draws : Nat → ℚ) (sim : List SimRow) (ms : List Fixture)
    (k : Nat) :
    (playFixtures draws sim ms k).map (fun r => (r.TEAM, r.NR, r.NRR, r.FOR, r.AGAINST)) =
      sim.map (fun r => (r.TEAM, r.NR, r.NRR, r.FOR, r.AGAINST)) := by
  induction ms generalizing sim k with
  | nil => rfl
  | cons m ms ih => rw [playFixtures, ih, map_fields_simulateMatch]

/-- C20. Simulated fixtures leave the other fields alone: the `(TEAM, NR, NRR, FOR,
AGAINST)` tuples of the output rows are a reordering of those of the input rows, so the
output lists the same teams and no row's no-result count, net run rate or runs for and
against changes. -/
theorem untouched_fields_preserved (standings : List Row) (upcomingMatches : List Fixture)
    (draws : Nat → ℚ) :
    ((getSimulatedStandings standings upcomingMatches draws).map untouchedFields).Perm
      (standings.map untouchedFields) := by
  unfold getSimulatedStandings
  simp only []
  rw [map_untouchedFields_assignPositions]
  refine ((sortRows_perm _).map untouchedFields).trans ?_
  have h1 : ((playFixtures draws (standings.map cloneRow) upcomingMatches 0).map
      finalizeRow).map untouchedFields =
      (playFixtures draws (standings.map cloneRow) upcomingMatches 0).map
        (fun r => (r.TEAM, r.NR, r.NRR, r.FOR, r.AGAINST)) := by
    simp [untouchedFields, finalizeRow, Function.comp_def]
  rw [h1, map_fields_playFixtures]
  have h2 : (standings.map cloneRow).map (fun r => (r.TEAM, r.NR, r.NRR, r.FOR, r.AGAINST)) =
      standings.map untouchedFields := by
    simp [untouchedFields, cloneRow, Function.comp_def]
  rw [h2]

/-! ## Score-suffix stripping (C11) -/

theorem normalizeTeamName_congr_of_exact (a b : Str) (he : a.isEmpty = b.isEmpty)
    (hs : splitHead a = splitHead b) (hm : matchLeadingUpper a = matchLeadingUpper b)
    (hkind : matchLeadingUpper a ≠ none ∨
      iplTeams.find? (fun t => toLowerCase t.name == toLowerCase (trim (splitHead a))) ≠ none) :
    normalizeTeamName a = normalizeTeamName b := by
  rcases hkind with hk | hk
  · exact normalizeTeamName_congr a b he hs hm hk
  · unfold normalizeTeamName
    rw [he, ← hs]
    cases hf : iplTeams.find?
        (fun t => toLowerCase t.name == toLowerCase (trim (splitHead a))) with
    | none => exact absurd hf hk
    | some t0 => simp only [hf]

theorem splitHead_of_not_infix (s : Str) (h : ¬ List.IsInfix scoreSeparator s) :
    splitHead s = s := by
  induction s with
  | nil => rfl
  | cons c cs ih =>
    have hpre : scoreSeparator.isPrefixOf (c :: cs) = false := by
      cases hp : scoreSeparator.isPrefixOf (c :: cs) with
      | false => rfl
      | true => exact absurd (List.isPrefixOf_iff_prefix.1 hp).isInfix h
    have hcs : ¬ List.IsInfix scoreSeparator cs := fun hi => h (hi.trans (List.infix_cons (List.infix_refl _)))
    rw [splitHead, hpre, if_neg (by simp), ih hcs]

theorem splitHead_append_separator (s t : Str) (h : ¬ List.IsInfix scoreSeparator s)
    (hend : ¬ List.IsSuffix [' ', '-'] s) : splitHead (s ++ scoreSeparator ++ t) = s := by
  induction s with
  | nil => simp [splitHead, scoreSeparator, List.isPrefixOf]
  | cons c cs ih =>
    have hcs : ¬ List.IsInfix scoreSeparator cs :=
      fun hi => h (hi.trans (List.infix_cons (List.infix_refl _)))
    have hcend : ¬ List.IsSuffix [' ', '-'] cs :=
      fun hi => hend (hi.trans (List.suffix_cons c cs))
    have hpre : scoreSeparator.isPrefixOf (c :: cs ++ scoreSeparator ++ t) = false := by
      cases hp : scoreSeparator.isPrefixOf (c :: cs ++ scoreSeparator ++ t) with
      | false => rfl
      | true =>
        exfalso
        match cs, h, hend, hp with
        | [], _, _, hp => simp [scoreSeparator, List.isPrefixOf] at hp
        | [d], _, hend, hp =>
          simp [scoreSeparator, List.isPrefixOf] at hp
          apply hend
          rw [← hp.1, ← hp.2]
        | d :: e :: rest, h, _, hp =>
          simp [scoreSeparator, List.isPrefixOf] at hp
          apply h
          rw [← hp.1, ← hp.2.1, ← hp.2.2]
          exact (List.prefix_append [' ', '-', ' '] rest).isInfix
    have := ih hcs hcend
    rw [List.cons_append, List.cons_append] at hpre ⊢
    rw [splitHead, hpre, if_neg (by simp), this]

theorem takeWhile_upper_append_space (s rest : Str) :
    (s ++ ' ' :: rest).takeWhile isUpperAZ = s.takeWhile isUpperAZ := by
  induction s with
  | nil =>
    have hsp : isUpperAZ ' ' = false := by decide
    simp [List.takeWhile, hsp]
  | cons c cs ih =>
    rw [List.cons_append, List.takeWhile, List.takeWhile, ih]

theorem matchLeadingUpper_append_separator (s t : Str) :
    matchLeadingUpper (s ++ scoreSeparator ++ t) = matchLeadingUpper s := by
  unfold matchLeadingUpper
  have : s ++ scoreSeparator ++ t = s ++ ' ' :: ('-' :: ' ' :: t) := by
    simp [scoreSeparator]
  rw [this, takeWhile_upper_append_space]

/-- The claim C11 as stated fails: `"csk"` and `"Mumbai Indians -"` do not contain `" - "`,
yet appending `" - "` and a suffix changes the result. -/
theorem suffix_stripping_fails :
    (¬ List.IsInfix " - ".toList "csk".toList ∧
      normalizeTeamName ("csk".toList ++ " - ".toList ++ "111 (15.3 ov)".toList) =
        .str "csk-111(15.3ov)".toList ∧
      normalizeTeamName "csk".toList = .str "chennai super kings".toList) ∧
    (¬ List.IsInfix " - ".toList "Mumbai Indians -".toList ∧
      normalizeTeamName ("Mumbai Indians -".toList ++ " - ".toList ++ "x".toList) =
        .str "mumbai indians".toList ∧
      normalizeTeamName "Mumbai Indians -".toList = .str "m".toList) := by
  refine ⟨⟨by decide, by decide, by decide⟩, ⟨by decide, by decide, by decide⟩⟩

/-- C11 (amended). For every string `s` that does not contain `" - "`, does not end in
`" -"`, and either begins with a letter `A`-`Z` or equals, once trimmed, a canonical team
name up to letter case, and for every string `t`,
`normalizeTeamName (s ++ " - " ++ t) = normalizeTeamName s`. -/
theorem suffix_stripping (s t : Str) (hsep : ¬ List.IsInfix " - ".toList s)
    (hend : ¬ List.IsSuffix " -".toList s)
    (hkind : (∃ c rest, s = c :: rest ∧ isUpperAZ c = true) ∨
      ∃ team ∈ iplTeams, toLowerCase team.name = toLowerCase (trim s)) :
    normalizeTeamName (s ++ " - ".toList ++ t) = normalizeTeamName s := by
  have hsep' : ¬ List.IsInfix scoreSeparator s := hsep
  have hend' : ¬ List.IsSuffix [' ', '-'] s := hend
  have hne : s ≠ [] := by
    rcases hkind with ⟨c, rest, rfl, _⟩ | ⟨team, hteam, hname⟩
    · simp
    · intro e
      subst e
      have hnil : toLowerCase team.name = [] := by rw [hname]; rfl
      exact iplTeams_names_ne_nil team.name (List.mem_map.2 ⟨team, hteam, rfl⟩)
        (List.map_eq_nil_iff.1 hnil)
  have hsplit : splitHead (s ++ scoreSeparator ++ t) = splitHead s := by
    rw [splitHead_append_separator s t hsep' hend', splitHead_of_not_infix s hsep']
  have hmatch := matchLeadingUpper_append_separator s t
  show normalizeTeamName (s ++ scoreSeparator ++ t) = normalizeTeamName s
  apply normalizeTeamName_congr_of_exact _ _ _ hsplit hmatch
  · rw [hmatch, hsplit, splitHead_of_not_infix s hsep']
    rcases hkind with ⟨c, rest, rfl, hc⟩ | ⟨team, hteam, hname⟩
    · left
      simp [matchLeadingUpper, List.takeWhile, hc]
    · right
      intro hnone
      have := List.find?_eq_none.1 hnone team hteam
      simp [hname] at this
  · cases s with
    | nil => exact absurd rfl hne
    | cons c cs => rfl

theorem suffix_stripping_witness :
    ¬ List.IsInfix " - ".toList "Chennai Super Kings".toList ∧
      ¬ List.IsSuffix " -".toList "Chennai Super Kings".toList ∧
      normalizeTeamName ("Chennai Super Kings".toList ++ " - ".toList ++ "111 (15.3 ov)".toList) =
        normalizeTeamName "Chennai Super Kings".toList :=
  ⟨by decide, by decide,
    suffix_stripping "Chennai Super Kings".toList "111 (15.3 ov)".toList (by decide) (by decide)
      (Or.inl ⟨'C', "hennai Super Kings".toList, by decide, by decide⟩)⟩

/-! ## Accounting invariants and the second probability (C28, C24) -/

theorem map_simulateMatch_of_invariant {β : Type} (g : SimRow → β)
    (hw : ∀ x, g (winUpdate x) = g x) (hl : ∀ x, g (lossUpdate x) = g x)
    (sim : List SimRow) (m : Fixture) (random : ℚ) :
    (simulateMatch sim m random).map g = sim.map g := by
  have h1 : ∀ (s : List SimRow) (name : Str), (updateWinner s name).map g = s.map g := by
    intro s name
    unfold updateWinner
    split
    · exact map_modifyAt g winUpdate hw _ _
    · rfl
  have h2 : ∀ (s : List SimRow) (name : Str), (updateLoser s name).map g = s.map g := by
    intro s name
    unfold updateLoser
    split
    · exact map_modifyAt g lossUpdate hl _ _
    · rfl
  unfold simulateMatch
  rw [h2, h1]

theorem map_playFixtures_of_invariant {β : Type} (g : SimRow → β)
    (hw : ∀ x, g (winUpdate x) = g x) (hl : ∀ x, g (lossUpdate x) = g x)
    (draws : Nat → ℚ) (sim : List SimRow) (ms : List Fixture) (k : Nat) :
    (playFixtures draws sim ms k).map g = sim.map g := by
  induction ms generalizing sim k with
  | nil => rfl
  | cons m ms ih => rw [playFixtures, ih, map_simulateMatch_of_invariant g hw hl]

theorem map_accounting_assignPositions (rows : List Row) (i : Nat) :
    (assignPositions rows i).map accounting = rows.map accounting := by
  induction rows generalizing i with
  | nil => rfl
  | cons r rs ih => simp [assignPositions, ih, accounting]

theorem map_accounting_getSimulatedStandings (standings : List Row)
    (upcomingMatches : List Fixture) (draws : Nat → ℚ) :
    ((getSimulatedStandings standings upcomingMatches draws).map accounting).Perm
      (standings.map accounting) := by
  unfold getSimulatedStandings
  simp only []
  rw [map_accounting_assignPositions]
  refine ((sortRows_perm _).map accounting).trans ?_
  have h1 : ((playFixtures draws (standings.map cloneRow) upcomingMatches 0).map
      finalizeRow).map accounting =
      (playFixtures draws (standings.map cloneRow) upcomingMatches 0).map
        (fun r => (r.TEAM, r.NR, r.PTS - 2 * r.W, r.P - r.W - r.L)) := by
    simp [accounting, finalizeRow, Function.comp_def]
  have h2 : (standings.map cloneRow).map
      (fun r => (r.TEAM, r.NR, r.PTS - 2 * r.W, r.P - r.W - r.L)) =
      standings.map accounting := by
    simp [accounting, cloneRow, Function.comp_def]
  rw [h1, map_playFixtures_of_invariant
    (fun r : SimRow => (r.TEAM, r.NR, r.PTS - 2 * r.W, r.P - r.W - r.L))
    (fun x => by simp [winUpdate]; ring) (fun x => by simp [lossUpdate]; ring), h2]

/-- C28. Accounting invariants per row: the tuples `(TEAM, NR, PTS - 2 * W, P - W - L)` of
the output rows are those of the input rows, reordered, so each team's row keeps
`PTS - 2 * W` and `P - W - L`; in particular, if every input row satisfies
`P = W + L + NR`, so does every output row. -/
theorem accounting_invariants (standings : List Row) (upcomingMatches : List Fixture)
    (draws : Nat → ℚ) :
    ((getSimulatedStandings standings upcomingMatches draws).map accounting).Perm
        (standings.map accounting) ∧
      ((∀ r ∈ standings, r.P = r.W + r.L + r.NR) →
        ∀ r ∈ getSimulatedStandings standings upcomingMatches draws,
          r.P = r.W + r.L + r.NR) := by
  have hperm := map_accounting_getSimulatedStandings standings upcomingMatches draws
  refine ⟨hperm, ?_⟩
  intro hin r hr
  have hmem : accounting r ∈ standings.map accounting :=
    hperm.mem_iff.1 (List.mem_map.2 ⟨r, hr, rfl⟩)
  obtain ⟨r0, hr0, he⟩ := List.mem_map.1 hmem
  have h0 := hin r0 hr0
  simp only [accounting, Prod.mk.injEq] at he
  obtain ⟨_, hnr, _, hp⟩ := he
  omega

theorem winner_eraseTeam2 (m : Fixture) (random : ℚ) :
    winner (eraseTeam2 m) random = winner m random := by
  have hp : team1Prob (eraseTeam2 m) = team1Prob m := by
    unfold team1Prob eraseTeam2
    cases m.Probability <;> rfl
  unfold winner
  rw [hp]
  rfl

theorem simulateMatch_eraseTeam2 (sim : List SimRow) (m : Fixture) (random : ℚ) :
    simulateMatch sim (eraseTeam2 m) random = simulateMatch sim m random := by
  have hl : loser (eraseTeam2 m) random = loser m random := by
    unfold loser
    rw [winner_eraseTeam2]
    rfl
  unfold simulateMatch
  rw [winner_eraseTeam2, hl]

theorem playFixtures_eraseTeam2 (draws : Nat → ℚ) (sim : List SimRow) (ms : List Fixture)
    (k : Nat) :
    playFixtures draws sim (ms.map eraseTeam2) k = playFixtures draws sim ms k := by
  induction ms generalizing sim k with
  | nil => rfl
  | cons m ms ih => simp only [List.map_cons, playFixtures, simulateMatch_eraseTeam2, ih]

/-- C24. The second participant's probability never influences the simulation: two fixture
lists that agree once every `Probability.Team_2` value is forgotten give the same output
for the same standings and the same draws. -/
theorem team2_probability_irrelevant (standings : List Row) (fixtures fixtures' : List Fixture)
    (draws : Nat → ℚ) (h : fixtures.map eraseTeam2 = fixtures'.map eraseTeam2) :
    getSimulatedStandings standings fixtures draws =
      getSimulatedStandings standings fixtures' draws := by
  unfold getSimulatedStandings
  simp only []
  rw [← playFixtures_eraseTeam2 draws _ fixtures, ← playFixtures_eraseTeam2 draws _ fixtures', h]

theorem team2_probability_irrelevant_witness :
    [scenarioFixture].map eraseTeam2 = [scenarioFixtureOtherTeam2].map eraseTeam2 ∧
      getSimulatedStandings scenarioStandings [scenarioFixture] (fun _ => 0) =
        getSimulatedStandings scenarioStandings [scenarioFixtureOtherTeam2] (fun _ => 0) :=
  ⟨rfl, team2_probability_irrelevant scenarioStandings [scenarioFixture]
    [scenarioFixtureOtherTeam2] (fun _ => 0) rfl⟩

/-! ## The empty fixture list (C29) -/

theorem join_split (sep : Char) (s : Str) : join sep (split sep s) = s := by
  induction s with
  | nil => rfl
  | cons c cs ih =>
    simp only [split]
    split
    · rename_i hc
      cases hs : split sep cs with
      | nil => exact absurd hs (split_ne_nil sep cs)
      | cons p ps =>
        rw [hs] at ih
        simp only [join, ih, hc]
        rfl
    · cases hs : split sep cs with
      | nil => exact absurd hs (split_ne_nil sep cs)
      | cons p ps =>
        rw [hs] at ih
        cases ps with
        | nil =>
          simp only [join] at ih ⊢
          rw [ih]
        | cons q qs =>
          simp only [join] at ih ⊢
          rw [← ih]
          rfl

theorem sliceLast5_of_length_le {α : Type} (xs : List α) (h : xs.length ≤ 5) :
    sliceLast5 xs = xs := by
  unfold sliceLast5
  rw [show xs.length - 5 = 0 by omega]
  rfl

theorem finalizeRow_cloneRow (r : Row) (h : (split ' ' r.RECENT_FORM).length ≤ 5) :
    finalizeRow (cloneRow r) = r := by
  cases r
  simp only [finalizeRow, cloneRow] at h ⊢
  rw [sliceLast5_of_length_le _ h, join_split]

theorem map_finalizeRow_cloneRow (rows : List Row)
    (h : ∀ r ∈ rows, (split ' ' r.RECENT_FORM).length ≤ 5) :
    (rows.map cloneRow).map finalizeRow = rows := by
  induction rows with
  | nil => rfl
  | cons r rs ih =>
    simp only [List.map_cons, finalizeRow_cloneRow r (h r (by simp)),
      ih (fun x hx => h x (by simp [hx]))]

theorem assignPositions_eq_self (rows : List Row) (i : Nat)
    (h : rows.map (fun r => r.POS) =
      (List.range rows.length).map (fun (k : Nat) => ((i + k : Nat) : Int) + 1)) :
    assignPositions rows i = rows := by
  induction rows generalizing i with
  | nil => rfl
  | cons r rs ih =>
    simp only [List.map_cons, List.length_cons, List.range_succ_eq_map, List.map_map,
      List.cons.injEq] at h
    obtain ⟨h0, hrest⟩ := h
    have hrs : rs.map (fun r => r.POS) =
        (List.range rs.length).map (fun (k : Nat) => ((i + 1 + k : Nat) : Int) + 1) := by
      rw [hrest]
      apply List.map_congr_left
      intro k _
      simp only [Function.comp, Nat.succ_eq_add_one]
      push_cast
      ring
    rw [assignPositions, ih (i + 1) hrs]
    cases r
    simp only [Row.mk.injEq, List.cons.injEq, and_true, true_and] at h0 ⊢
    simpa using h0.symm

/-- C29. With an empty fixture list the simulator is the identity on well-formed tables: if
the standings are ordered by descending `PTS` then descending `NRR`, carry `POS = 1..N` in
that order, and every `RECENT_FORM` has at most 5 space-separated entries, the output is
equal to the input. -/
theorem empty_fixtures_identity (standings : List Row) (draws : Nat → ℚ)
    (hsorted : standings.Pairwise
      (fun a b => b.PTS < a.PTS ∨ (b.PTS = a.PTS ∧ b.NRR ≤ a.NRR)))
    (hpos : standings.map (fun r => r.POS) =
      (List.range standings.length).map (fun (i : Nat) => (i : Int) + 1))
    (hform : ∀ r ∈ standings, (split ' ' r.RECENT_FORM).length ≤ 5) :
    getSimulatedStandings standings [] draws = standings := by
  have hs : standings.Pairwise rankLE :=
    hsorted.imp (fun {a b} hab => (rankLE_iff a b).2 hab)
  unfold getSimulatedStandings
  simp only [playFixtures]
  rw [map_finalizeRow_cloneRow standings hform, sortRows,
    List.Sorted.insertionSort_eq hs]
  apply assignPositions_eq_self
  simpa using hpos

theorem empty_fixtures_identity_witness :
    scenarioStandings.Pairwise (fun a b => b.PTS < a.PTS ∨ (b.PTS = a.PTS ∧ b.NRR ≤ a.NRR)) ∧
      scenarioStandings.map (fun r => r.POS) =
        (List.range scenarioStandings.length).map (fun (i : Nat) => (i : Int) + 1) ∧
      getSimulatedStandings scenarioStandings [] (fun _ => 0) = scenarioStandings :=
  have hsorted : scenarioStandings.Pairwise
      (fun a b => b.PTS < a.PTS ∨ (b.PTS = a.PTS ∧ b.NRR ≤ a.NRR)) := by
    simp [scenarioStandings]
    norm_num
  ⟨hsorted, by decide,
    empty_fixtures_identity scenarioStandings (fun _ => 0) hsorted (by decide) (by decide)⟩

/-! ## The last line of the resolver (C30) -/

theorem concatenated_names_are_keys :
    ∀ t ∈ iplTeams, (teamNameMap.lookup (removeWhiteSpace (toLowerCase t.name))).isSome = true := by
  decide

theorem concatenated_names_are_not_values :
    ∀ t ∈ iplTeams, ∀ p ∈ teamNameMap, removeWhiteSpace (toLowerCase t.name) ≠ p.2 := by
  decide

/-- The `find` of line 79 never succeeds. -/
theorem final_find_eq_none (teamAbbr : Str) :
    iplTeams.find? (fun t => JsValue.str (removeWhiteSpace (toLowerCase t.name)) ==
      mappedName teamAbbr) = none := by
  rw [List.find?_eq_none]
  intro t ht
  simp only [beq_iff_eq]
  unfold mappedName teamNameMapGet
  cases hl : teamNameMap.lookup teamAbbr with
  | some v =>
    obtain ⟨p, hp, rfl⟩ := mem_of_lookup_eq_some _ _ _ hl
    simp only [Option.getD_some, JsValue.str.injEq]
    exact concatenated_names_are_not_values t ht p hp
  | none =>
    by_cases hk : teamAbbr ∈ objectPrototypeKeys
    · simp [hk]
    · simp only [hk, if_false, Option.getD_none, JsValue.str.injEq]
      intro e
      have := concatenated_names_are_keys t ht
      rw [e, hl] at this
      exact Bool.noConfusion this

theorem normalizeTeamName_eq_withoutFind (s : Str) :
    normalizeTeamName s = normalizeTeamNameWithoutFind s := by
  unfold normalizeTeamName normalizeTeamNameWithoutFind
  by_cases he : s.isEmpty = true
  · simp only [he, if_true]
  · simp only [he, if_false, Bool.false_eq_true]
    cases iplTeams.find? (fun t => toLowerCase t.name == toLowerCase (trim (splitHead s))) with
    | some exact => rfl
    | none =>
      have := final_find_eq_none (candidateKey s)
      unfold mappedName candidateKey at this ⊢
      simp only [this]

/-- The simpler function of the claim, as worded, differs from the code at two inputs: at
`"Mumbai Indians "` the code trims the part before `" - "` and finds the canonical name, the
simpler function does not trim and gives the key `"m"`; at `"constructor"` the code returns the
inherited function `Object`, the simpler function the key itself. -/
theorem final_find_removable_fails :
    normalizeTeamName "Mumbai Indians ".toList = .str "mumbai indians".toList ∧
      normalizeTeamNameSimple "Mumbai Indians ".toList = "m".toList ∧
      normalizeTeamName "Mumbai Indians ".toList ≠
        .str (normalizeTeamNameSimple "Mumbai Indians ".toList) ∧
      normalizeTeamName "constructor".toList = .inherited "constructor".toList ∧
      normalizeTeamNameSimple "constructor".toList = "constructor".toList ∧
      normalizeTeamName "constructor".toList ≠
        .str (normalizeTeamNameSimple "constructor".toList) := by
  refine ⟨by decide, by decide, by decide, by decide, by decide, by decide⟩

/-- C30. The final whitespace-stripped re-resolution of `normalizeTeamName` never succeeds, and
for every string `s` whose candidate key is not a key inherited from `Object.prototype` the
result is the string given by the simpler function that matches the trimmed part before
`" - "`: the lowercase canonical name on an exact case-insensitive match, otherwise
`table[key]` if the candidate key is in the alias table and the key itself if it is not. -/
theorem final_find_removable (s : Str) (hkey : candidateKey s ∉ objectPrototypeKeys) :
    normalizeTeamName s = .str (normalizeTeamNameSimpleTrimmed s) ∧
      iplTeams.find? (fun t => JsValue.str (removeWhiteSpace (toLowerCase t.name)) ==
        mappedName (candidateKey s)) = none := by
  refine ⟨?_, final_find_eq_none (candidateKey s)⟩
  rw [normalizeTeamName_eq_withoutFind]
  unfold normalizeTeamNameWithoutFind normalizeTeamNameSimpleTrimmed simpleResolver
  by_cases he : s.isEmpty = true
  · have hs : s = [] := List.isEmpty_iff.1 he
    subst hs
    decide
  · simp only [he, if_false, Bool.false_eq_true]
    cases iplTeams.find? (fun t => toLowerCase t.name == toLowerCase (trim (splitHead s))) with
    | some exact => rfl
    | none =>
      simp only []
      unfold mappedName teamNameMapGet
      cases hl : teamNameMap.lookup (candidateKey s) with
      | some v => rfl
      | none => simp only [hkey, if_false, Option.getD_none]

theorem final_find_removable_witness :
    candidateKey "csk".toList ∉ objectPrototypeKeys ∧
      normalizeTeamName "csk".toList = .str (normalizeTeamNameSimpleTrimmed "csk".toList) ∧
      iplTeams.find? (fun t => JsValue.str (removeWhiteSpace (toLowerCase t.name)) ==
        mappedName (candidateKey "csk".toList)) = none :=
  ⟨by decide, final_find_removable "csk".toList (by decide)⟩

/-! ## Plain keys: the leading run of capitals and idempotence (C26, C25) -/

theorem isUpperAZ_iff (c : Char) : isUpperAZ c = true ↔ 65 ≤ c.toNat ∧ c.toNat ≤ 90 := by
  unfold isUpperAZ
  simp only [Bool.and_eq_true, decide_eq_true_eq]
  constructor
  · rintro ⟨h1, h2⟩
    have h1' : ('A' : Char).val ≤ c.val := h1
    have h2' : c.val ≤ ('Z' : Char).val := h2
    rw [UInt32.le_def] at h1' h2'
    exact ⟨h1', h2'⟩
  · rintro ⟨h1, h2⟩
    refine ⟨?_, ?_⟩
    · show ('A' : Char).val ≤ c.val
      rw [UInt32.le_def]; exact h1
    · show c.val ≤ ('Z' : Char).val
      rw [UInt32.le_def]; exact h2

theorem not_isWhiteSpace_of_isUpperAZ (c : Char) (h : isUpperAZ c = true) :
    isWhiteSpace c = false := by
  rw [isUpperAZ_iff] at h
  obtain ⟨h1, h2⟩ := h
  unfold isWhiteSpace
  simp only []
  generalize c.toNat = n at h1 h2
  interval_cases n <;> rfl

theorem toLower_of_isUpperAZ (c : Char) (h : isUpperAZ c = true) :
    isWhiteSpace (toLowerChar c) = false ∧ isUpperAZ (toLowerChar c) = false ∧
      toLowerChar c ≠ c := by
  rw [isUpperAZ_iff] at h
  obtain ⟨h1, h2⟩ := h
  have hc : c = Char.ofNat c.toNat := (Char.ofNat_toNat c).symm
  generalize c.toNat = n at h1 h2 hc
  subst hc
  interval_cases n <;> decide

theorem dropWhile_of_no_whitespace (s : Str) (h : ∀ c ∈ s, isWhiteSpace c = false) :
    s.dropWhile isWhiteSpace = s := by
  cases s with
  | nil => rfl
  | cons c cs => simp [List.dropWhile, h c (by simp)]

theorem trim_of_no_whitespace (s : Str) (h : ∀ c ∈ s, isWhiteSpace c = false) :
    trim s = s := by
  unfold trim
  rw [dropWhile_of_no_whitespace s h,
    dropWhile_of_no_whitespace s.reverse (fun c hc => h c (List.mem_reverse.1 hc)),
    List.reverse_reverse]

theorem splitHead_of_no_whitespace (s : Str) (h : ∀ c ∈ s, isWhiteSpace c = false) :
    splitHead s = s := by
  apply splitHead_of_not_infix
  intro hin
  have hmem : ' ' ∈ s := hin.subset (by simp [scoreSeparator])
  exact absurd (h ' ' hmem) (by decide)

theorem canonical_names_have_space : ∀ t ∈ iplTeams, ' ' ∈ toLowerCase t.name := by decide

theorem exact_find_none_of_no_whitespace (x : Str) (h : ∀ c ∈ x, isWhiteSpace c = false) :
    iplTeams.find? (fun t => toLowerCase t.name == x) = none := by
  rw [List.find?_eq_none]
  intro t ht
  simp only [beq_iff_eq]
  intro e
  have hsp := canonical_names_have_space t ht
  rw [e] at hsp
  exact absurd (h ' ' hsp) (by decide)

theorem toLowerCase_upper_no_whitespace (run : Str) (h : ∀ c ∈ run, isUpperAZ c = true) :
    ∀ c ∈ toLowerCase run, isWhiteSpace c = false := by
  intro c hc
  obtain ⟨d, hd, rfl⟩ := List.mem_map.1 hc
  exact (toLower_of_isUpperAZ d (h d hd)).1

theorem takeWhile_all_upper (s : Str) : ∀ c ∈ s.takeWhile isUpperAZ, isUpperAZ c = true := by
  intro c hc
  exact (List.mem_takeWhile_imp hc)

theorem matchLeadingUpper_eq_some {s run : Str} (h : matchLeadingUpper s = some run) :
    run = s.takeWhile isUpperAZ ∧ run ≠ [] := by
  unfold matchLeadingUpper at h
  cases hr : s.takeWhile isUpperAZ with
  | nil => simp [hr] at h
  | cons c cs =>
    simp [hr] at h
    exact ⟨h.symm, by rw [← h]; simp⟩

theorem candidateKey_plain (s : Str) : PlainKey (candidateKey s) := by
  unfold candidateKey
  cases hm : matchLeadingUpper s with
  | some run =>
    obtain ⟨hrun, _⟩ := matchLeadingUpper_eq_some hm
    refine ⟨toLowerCase_upper_no_whitespace run ?_, toLowerCase_toLowerCase run⟩
    rw [hrun]
    exact takeWhile_all_upper s
  | none =>
    refine ⟨?_, toLowerCase_removeWhiteSpace _⟩
    intro c hc
    have := (List.mem_filter.1 hc).2
    simpa using this

theorem matchLeadingUpper_plain (key : Str) (h : PlainKey key) : matchLeadingUpper key = none := by
  unfold matchLeadingUpper
  cases key with
  | nil => rfl
  | cons c cs =>
    have hc : toLowerChar c = c := by
      have := h.2
      simp only [toLowerCase, List.map_cons, List.cons.injEq] at this
      exact this.1
    have hnu : isUpperAZ c = false := by
      cases hu : isUpperAZ c with
      | false => rfl
      | true => exact absurd hc (toLower_of_isUpperAZ c hu).2.2
    simp [List.takeWhile, hnu]

theorem candidateKey_of_plain (key : Str) (h : PlainKey key) : candidateKey key = key := by
  unfold candidateKey
  rw [matchLeadingUpper_plain key h]
  simp only []
  rw [trim_of_no_whitespace key h.1, h.2]
  unfold removeWhiteSpace
  rw [List.filter_eq_self]
  intro c hc
  simp [h.1 c hc]

/-- On a plain key the resolver returns `mappedName key`. -/
theorem normalizeTeamName_of_plain (key : Str) (h : PlainKey key) :
    normalizeTeamName key = mappedName key := by
  rw [normalizeTeamName_eq_withoutFind]
  unfold normalizeTeamNameWithoutFind
  cases key with
  | nil => decide
  | cons c cs =>
    simp only [List.isEmpty_cons, Bool.false_eq_true, if_false]
    rw [splitHead_of_no_whitespace _ h.1, trim_of_no_whitespace _ h.1, h.2,
      exact_find_none_of_no_whitespace _ h.1, candidateKey_of_plain _ h]

theorem normalizeTeamName_of_leading_run (s : Str) (c : Char) (rest : Str) (hs : s = c :: rest)
    (hc : isUpperAZ c = true)
    (hexact : iplTeams.find?
      (fun t => toLowerCase t.name == toLowerCase (trim (splitHead s))) = none) :
    normalizeTeamName s = mappedName (toLowerCase (s.takeWhile isUpperAZ)) ∧
      normalizeTeamName (s.takeWhile isUpperAZ) =
        mappedName (toLowerCase (s.takeWhile isUpperAZ)) := by
  have hrun : s.takeWhile isUpperAZ = c :: rest.takeWhile isUpperAZ := by
    rw [hs]; simp [List.takeWhile, hc]
  have hm : matchLeadingUpper s = some (s.takeWhile isUpperAZ) := by
    unfold matchLeadingUpper
    rw [hrun]
  have hupper := takeWhile_all_upper s
  have hnows : ∀ x ∈ s.takeWhile isUpperAZ, isWhiteSpace x = false :=
    fun x hx => not_isWhiteSpace_of_isUpperAZ x (hupper x hx)
  constructor
  · rw [normalizeTeamName_eq_withoutFind]
    unfold normalizeTeamNameWithoutFind
    rw [hexact]
    subst hs
    simp only [List.isEmpty_cons, Bool.false_eq_true, if_false]
    unfold candidateKey
    rw [hm]
  · rw [normalizeTeamName_eq_withoutFind]
    unfold normalizeTeamNameWithoutFind
    have hm' : matchLeadingUpper (s.takeWhile isUpperAZ) = some (s.takeWhile isUpperAZ) := by
      unfold matchLeadingUpper
      rw [takeWhile_upper _ hupper, hrun]
    rw [splitHead_of_no_whitespace _ hnows, trim_of_no_whitespace _ hnows,
      exact_find_none_of_no_whitespace _ (toLowerCase_upper_no_whitespace _ hupper)]
    unfold candidateKey
    rw [hm', hrun]
    simp only [List.isEmpty_cons, Bool.false_eq_true, if_false]

/-- The Kelvin sign U+212A lowercases to `k`, so a name spelled with it is an exact match. -/
theorem kelvin_sign_exact_match :
    normalizeTeamName ("Kolkata ".toList ++ Char.ofNat 0x212A :: "night Riders".toList) =
      .str "kolkata knight riders".toList ∧
    toLowerCase [Char.ofNat 0xC9] = [Char.ofNat 0xE9] := by
  refine ⟨by decide, by decide⟩

/-- The claim about the leading run fails when the part before `" - "` is a canonical name only
after trimming: `"Mumbai Indians "` begins with `M`, its part before `" - "` is the whole string
and is, as it stands, no canonical team name up to letter case, yet the result is
`"mumbai indians"` while the leading run `"M"` gives `"m"`. -/
theorem leading_run_determines_result_fails :
    isUpperAZ 'M' = true ∧
      splitHead "Mumbai Indians ".toList = "Mumbai Indians ".toList ∧
      (∀ team ∈ iplTeams,
        toLowerCase team.name ≠ toLowerCase (splitHead "Mumbai Indians ".toList)) ∧
      "Mumbai Indians ".toList.takeWhile isUpperAZ = "M".toList ∧
      normalizeTeamName "Mumbai Indians ".toList = .str "mumbai indians".toList ∧
      normalizeTeamName ("Mumbai Indians ".toList.takeWhile isUpperAZ) = .str "m".toList ∧
      normalizeTeamName "Mumbai Indians ".toList ≠
        normalizeTeamName ("Mumbai Indians ".toList.takeWhile isUpperAZ) := by
  refine ⟨by decide, by decide, by decide, by decide, by decide, by decide, by decide⟩

/-- C26. For every string `s` that begins with a letter `A`-`Z` and whose part before the
first `" - "`, trimmed, is not a canonical team name up to letter case,
`normalizeTeamName s` is `normalizeTeamName U` for the maximal leading run `U` of capitals
of `s`; so `"Deccan Chargers"` and `"Delhi Daredevils"` both give `"d"`, and the row lookup
takes one for the other. -/
theorem leading_run_determines_result (s : Str) (c : Char) (rest : Str) (hs : s = c :: rest)
    (hc : isUpperAZ c = true)
    (hexact : ∀ team ∈ iplTeams, toLowerCase team.name ≠ toLowerCase (trim (splitHead s))) :
    normalizeTeamName s = normalizeTeamName (s.takeWhile isUpperAZ) ∧
      normalizeTeamName "Deccan Chargers".toList = .str "d".toList ∧
      normalizeTeamName "Delhi Daredevils".toList = .str "d".toList ∧
      find (deccanStandings.map cloneRow) "Delhi Daredevils".toList = some 0 := by
  have hfind : iplTeams.find?
      (fun t => toLowerCase t.name == toLowerCase (trim (splitHead s))) = none := by
    rw [List.find?_eq_none]
    intro t ht
    simpa using hexact t ht
  obtain ⟨h1, h2⟩ := normalizeTeamName_of_leading_run s c rest hs hc hfind
  exact ⟨h1.trans h2.symm, by decide, by decide, by decide⟩

theorem leading_run_determines_result_witness :
    "Deccan Chargers".toList = 'D' :: "eccan Chargers".toList ∧ isUpperAZ 'D' = true ∧
      (∀ team ∈ iplTeams,
        toLowerCase team.name ≠ toLowerCase (trim (splitHead "Deccan Chargers".toList))) ∧
      normalizeTeamName "Deccan Chargers".toList =
        normalizeTeamName ("Deccan Chargers".toList.takeWhile isUpperAZ) :=
  ⟨by decide, by decide, by decide,
    (leading_run_determines_result "Deccan Chargers".toList 'D' "eccan Chargers".toList
      (by decide) (by decide) (by decide)).1⟩

theorem teamNameMap_values_canonical :
    ∀ p ∈ teamNameMap, ∃ t ∈ iplTeams, p.2 = toLowerCase t.name := by decide

/-- The result of the resolver on a plain key: either an inherited object, or a string
that the resolver maps to itself. -/
theorem mappedName_fixed (key : Str) (h : PlainKey key) :
    (∃ x, mappedName key = .str x ∧ normalizeTeamName x = .str x) ∨
      mappedName key = .inherited "constructor".toList ∨
      mappedName key = .inherited "__proto__".toList := by
  have hplain := normalizeTeamName_of_plain key h
  unfold mappedName teamNameMapGet at hplain ⊢
  cases hl : teamNameMap.lookup key with
  | some v =>
    obtain ⟨p, hp, rfl⟩ := mem_of_lookup_eq_some _ _ _ hl
    obtain ⟨t, ht, hv⟩ := teamNameMap_values_canonical p hp
    left
    refine ⟨p.2, rfl, ?_⟩
    rw [hv]
    exact canonical_lowercase_resolve t ht
  | none =>
    rw [hl] at hplain
    by_cases hk : key ∈ objectPrototypeKeys
    · right
      simp only [hk, if_true, Option.getD_some]
      rcases lowercase_prototype_keys key hk h.2 with e | e
      · left; rw [e]
      · right; rw [e]
    · left
      simp only [hk, if_false, Option.getD_none] at hplain ⊢
      exact ⟨key, rfl, hplain⟩

theorem normalizeTeamName_fixed_or_inherited (s : Str) :
    (∃ x, normalizeTeamName s = .str x ∧ normalizeTeamName x = .str x) ∨
      normalizeTeamName s = .inherited "constructor".toList ∨
      normalizeTeamName s = .inherited "__proto__".toList := by
  rw [normalizeTeamName_eq_withoutFind s]
  unfold normalizeTeamNameWithoutFind
  by_cases he : s.isEmpty = true
  · simp only [he, if_true]
    exact Or.inl ⟨[], rfl, by decide⟩
  · simp only [he, if_false, Bool.false_eq_true]
    cases hf : iplTeams.find?
        (fun t => toLowerCase t.name == toLowerCase (trim (splitHead s))) with
    | some t0 =>
      exact Or.inl ⟨_, rfl, canonical_lowercase_resolve t0 (List.mem_of_find?_eq_some hf)⟩
    | none => exact mappedName_fixed _ (candidateKey_plain s)

/-- C25. Resolving a result again: wherever `normalizeTeamName s` is a string, the second
call returns the same string; where it is the object inherited under `"constructor"` or
`"__proto__"`, as for the input `"constructor"`, the second call throws. -/
theorem second_call_same_or_throws :
    normalizeTeamNameOfValue (normalizeTeamName "constructor".toList) = none ∧
      ∀ s : Str,
        normalizeTeamNameOfValue (normalizeTeamName s) = some (normalizeTeamName s) ∨
        ((normalizeTeamName s = .inherited "constructor".toList ∨
            normalizeTeamName s = .inherited "__proto__".toList) ∧
          normalizeTeamNameOfValue (normalizeTeamName s) = none) := by
  refine ⟨by decide, ?_⟩
  intro s
  rcases normalizeTeamName_fixed_or_inherited s with ⟨x, hx, hfix⟩ | h | h
  · left
    rw [hx]
    simp only [normalizeTeamNameOfValue, hfix]
  · right
    exact ⟨Or.inl h, by rw [h]; rfl⟩
  · right
    exact ⟨Or.inr h, by rw [h]; rfl⟩

/-! ## Sequential accumulation and the recent form (C21, C22) -/

theorem getElem?_mapWithIndex {α β : Type} (f : Nat → α → β) (xs : List α) (i k : Nat) :
    (mapWithIndex f xs i)[k]? = (xs[k]?).map (f (i + k)) := by
  induction xs generalizing i k with
  | nil => simp [mapWithIndex]
  | cons x xs ih =>
    cases k with
    | zero => simp [mapWithIndex]
    | succ k =>
      simp only [mapWithIndex, List.getElem?_cons_succ, ih]
      rw [show i + 1 + k = i + (k + 1) by omega]

theorem length_mapWithIndex {α β : Type} (f : Nat → α → β) (xs : List α) (i : Nat) :
    (mapWithIndex f xs i).length = xs.length := by
  induction xs generalizing i with
  | nil => rfl
  | cons x xs ih => simp [mapWithIndex, ih]

theorem outcomes_congr (draws : Nat → ℚ) (a b : List SimRow) (i : Nat) (ms : List Fixture)
    (k : Nat) (h : a.map (fun r => r.TEAM) = b.map (fun r => r.TEAM)) :
    outcomes draws a i ms k = outcomes draws b i ms k := by
  induction ms generalizing k with
  | nil => rfl
  | cons m ms ih =>
    simp only [outcomes, find_eq_of_teams a b _ h, ih]

theorem rowAfter_nil (r : SimRow) : rowAfter r [] = r := by
  cases r
  simp [rowAfter]

theorem rowAfter_append (r : SimRow) (a b : List Str) :
    rowAfter (rowAfter r a) b = rowAfter r (a ++ b) := by
  cases r
  simp only [rowAfter, List.length_append, List.count_append, List.append_assoc,
    SimRow.mk.injEq, true_and, and_true]
  push_cast
  refine ⟨by ring, by ring, by ring, by ring⟩

theorem winUpdate_eq_rowAfter (r : SimRow) : winUpdate r = rowAfter r [['W']] := by
  cases r
  simp [winUpdate, rowAfter, List.count_cons]

theorem lossUpdate_eq_rowAfter (r : SimRow) : lossUpdate r = rowAfter r [['L']] := by
  cases r
  simp [lossUpdate, rowAfter, List.count_cons]

theorem winUpdate_fun : winUpdate = fun r => rowAfter r [['W']] :=
  funext winUpdate_eq_rowAfter

theorem lossUpdate_fun : lossUpdate = fun r => rowAfter r [['L']] :=
  funext lossUpdate_eq_rowAfter

theorem lossUpdate_comp_winUpdate :
    lossUpdate ∘ winUpdate = fun r => rowAfter r [['W'], ['L']] := by
  funext r
  simp only [Function.comp, winUpdate_eq_rowAfter, lossUpdate_eq_rowAfter, rowAfter_append]
  rfl

theorem getElem?_simulateMatch (sim : List SimRow) (m : Fixture) (random : ℚ) (i : Nat) :
    (simulateMatch sim m random)[i]? =
      (sim[i]?).map (fun r => rowAfter r
        ((if find sim (winner m random) = some i then [['W']] else []) ++
          (if find sim (loser m random) = some i then [['L']] else []))) := by
  rw [simulateMatch_cases]
  cases hw : find sim (winner m random) with
  | none =>
    cases hl : find sim (loser m random) with
    | none => simp [rowAfter_nil]
    | some j =>
      simp only [getElem?_modifyAt]
      by_cases hij : i = j
      · subst hij
        simp [lossUpdate_fun]
      · have : ¬ j = i := fun e => hij e.symm
        simp [hij, this, rowAfter_nil]
  | some a =>
    cases hl : find sim (loser m random) with
    | none =>
      simp only [getElem?_modifyAt]
      by_cases hia : i = a
      · subst hia
        simp [winUpdate_fun]
      · have : ¬ a = i := fun e => hia e.symm
        simp [hia, this, rowAfter_nil]
    | some j =>
      simp only [getElem?_modifyAt]
      by_cases hia : i = a <;> by_cases hij : i = j
      · subst hia; subst hij
        simp [lossUpdate_comp_winUpdate]
      · subst hia
        have : ¬ j = i := fun e => hij e.symm
        simp [hij, this, winUpdate_fun]
      · subst hij
        have : ¬ a = i := fun e => hia e.symm
        simp [hia, this, lossUpdate_fun]
      · have h1 : ¬ a = i := fun e => hia e.symm
        have h2 : ¬ j = i := fun e => hij e.symm
        simp [hia, hij, h1, h2, rowAfter_nil]

/-- The row at index `i` after the fixtures have been played: the row before, with the
outcomes of its fixtures applied in fixture order. -/
theorem getElem?_playFixtures (draws : Nat → ℚ) (sim : List SimRow) (ms : List Fixture)
    (k i : Nat) :
    (playFixtures draws sim ms k)[i]? =
      (sim[i]?).map (fun r => rowAfter r (outcomes draws sim i ms k)) := by
  induction ms generalizing sim k with
  | nil => simp [playFixtures, outcomes, rowAfter_nil]
  | cons m ms ih =>
    rw [playFixtures, ih, getElem?_simulateMatch,
      outcomes_congr draws _ sim i ms (k + 1) (teams_simulateMatch sim m (draws k))]
    cases sim[i]? with
    | none => rfl
    | some r =>
      simp only [Option.map_some', outcomes, rowAfter_append, List.append_assoc]

theorem playFixtures_eq_mapWithIndex (draws : Nat → ℚ) (sim : List SimRow)
    (ms : List Fixture) (k : Nat) :
    playFixtures draws sim ms k =
      mapWithIndex (fun i r => rowAfter r (outcomes draws sim i ms k)) sim 0 := by
  apply List.ext_getElem?
  intro i
  rw [getElem?_playFixtures, getElem?_mapWithIndex]
  simp

theorem count_W_outcomes (draws : Nat → ℚ) (sim : List SimRow) (i : Nat) (ms : List Fixture)
    (k : Nat) : (outcomes draws sim i ms k).count ['W'] = winCount draws sim i ms k := by
  induction ms generalizing k with
  | nil => rfl
  | cons m ms ih =>
    simp only [outcomes, winCount, List.count_append, ih]
    by_cases hw : find sim (winner m (draws k)) = some i <;>
      by_cases hl : find sim (loser m (draws k)) = some i <;>
      simp [hw, hl, List.count_cons]

theorem count_L_outcomes (draws : Nat → ℚ) (sim : List SimRow) (i : Nat) (ms : List Fixture)
    (k : Nat) : (outcomes draws sim i ms k).count ['L'] = lossCount draws sim i ms k := by
  induction ms generalizing k with
  | nil => rfl
  | cons m ms ih =>
    simp only [outcomes, lossCount, List.count_append, ih]
    by_cases hw : find sim (winner m (draws k)) = some i <;>
      by_cases hl : find sim (loser m (draws k)) = some i <;>
      simp [hw, hl, List.count_cons]

theorem length_outcomes (draws : Nat → ℚ) (sim : List SimRow) (i : Nat) (ms : List Fixture)
    (k : Nat) :
    (outcomes draws sim i ms k).length = winCount draws sim i ms k + lossCount draws sim i ms k := by
  induction ms generalizing k with
  | nil => rfl
  | cons m ms ih =>
    simp only [outcomes, winCount, lossCount, List.length_append, ih]
    by_cases hw : find sim (winner m (draws k)) = some i <;>
      by_cases hl : find sim (loser m (draws k)) = some i <;>
      simp [hw, hl] <;> omega

theorem map_assignPositions_of_ignores_POS {β : Type} (g : Row → β)
    (hg : ∀ (r : Row) (pos : Int), g { r with POS := pos } = g r) (rows : List Row) (i : Nat) :
    (assignPositions rows i).map g = rows.map g := by
  induction rows generalizing i with
  | nil => rfl
  | cons r rs ih => simp only [assignPositions, List.map_cons, hg, ih]

theorem map_getSimulatedStandings_perm {β : Type} (g : Row → β)
    (hg : ∀ (r : Row) (pos : Int), g { r with POS := pos } = g r) (standings : List Row)
    (upcomingMatches : List Fixture) (draws : Nat → ℚ) :
    ((getSimulatedStandings standings upcomingMatches draws).map g).Perm
      (mapWithIndex (fun i r => g (finalizeRow (rowAfter (cloneRow r)
        (outcomes draws (standings.map cloneRow) i upcomingMatches 0)))) standings 0) := by
  unfold getSimulatedStandings
  simp only []
  rw [map_assignPositions_of_ignores_POS g hg]
  refine ((sortRows_perm _).map g).trans ?_
  apply List.Perm.of_eq
  apply List.ext_getElem?
  intro i
  rw [List.getElem?_map, List.getElem?_map, getElem?_playFixtures, List.getElem?_map,
    getElem?_mapWithIndex]
  cases standings[i]? with
  | none => rfl
  | some r => simp

theorem playFixtures_append (draws : Nat → ℚ) (sim : List SimRow) (a b : List Fixture)
    (k : Nat) :
    playFixtures draws sim (a ++ b) k =
      playFixtures draws (playFixtures draws sim a k) b (k + a.length) := by
  induction a generalizing sim k with
  | nil => rfl
  | cons m ms ih =>
    have := ih (simulateMatch sim m (draws k)) (k + 1)
    rw [show k + 1 + ms.length = k + (ms.length + 1) by omega] at this
    simp only [List.cons_append, playFixtures, List.length_cons]
    exact this

theorem find_winner_ne_find_loser (sim : List SimRow) (m : Fixture) (random : ℚ) (a b : Nat)
    (h1 : find sim m.Team_1 = some a) (h2 : find sim m.Team_2 = some b) (hab : a ≠ b) :
    find sim (winner m random) ≠ find sim (loser m random) := by
  have hne : m.Team_2 ≠ m.Team_1 := by
    intro e
    rw [e, h1] at h2
    exact hab (Option.some.inj h2)
  unfold loser winner
  by_cases hr : random < team1Prob m
  · simp only [hr, if_true, h1, h2]
    exact fun e => hab (Option.some.inj e)
  · simp only [hr, if_false, hne, h1, h2]
    exact fun e => hab (Option.some.inj e).symm

theorem participations_eq (draws : Nat → ℚ) (sim : List SimRow) (i : Nat) (ms : List Fixture)
    (k : Nat)
    (h : ∀ m ∈ ms, ∃ a b, find sim m.Team_1 = some a ∧ find sim m.Team_2 = some b ∧ a ≠ b) :
    participations draws sim i ms k = winCount draws sim i ms k + lossCount draws sim i ms k := by
  induction ms generalizing k with
  | nil => rfl
  | cons m ms ih =>
    obtain ⟨a, b, h1, h2, hab⟩ := h m (by simp)
    have hne := find_winner_ne_find_loser sim m (draws k) a b h1 h2 hab
    simp only [participations, winCount, lossCount, ih (k + 1) (fun x hx => h x (by simp [hx]))]
    by_cases hw : find sim (winner m (draws k)) = some i <;>
      by_cases hl : find sim (loser m (draws k)) = some i
    · exact absurd (hw.trans hl.symm) hne
    · simp [hw, hl]; omega
    · simp [hw, hl]; omega
    · simp [hw, hl]

/-- C21. Sequential accumulation: when the two participants of every fixture are located in
two distinct rows, the output rows are the input rows, reordered, with `P` raised by the
number of fixtures the row takes part in, `W` by the number it wins, `L` by the number it
loses and `PTS` by twice the number it wins; the fixtures are played one after the other,
so the table on which fixture number `j` is played already carries the outcomes of the
fixtures before it. -/
theorem sequential_accumulation (standings : List Row) (fixtures : List Fixture)
    (draws : Nat → ℚ)
    (h : ∀ m ∈ fixtures, ∃ a b, find (standings.map cloneRow) m.Team_1 = some a ∧
      find (standings.map cloneRow) m.Team_2 = some b ∧ a ≠ b) :
    ((getSimulatedStandings standings fixtures draws).map
        (fun r => (r.TEAM, r.P, r.W, r.L, r.PTS))).Perm
      (mapWithIndex (fun i r =>
        (r.TEAM,
          r.P + (participations draws (standings.map cloneRow) i fixtures 0 : Int),
          r.W + (winCount draws (standings.map cloneRow) i fixtures 0 : Int),
          r.L + (lossCount draws (standings.map cloneRow) i fixtures 0 : Int),
          r.PTS + 2 * (winCount draws (standings.map cloneRow) i fixtures 0 : Int)))
        standings 0) ∧
      ∀ j i : Nat,
        playFixtures draws (standings.map cloneRow) fixtures 0 =
          playFixtures draws (playFixtures draws (standings.map cloneRow) (fixtures.take j) 0)
            (fixtures.drop j) (fixtures.take j).length ∧
        (playFixtures draws (standings.map cloneRow) (fixtures.take j) 0)[i]? =
          ((standings.map cloneRow)[i]?).map (fun r => rowAfter r
            (outcomes draws (standings.map cloneRow) i (fixtures.take j) 0)) := by
  constructor
  · have hperm := map_getSimulatedStandings_perm
      (fun r : Row => (r.TEAM, r.P, r.W, r.L, r.PTS)) (fun _ _ => rfl) standings fixtures draws
    refine hperm.trans (List.Perm.of_eq ?_)
    apply List.ext_getElem?
    intro i
    rw [getElem?_mapWithIndex, getElem?_mapWithIndex]
    cases standings[i]? with
    | none => rfl
    | some r =>
      simp only [Option.map_some', Nat.zero_add, finalizeRow, rowAfter, cloneRow,
        count_W_outcomes, count_L_outcomes, length_outcomes,
        participations_eq draws _ i fixtures 0 h, Nat.cast_add]
  · intro j i
    refine ⟨?_, getElem?_playFixtures draws _ _ 0 i⟩
    have := playFixtures_append draws (standings.map cloneRow) (fixtures.take j)
      (fixtures.drop j) 0
    rw [List.take_append_drop, Nat.zero_add] at this
    exact this

theorem sequential_accumulation_witness :
    (∀ m ∈ scenarioFixtures, ∃ a b, find (scenarioStandings.map cloneRow) m.Team_1 = some a ∧
      find (scenarioStandings.map cloneRow) m.Team_2 = some b ∧ a ≠ b) ∧
    ((getSimulatedStandings scenarioStandings scenarioFixtures (fun _ => 0)).map
        (fun r => (r.TEAM, r.P, r.W, r.L, r.PTS))).Perm
      (mapWithIndex (fun i r =>
        (r.TEAM,
          r.P + (participations (fun _ => 0) (scenarioStandings.map cloneRow) i
            scenarioFixtures 0 : Int),
          r.W + (winCount (fun _ => 0) (scenarioStandings.map cloneRow) i
            scenarioFixtures 0 : Int),
          r.L + (lossCount (fun _ => 0) (scenarioStandings.map cloneRow) i
            scenarioFixtures 0 : Int),
          r.PTS + 2 * (winCount (fun _ => 0) (scenarioStandings.map cloneRow) i
            scenarioFixtures 0 : Int)))
        scenarioStandings 0) :=
  have hloc : ∀ m ∈ scenarioFixtures, ∃ a b,
      find (scenarioStandings.map cloneRow) m.Team_1 = some a ∧
      find (scenarioStandings.map cloneRow) m.Team_2 = some b ∧ a ≠ b := by
    intro m hm
    simp only [scenarioFixtures, List.mem_singleton] at hm
    subst hm
    exact ⟨0, 1, by decide, by decide, by decide⟩
  ⟨hloc, (sequential_accumulation scenarioStandings scenarioFixtures (fun _ => 0) hloc).1⟩

/-- C22. Recent-form truncation keeps the newest entries: the output rows are the input
rows, reordered, each with `RECENT_FORM` equal to the last five entries, joined with single
spaces, of the input form split on single spaces followed by the outcomes appended to the
row in fixture order; the entries kept are a suffix of that sequence, five of them when it
has more than five entries and all of them otherwise. -/
theorem recent_form_keeps_newest (standings : List Row) (fixtures : List Fixture)
    (draws : Nat → ℚ) :
    ((getSimulatedStandings standings fixtures draws).map
        (fun r => (r.TEAM, r.RECENT_FORM))).Perm
      (mapWithIndex (fun i r =>
        (r.TEAM, join ' ' (sliceLast5 (split ' ' r.RECENT_FORM ++
          outcomes draws (standings.map cloneRow) i fixtures 0)))) standings 0) ∧
      ∀ xs : List Str, (∃ older, xs = older ++ sliceLast5 xs ∧
        older.length = xs.length - 5) ∧ (sliceLast5 xs).length = min 5 xs.length := by
  constructor
  · exact map_getSimulatedStandings_perm
      (fun r : Row => (r.TEAM, r.RECENT_FORM)) (fun _ _ => rfl) standings fixtures draws
  · intro xs
    refine ⟨⟨xs.take (xs.length - 5), ?_, ?_⟩, ?_⟩
    · unfold sliceLast5
      rw [List.take_append_drop]
    · rw [List.length_take]; omega
    · unfold sliceLast5
      rw [List.length_drop]; omega

/-! ## Stability of the sort (C23) -/

theorem getSimulatedStandings_eq_rowsBeforeSort (standings : List Row)
    (upcomingMatches : List Fixture) (draws : Nat → ℚ) :
    getSimulatedStandings standings upcomingMatches draws =
      assignPositions (sortRows (rowsBeforeSort standings upcomingMatches draws)) 0 := rfl

theorem map_untouchedFields_rowsBeforeSort (standings : List Row)
    (upcomingMatches : List Fixture) (draws : Nat → ℚ) :
    (rowsBeforeSort standings upcomingMatches draws).map untouchedFields =
      standings.map untouchedFields := by
  unfold rowsBeforeSort
  have h1 : ((playFixtures draws (standings.map cloneRow) upcomingMatches 0).map
      finalizeRow).map untouchedFields =
      (playFixtures draws (standings.map cloneRow) upcomingMatches 0).map
        (fun r => (r.TEAM, r.NR, r.NRR, r.FOR, r.AGAINST)) := by
    simp [untouchedFields, finalizeRow, Function.comp_def]
  have h2 : (standings.map cloneRow).map (fun r => (r.TEAM, r.NR, r.NRR, r.FOR, r.AGAINST)) =
      standings.map untouchedFields := by
    simp [untouchedFields, cloneRow, Function.comp_def]
  rw [h1, map_fields_playFixtures, h2]

theorem filter_assignPositions (p : Int) (q : ℚ) (rows : List Row) (i : Nat) :
    ((assignPositions rows i).filter (fun r => decide (r.PTS = p ∧ r.NRR = q))).map withoutPOS =
      (rows.filter (fun r => decide (r.PTS = p ∧ r.NRR = q))).map withoutPOS := by
  induction rows generalizing i with
  | nil => rfl
  | cons r rs ih =>
    simp only [assignPositions, List.filter_cons]
    cases hd : decide (r.PTS = p ∧ r.NRR = q) with
    | true =>
      simp only [if_true, List.map_cons, ih]
      rfl
    | false => simp only [Bool.false_eq_true, if_false, ih]

/-- The sort keeps the rows of one tie class in their order. -/
theorem filter_sortRows (p : Int) (q : ℚ) (rows : List Row) :
    (sortRows rows).filter (fun r => decide (r.PTS = p ∧ r.NRR = q)) =
      rows.filter (fun r => decide (r.PTS = p ∧ r.NRR = q)) := by
  have hpair : (rows.filter (fun r => decide (r.PTS = p ∧ r.NRR = q))).Pairwise rankLE := by
    rw [List.pairwise_iff_forall_sublist]
    intro a b hab
    have ha : a ∈ rows.filter (fun r => decide (r.PTS = p ∧ r.NRR = q)) :=
      hab.subset (by simp)
    have hb : b ∈ rows.filter (fun r => decide (r.PTS = p ∧ r.NRR = q)) :=
      hab.subset (by simp)
    have ha' := (List.mem_filter.1 ha).2
    have hb' := (List.mem_filter.1 hb).2
    simp only [decide_eq_true_eq] at ha' hb'
    rw [rankLE_iff]
    right
    exact ⟨by rw [ha'.1, hb'.1], by rw [ha'.2, hb'.2]⟩
  have hsub : List.Sublist (rows.filter (fun r => decide (r.PTS = p ∧ r.NRR = q)))
      (sortRows rows) :=
    List.sublist_insertionSort hpair (List.filter_sublist rows)
  have hsub' := hsub.filter (fun r => decide (r.PTS = p ∧ r.NRR = q))
  rw [List.filter_filter] at hsub'
  simp only [Bool.and_self] at hsub'
  have hlen : ((sortRows rows).filter (fun r => decide (r.PTS = p ∧ r.NRR = q))).length =
      (rows.filter (fun r => decide (r.PTS = p ∧ r.NRR = q))).length :=
    ((sortRows_perm rows).filter _).length_eq
  exact (hsub'.eq_of_length hlen.symm).symm

/-- C23. Stable tie-break: the rows before the sort stand in the order of the input
standings, and for every pair of values `PTS = p`, `NRR = q` the rows that finish with
these values appear in the output in the same order as before the sort, hence in the
order of the input standings. -/
theorem stable_tie_break (standings : List Row) (upcomingMatches : List Fixture)
    (draws : Nat → ℚ) (p : Int) (q : ℚ) :
    (rowsBeforeSort standings upcomingMatches draws).map untouchedFields =
        standings.map untouchedFields ∧
      ((getSimulatedStandings standings upcomingMatches draws).filter
          (fun r => decide (r.PTS = p ∧ r.NRR = q))).map withoutPOS =
        ((rowsBeforeSort standings upcomingMatches draws).filter
          (fun r => decide (r.PTS = p ∧ r.NRR = q))).map withoutPOS := by
  refine ⟨map_untouchedFields_rowsBeforeSort standings upcomingMatches draws, ?_⟩
  rw [getSimulatedStandings_eq_rowsBeforeSort, filter_assignPositions, filter_sortRows]

/-! ## Rank monotonicity of a single result (C27) -/

/-- Sorting a list in which one element may stand too far back: the elements before it
split into those that stay ahead and those it overtakes; everything else keeps its place. -/
theorem insertionSort_one_raised {α : Type} (r : α → α → Prop) [DecidableRel r]
    (A T : List α) (w : α) (hs : (A ++ T).Pairwise r) (hw : ∀ y ∈ T, r w y) :
    ∃ A₁ A₂, A = A₁ ++ A₂ ∧ List.insertionSort r (A ++ w :: T) = A₁ ++ w :: (A₂ ++ T) := by
  induction A with
  | nil =>
    refine ⟨[], [], rfl, ?_⟩
    have hT : T.Pairwise r := by simpa using hs
    simp only [List.nil_append]
    rw [List.insertionSort_cons r hw, List.Sorted.insertionSort_eq hT]
  | cons c A' ih =>
    rw [List.cons_append, List.pairwise_cons] at hs
    obtain ⟨hc, hs'⟩ := hs
    obtain ⟨A₁, A₂, hA, hsort⟩ := ih hs'
    have hstep : List.insertionSort r (c :: A' ++ w :: T) =
        List.orderedInsert r c (A₁ ++ w :: (A₂ ++ T)) := by
      rw [List.cons_append, List.insertionSort, hsort]
    rw [hstep]
    cases A₁ with
    | cons a A₁' =>
      have hca : r c a := hc a (by rw [hA]; simp)
      refine ⟨c :: a :: A₁', A₂, by rw [hA]; rfl, ?_⟩
      rw [List.cons_append, List.orderedInsert_of_le r _ hca]
      rfl
    | nil =>
      simp only [List.nil_append] at hA ⊢
      by_cases hcw : r c w
      · refine ⟨[c], A₂, by rw [hA]; rfl, ?_⟩
        rw [List.orderedInsert_of_le r _ hcw]
        rfl
      · refine ⟨[], c :: A₂, by rw [hA]; rfl, ?_⟩
        have hrest : List.orderedInsert r c (A₂ ++ T) = c :: (A₂ ++ T) := by
          cases hl : A₂ ++ T with
          | nil => rfl
          | cons y ys =>
            have hy : r c y := hc y (by rw [hA, hl]; simp)
            exact List.orderedInsert_of_le r _ hy
        simp only [List.orderedInsert, hcw, if_false, hrest, List.nil_append, List.cons_append]

/-- Where an element other than the moved one ends up: not before its old index. -/
theorem getElem?_after_move {α : Type} (A B T : List α) (w x : α) (k : Nat)
    (hk : k ≠ A.length + B.length) (hx : (A ++ B ++ w :: T)[k]? = some x) :
    ∃ q, k ≤ q ∧ (A ++ w :: (B ++ T))[q]? = some x := by
  by_cases h1 : k < A.length
  · refine ⟨k, Nat.le_refl _, ?_⟩
    rw [List.append_assoc, List.getElem?_append_left h1] at hx
    rw [List.getElem?_append_left h1]
    exact hx
  · by_cases h2 : k < A.length + B.length
    · refine ⟨k + 1, Nat.le_succ _, ?_⟩
      rw [List.append_assoc, List.getElem?_append_right (by omega),
        List.getElem?_append_left (by omega)] at hx
      rw [List.getElem?_append_right (by omega),
        show k + 1 - A.length = (k - A.length) + 1 by omega, List.getElem?_cons_succ,
        List.getElem?_append_left (by omega)]
      exact hx
    · refine ⟨k, Nat.le_refl _, ?_⟩
      have h3 : A.length + B.length < k := by omega
      rw [List.getElem?_append_right (by simp; omega)] at hx
      rw [List.getElem?_append_right (by omega)]
      simp only [List.length_append] at hx
      rw [show k - (A.length + B.length) = (k - (A.length + B.length) - 1) + 1 by omega,
        List.getElem?_cons_succ] at hx
      rw [show k - A.length = (k - A.length - 1) + 1 by omega, List.getElem?_cons_succ,
        List.getElem?_append_right (by omega)]
      rw [show k - A.length - 1 - B.length = k - (A.length + B.length) - 1 by omega]
      exact hx

theorem rankLE_iff_keyLE (a b : Row) : rankLE a b ↔ keyLE (sortKey a) (sortKey b) :=
  rankLE_iff a b

theorem pairwise_rankLE_iff (rows : List Row) :
    rows.Pairwise rankLE ↔ (rows.map sortKey).Pairwise keyLE := by
  rw [List.pairwise_map]
  constructor
  · exact fun h => h.imp (fun {a b} hab => (rankLE_iff_keyLE a b).1 hab)
  · exact fun h => h.imp (fun {a b} hab => (rankLE_iff_keyLE a b).2 hab)

theorem map_modifyAt_comm {α β : Type} (g : α → β) (f : α → α) (f' : β → β)
    (hf : ∀ x, g (f x) = f' (g x)) (xs : List α) (i : Nat) :
    (modifyAt f xs i).map g = modifyAt f' (xs.map g) i := by
  induction xs generalizing i with
  | nil => rfl
  | cons x xs ih => cases i <;> simp [modifyAt, hf, ih]

theorem take_modifyAt {α : Type} (f : α → α) (xs : List α) (i : Nat) :
    (modifyAt f xs i).take i = xs.take i := by
  induction xs generalizing i with
  | nil => rfl
  | cons x xs ih => cases i <;> simp [modifyAt, ih]

theorem drop_modifyAt {α : Type} (f : α → α) (xs : List α) (i : Nat) :
    (modifyAt f xs i).drop (i + 1) = xs.drop (i + 1) := by
  induction xs generalizing i with
  | nil => rfl
  | cons x xs ih => cases i <;> simp [modifyAt, ih]

theorem getElem?_assignPositions (rows : List Row) (s k : Nat) :
    (assignPositions rows s)[k]? =
      (rows[k]?).map (fun r => { r with POS := ((s + k : Nat) : Int) + 1 }) := by
  induction rows generalizing s k with
  | nil => simp [assignPositions]
  | cons r rs ih =>
    cases k with
    | zero => simp [assignPositions]
    | succ k =>
      simp only [assignPositions, List.getElem?_cons_succ, ih]
      rw [show s + 1 + k = s + (k + 1) by omega]

theorem map_eraseIdx {α β : Type} (f : α → β) (xs : List α) (k : Nat) :
    (xs.eraseIdx k).map f = (xs.map f).eraseIdx k := by
  rw [List.eraseIdx_eq_take_drop_succ, List.eraseIdx_eq_take_drop_succ, List.map_append,
    List.map_take, List.map_drop]

/-- The sort keys before the sort, when one fixture has been played and both sides were
located: those of the input, with two points more at the winner's index. -/
theorem map_sortKey_rowsBeforeSort (standings : List Row) (m : Fixture) (draws : Nat → ℚ)
    (i j : Nat)
    (hw : find (standings.map cloneRow) (winner m (draws 0)) = some i)
    (hl : find (standings.map cloneRow) (loser m (draws 0)) = some j) :
    (rowsBeforeSort standings [m] draws).map sortKey =
      modifyAt (fun k => (k.1 + 2, k.2)) (standings.map sortKey) i := by
  unfold rowsBeforeSort
  simp only [playFixtures]
  rw [simulateMatch_eq_of_find _ m (draws 0) i j hw hl]
  have h1 : ((modifyAt lossUpdate (modifyAt winUpdate (standings.map cloneRow) i) j).map
      finalizeRow).map sortKey =
      (modifyAt lossUpdate (modifyAt winUpdate (standings.map cloneRow) i) j).map
        (fun r => (r.PTS, r.NRR)) := by
    simp [sortKey, finalizeRow, Function.comp_def]
  have h2 : (standings.map cloneRow).map (fun r => (r.PTS, r.NRR)) = standings.map sortKey := by
    simp [sortKey, cloneRow, Function.comp_def]
  rw [h1, map_modifyAt (fun r : SimRow => (r.PTS, r.NRR)) lossUpdate (fun _ => rfl),
    map_modifyAt_comm (fun r : SimRow => (r.PTS, r.NRR)) winUpdate
      (fun k => (k.1 + 2, k.2)) (fun _ => rfl), h2]

theorem getElem?_rowsBeforeSort_one (standings : List Row) (m : Fixture) (draws : Nat → ℚ)
    (i j : Nat)
    (hw : find (standings.map cloneRow) (winner m (draws 0)) = some i)
    (hl : find (standings.map cloneRow) (loser m (draws 0)) = some j) (hij : i ≠ j) :
    (rowsBeforeSort standings [m] draws)[i]? =
        (standings[i]?).map (fun r => finalizeRow (winUpdate (cloneRow r))) ∧
      (rowsBeforeSort standings [m] draws)[j]? =
        (standings[j]?).map (fun r => finalizeRow (lossUpdate (cloneRow r))) := by
  unfold rowsBeforeSort
  simp only [playFixtures]
  rw [simulateMatch_eq_of_find _ m (draws 0) i j hw hl]
  constructor
  · rw [List.getElem?_map, getElem?_modifyAt, getElem?_modifyAt]
    simp [hij]
    rfl
  · rw [List.getElem?_map, getElem?_modifyAt, getElem?_modifyAt]
    simp [Ne.symm hij]
    rfl

/-- The sorted rows after one fixture on a sorted table: the rows ahead of the winner split
into those that stay ahead and those it overtakes. -/
theorem sortRows_rowsBeforeSort_one (standings : List Row) (m : Fixture) (draws : Nat → ℚ)
    (i j : Nat) (hsorted : standings.Pairwise rankLE)
    (hw : find (standings.map cloneRow) (winner m (draws 0)) = some i)
    (hl : find (standings.map cloneRow) (loser m (draws 0)) = some j) :
    ∃ (ahead overtaken : List Row) (w : Row),
      (rowsBeforeSort standings [m] draws)[i]? = some w ∧
      (rowsBeforeSort standings [m] draws).take i = ahead ++ overtaken ∧
      ahead.length + overtaken.length = i ∧
      rowsBeforeSort standings [m] draws =
        ahead ++ overtaken ++ w :: (rowsBeforeSort standings [m] draws).drop (i + 1) ∧
      sortRows (rowsBeforeSort standings [m] draws) =
        ahead ++ w :: (overtaken ++ (rowsBeforeSort standings [m] draws).drop (i + 1)) := by
  have hist : i < standings.length := by
    have := findIndex_lt _ _ _ hw
    simpa using this
  have hK := map_sortKey_rowsBeforeSort standings m draws i j hw hl
  have hlen : (rowsBeforeSort standings [m] draws).length = standings.length := by
    have := congrArg List.length hK
    simpa [length_modifyAt] using this
  have hi : i < (rowsBeforeSort standings [m] draws).length := by rw [hlen]; exact hist
  have hsplit : rowsBeforeSort standings [m] draws =
      (rowsBeforeSort standings [m] draws).take i ++
        (rowsBeforeSort standings [m] draws)[i] ::
          (rowsBeforeSort standings [m] draws).drop (i + 1) := by
    rw [← List.drop_eq_getElem_cons hi, List.take_append_drop]
  have hsplit0 : standings = standings.take i ++ standings[i] :: standings.drop (i + 1) := by
    rw [← List.drop_eq_getElem_cons hist, List.take_append_drop]
  have hA : ((rowsBeforeSort standings [m] draws).take i).map sortKey =
      (standings.take i).map sortKey := by
    rw [List.map_take, hK, take_modifyAt, ← List.map_take]
  have hT : ((rowsBeforeSort standings [m] draws).drop (i + 1)).map sortKey =
      (standings.drop (i + 1)).map sortKey := by
    rw [List.map_drop, hK, drop_modifyAt, ← List.map_drop]
  have hwkey : sortKey (rowsBeforeSort standings [m] draws)[i] =
      (standings[i].PTS + 2, standings[i].NRR) := by
    have h1 : ((rowsBeforeSort standings [m] draws).map sortKey)[i]? =
        some (sortKey (rowsBeforeSort standings [m] draws)[i]) := by
      rw [List.getElem?_map, List.getElem?_eq_getElem hi]
      rfl
    rw [hK, getElem?_modifyAt, List.getElem?_map, List.getElem?_eq_getElem hist] at h1
    simp only [if_true, Option.map_some', Option.some.injEq] at h1
    rw [← h1]
    rfl
  have hpair : ((rowsBeforeSort standings [m] draws).take i ++
      (rowsBeforeSort standings [m] draws).drop (i + 1)).Pairwise rankLE := by
    rw [pairwise_rankLE_iff, List.map_append, hA, hT, ← List.map_append, ← pairwise_rankLE_iff,
      ← List.eraseIdx_eq_take_drop_succ]
    exact hsorted.sublist (List.eraseIdx_sublist _ _)
  have hafter : ∀ y ∈ (rowsBeforeSort standings [m] draws).drop (i + 1),
      rankLE (rowsBeforeSort standings [m] draws)[i] y := by
    intro y hy
    have hmem : sortKey y ∈ (standings.drop (i + 1)).map sortKey := by
      rw [← hT]
      exact List.mem_map.2 ⟨y, hy, rfl⟩
    obtain ⟨y0, hy0, hkey⟩ := List.mem_map.1 hmem
    have hs0 := hsorted
    rw [hsplit0, List.pairwise_append] at hs0
    have hrel : rankLE standings[i] y0 := (List.pairwise_cons.1 hs0.2.1).1 y0 hy0
    rw [rankLE_iff_keyLE] at hrel ⊢
    rw [hwkey, ← hkey]
    unfold keyLE sortKey at hrel ⊢
    simp only at hrel ⊢
    left
    rcases hrel with h | ⟨h, _⟩ <;> omega
  obtain ⟨A₁, A₂, hsp, hsort⟩ := insertionSort_one_raised rankLE _ _ _ hpair hafter
  refine ⟨A₁, A₂, (rowsBeforeSort standings [m] draws)[i], List.getElem?_eq_getElem hi, hsp,
    ?_, ?_, ?_⟩
  · have := congrArg List.length hsp
    rw [List.length_take, List.length_append] at this
    omega
  · rw [← hsp]
    exact hsplit
  · unfold sortRows
    rw [← hsort, ← hsplit]

/-- C27. Rank monotonicity of a single result: on standings ordered by descending `PTS`
then descending `NRR`, after one fixture whose winner is located at row `i` and whose loser
at another row `j`, the winner's row stands at an output index `p ≤ i` with `POS = p + 1`,
the loser's row at an output index `q ≥ j` with `POS = q + 1`, and the output without the
winner's row lists the other rows in their order before the sort, which is the order of
the input. -/
theorem rank_monotone (standings : List Row) (m : Fixture) (draws : Nat → ℚ) (i j : Nat)
    (hsorted : standings.Pairwise
      (fun a b => b.PTS < a.PTS ∨ (b.PTS = a.PTS ∧ b.NRR ≤ a.NRR)))
    (hw : find (standings.map cloneRow) (winner m (draws 0)) = some i)
    (hl : find (standings.map cloneRow) (loser m (draws 0)) = some j) (hij : i ≠ j) :
    ∃ (p q : Nat) (w l : Row),
      (standings[i]?).map (fun r => finalizeRow (winUpdate (cloneRow r))) = some w ∧
      (standings[j]?).map (fun r => finalizeRow (lossUpdate (cloneRow r))) = some l ∧
      p ≤ i ∧ j ≤ q ∧
      (getSimulatedStandings standings [m] draws)[p]? = some { w with POS := (p : Int) + 1 } ∧
      (getSimulatedStandings standings [m] draws)[q]? = some { l with POS := (q : Int) + 1 } ∧
      ((getSimulatedStandings standings [m] draws).eraseIdx p).map withoutPOS =
        ((rowsBeforeSort standings [m] draws).eraseIdx i).map withoutPOS := by
  have hs : standings.Pairwise rankLE :=
    hsorted.imp (fun {a b} hab => (rankLE_iff a b).2 hab)
  obtain ⟨ahead, overtaken, w, hwrow, htake, hlen, hpre, hsort⟩ :=
    sortRows_rowsBeforeSort_one standings m draws i j hs hw hl
  obtain ⟨hwi, hlj⟩ := getElem?_rowsBeforeSort_one standings m draws i j hw hl hij
  have hjst : j < standings.length := by
    have := findIndex_lt _ _ _ hl
    simpa using this
  have hlrow : (rowsBeforeSort standings [m] draws)[j]? =
      some (finalizeRow (lossUpdate (cloneRow standings[j]))) := by
    rw [hlj, List.getElem?_eq_getElem hjst]
    rfl
  have hmove : ∃ q, j ≤ q ∧
      (ahead ++ w :: (overtaken ++ (rowsBeforeSort standings [m] draws).drop (i + 1)))[q]? =
        some (finalizeRow (lossUpdate (cloneRow standings[j]))) := by
    apply getElem?_after_move ahead overtaken _ w _ j (by omega)
    rw [← hpre]
    exact hlrow
  obtain ⟨q, hq, hqrow⟩ := hmove
  refine ⟨ahead.length, q, w, finalizeRow (lossUpdate (cloneRow standings[j])), ?_, ?_,
    by omega, hq, ?_, ?_, ?_⟩
  · rw [← hwi]; exact hwrow
  · rw [← hlj]; exact hlrow
  · rw [getSimulatedStandings_eq_rowsBeforeSort, getElem?_assignPositions, hsort,
      List.getElem?_append_right (Nat.le_refl _)]
    simp
  · rw [getSimulatedStandings_eq_rowsBeforeSort, getElem?_assignPositions, hsort, hqrow]
    simp
  · rw [getSimulatedStandings_eq_rowsBeforeSort, map_eraseIdx,
      map_assignPositions_of_ignores_POS withoutPOS (fun _ _ => rfl), ← map_eraseIdx, hsort,
      List.eraseIdx_append_of_length_le (Nat.le_refl _), Nat.sub_self,
      List.eraseIdx_eq_take_drop_succ (rowsBeforeSort standings [m] draws) i, htake]
    simp

theorem rank_monotone_witness :
    scenarioStandings.Pairwise (fun a b => b.PTS < a.PTS ∨ (b.PTS = a.PTS ∧ b.NRR ≤ a.NRR)) ∧
      find (scenarioStandings.map cloneRow) (winner scenarioFixture ((fun _ => 0) 0)) = some 0 ∧
      find (scenarioStandings.map cloneRow) (loser scenarioFixture ((fun _ => 0) 0)) = some 1 ∧
      ∃ (p q : Nat) (w l : Row),
        (scenarioStandings[0]?).map (fun r => finalizeRow (winUpdate (cloneRow r))) = some w ∧
        (scenarioStandings[1]?).map (fun r => finalizeRow (lossUpdate (cloneRow r))) = some l ∧
        p ≤ 0 ∧ 1 ≤ q ∧
        (getSimulatedStandings scenarioStandings [scenarioFixture] (fun _ => 0))[p]? =
          some { w with POS := (p : Int) + 1 } ∧
        (getSimulatedStandings scenarioStandings [scenarioFixture] (fun _ => 0))[q]? =
          some { l with POS := (q : Int) + 1 } ∧
        ((getSimulatedStandings scenarioStandings [scenarioFixture] (fun _ => 0)).eraseIdx
            p).map withoutPOS =
          ((rowsBeforeSort scenarioStandings [scenarioFixture] (fun _ => 0)).eraseIdx
            0).map withoutPOS :=
  have hsorted : scenarioStandings.Pairwise
      (fun a b => b.PTS < a.PTS ∨ (b.PTS = a.PTS ∧ b.NRR ≤ a.NRR)) := by
    simp [scenarioStandings]
    norm_num
  have hw : find (scenarioStandings.map cloneRow)
      (winner scenarioFixture ((fun _ => 0) 0)) = some 0 := by
    rw [scenario_winner _ (by norm_num)]; decide
  have hl : find (scenarioStandings.map cloneRow)
      (loser scenarioFixture ((fun _ => 0) 0)) = some 1 := by
    rw [scenario_loser _ (by norm_num)]; decide
  ⟨hsorted, hw, hl,
    rank_monotone scenarioStandings scenarioFixture (fun _ => 0) 0 1 hsorted hw hl (by decide)⟩

end IPL
